import Mathlib

/-! mercury: ring sizing, socket setup, ring draining and capture-file replay

A shallow embedding of the parts of `af_packet_v3.c` and `pcap_file_io.c`
that size the receive rings, set up the sockets, drain the rings, and read,
write and replay capture files, followed by theorems about them.

Conventions of the embedding:

* C unsigned integers are natural numbers reduced modulo `2^w` wherever the
  code stores into a `w`-bit object; `int` values are integers reduced to
  the two's-complement range by `wrap_int32`.
* A function that can call `exit` or divide by zero returns an `Outcome`.
* Pointers into the mapped ring are natural-number addresses.
* Calls of the frame handler, of `poll` and stores to a block status are
  recorded as lists of calls or events, in program order.
* Loops whose trip count is not known on entry recurse on a bound that is
  proved never to run out.
* Files are ideal: `fopen` of a file that is there, `fwrite` and `fseek`
  succeed.  Messages are modelled where a property is about them (ring
  sizing, `pcap_file_open`).
* The host is little-endian and LP64 (`long` is 64 bits), as on the Linux
  x86-64 targets of the program.
-/

namespace Mercury

/-! ## Machine integers and process outcomes -/

/-- Number of values of a 32-bit object. -/
def U32 : Nat := 2 ^ 32

/-- Number of values of a 64-bit object. -/
def U64 : Nat := 2 ^ 64

/-- Value of an `int` holding the 32-bit pattern of `x`
(conversion of an out-of-range value to `int`, two's complement). -/
def to_int32 (x : Nat) : Int :=
  if x % 2 ^ 32 < 2 ^ 31 then ((x % 2 ^ 32 : Nat) : Int) else ((x % 2 ^ 32 : Nat) : Int) - 2 ^ 32

/-- Reduction of an integer to the range of `int`.  Signed overflow is
undefined in C; the model takes the two's-complement wraparound that the
compiled code performs. -/
def wrap_int32 (x : Int) : Int :=
  (x + 2 ^ 31) % 2 ^ 32 - 2 ^ 31

/-- Conversion of an `int` to `uint64_t` (sign extension, then reduction
modulo `2^64`). -/
def int_to_u64 (x : Int) : Nat :=
  (x % 2 ^ 64).toNat

/-- How a call ends: it returns a value, it calls `exit` with a status, or
it performs an integer division by zero (the process is killed). -/
inductive Outcome (α : Type) where
  | ret (a : α)
  | exit (code : Nat)
  | div_by_zero
  deriving Repr, DecidableEq

/-- The value a call returns, if it returns. -/
def Outcome.returned {α : Type} : Outcome α → Option α
  | Outcome.ret a => some a
  | Outcome.exit _ => none
  | Outcome.div_by_zero => none

/-! ## Ring sizing (`af_packet_bind_and_dispatch`, lines 474-515) -/

/-- Modelled from the spec: `struct ring_limits` is declared in
`af_packet_v3.h`, which is not among the sources.  The fields are the ones
`af_packet_bind_and_dispatch` and `ring_limits_init` use; `af_desired_memory`
is a `uint64_t` (it is printed with `%lu` and compared with a `uint64_t`
product), the others are 32-bit. -/
structure ring_limits where
  af_desired_memory : Nat
  af_ring_limit : Nat
  af_framesize : Nat
  af_blocksize : Nat
  af_min_blocksize : Nat
  af_target_blocks : Nat
  af_min_blocks : Nat
  af_blocktimeout : Nat
  af_fanout_type : Nat
  deriving Repr, DecidableEq

/-- The ring request `struct tpacket_req3` of `linux/if_packet.h`. -/
structure tpacket_req3 where
  tp_block_size : Nat
  tp_block_nr : Nat
  tp_frame_size : Nat
  tp_frame_nr : Nat
  tp_retire_blk_tov : Nat
  tp_sizeof_priv : Nat
  tp_feature_req_word : Nat
  deriving Repr, DecidableEq

/-- The constant `TP_FT_REQ_FILL_RXHASH` of `linux/if_packet.h`. -/
def TP_FT_REQ_FILL_RXHASH : Nat := 1

/-- Messages the ring sizing writes to `stderr`. -/
inductive ring_msg where
  | notice_desired_exceeds_limit
  | error_too_few_blocks (blockcount min_blocks : Nat)
  | error_blocksize_not_multiple (blocksize framesize : Nat)
  | notice_less_than_desired (requested desired : Nat)
  deriving Repr, DecidableEq

/-- The local `thread_ring_size` (a `uint32_t`) after lines 474-480. -/
def thread_ring_size (rlp : ring_limits) (num_threads : Nat) : Outcome Nat :=
  if num_threads = 0 then Outcome.div_by_zero
  else if rlp.af_desired_memory / num_threads > rlp.af_ring_limit then
    Outcome.ret (rlp.af_ring_limit % U32)
  else
    Outcome.ret (rlp.af_desired_memory / num_threads % U32)

/-- The halving loop of lines 486-489, by recursion on a bound `fuel` on the
number of iterations left.  The second operand of `&&` divides by the block
size and is evaluated only when the first holds.  Every iteration makes the
block size strictly smaller, so a bound above the block size is never used
up (`halve_blocksize_loop_fuel`). -/
def halve_blocksize_loop (rlp : ring_limits) (size : Nat) : Nat → Nat → Outcome Nat
  | 0, blocksize => Outcome.ret blocksize
  | fuel + 1, blocksize =>
    if blocksize / 2 ≥ rlp.af_min_blocksize then
      if blocksize = 0 then Outcome.div_by_zero
      else if size / blocksize < rlp.af_target_blocks then
        halve_blocksize_loop rlp size fuel (blocksize / 2)
      else Outcome.ret blocksize
    else Outcome.ret blocksize

/-- The value of `thread_ring_blocksize` when the loop of lines 486-489 is
left, entered with the value `blocksize`. -/
def halve_blocksize (rlp : ring_limits) (size : Nat) (blocksize : Nat) : Outcome Nat :=
  halve_blocksize_loop rlp size (blocksize + 1) blocksize

/-- Lines 490-515 of `af_packet_bind_and_dispatch`, given the ring size and
the block size left by the loop: the messages written and the request. -/
def ring_request (rlp : ring_limits) (num_threads : Nat) (size blocksize : Nat) :
    List ring_msg × Outcome tpacket_req3 :=
  if blocksize = 0 then ([], Outcome.div_by_zero)
  else
    let thread_ring_blockcount := size / blocksize % U32
    if thread_ring_blockcount < rlp.af_min_blocks then
      ([ring_msg.error_too_few_blocks thread_ring_blockcount rlp.af_min_blocks], Outcome.exit 255)
    else if rlp.af_framesize = 0 then ([], Outcome.div_by_zero)
    else if blocksize % rlp.af_framesize ≠ 0 then
      ([ring_msg.error_blocksize_not_multiple blocksize rlp.af_framesize], Outcome.exit 255)
    else
      let requested := num_threads % U64 * thread_ring_blockcount % U64 * blocksize % U64
      let notice :=
        if requested < rlp.af_desired_memory then
          [ring_msg.notice_less_than_desired requested rlp.af_desired_memory]
        else []
      (notice, Outcome.ret
        { tp_block_size := blocksize
          tp_frame_size := rlp.af_framesize
          tp_block_nr := thread_ring_blockcount
          tp_frame_nr := blocksize * thread_ring_blockcount % U32 / rlp.af_framesize
          tp_retire_blk_tov := rlp.af_blocktimeout
          tp_sizeof_priv := 0
          tp_feature_req_word := TP_FT_REQ_FILL_RXHASH })

/-- The ring-sizing computation of `af_packet_bind_and_dispatch`
(lines 474-515): the messages written to `stderr` and either the request
`thread_ring_req` or the way the process ended. -/
def thread_ring_req (rlp : ring_limits) (num_threads : Nat) :
    List ring_msg × Outcome tpacket_req3 :=
  match thread_ring_size rlp num_threads with
  | Outcome.exit c => ([], Outcome.exit c)
  | Outcome.div_by_zero => ([], Outcome.div_by_zero)
  | Outcome.ret size =>
    let capped :=
      if rlp.af_desired_memory / num_threads > rlp.af_ring_limit then
        [ring_msg.notice_desired_exceeds_limit]
      else []
    match halve_blocksize rlp size (rlp.af_blocksize % U32) with
    | Outcome.exit c => (capped, Outcome.exit c)
    | Outcome.div_by_zero => (capped, Outcome.div_by_zero)
    | Outcome.ret blocksize =>
      let r := ring_request rlp num_threads size blocksize
      (capped ++ r.1, r.2)

/-- The constants `ring_limits_init` sets (lines 651-658), for a desired
memory `mem`; `PACKET_FANOUT_HASH` is 0 in `linux/if_packet.h`. -/
def ring_limits_default (mem : Nat) : ring_limits :=
  { af_desired_memory := mem
    af_ring_limit := 0xffffffff
    af_framesize := 2 * 2 ^ 10
    af_blocksize := 4 * 2 ^ 20
    af_min_blocksize := 64 * 2 ^ 10
    af_target_blocks := 64
    af_min_blocks := 8
    af_blocktimeout := 100
    af_fanout_type := 0 }

/-! ## The mapped ring and the frame dispatcher (`process_all_packets_in_block`) -/

/-- The constant `TP_STATUS_KERNEL` of `linux/if_packet.h`. -/
def TP_STATUS_KERNEL : Nat := 0

/-- The constant `TP_STATUS_USER` of `linux/if_packet.h`. -/
def TP_STATUS_USER : Nat := 1

/-- The fields of `struct tpacket_hdr_v1` (`hdr.bh1` of a block descriptor)
that the program reads or writes; all are 32-bit. -/
structure tpacket_hdr_v1 where
  block_status : Nat
  num_pkts : Nat
  offset_to_first_pkt : Nat
  deriving Repr, DecidableEq

/-- The fields of `struct tpacket3_hdr` (a frame record) up to `tp_mac`; all
are 32-bit except `tp_mac`, which is 16-bit. -/
structure tpacket3_hdr where
  tp_next_offset : Nat
  tp_sec : Nat
  tp_nsec : Nat
  tp_snaplen : Nat
  tp_len : Nat
  tp_status : Nat
  tp_mac : Nat
  deriving Repr, DecidableEq

/-- The mapped ring as the program reads it: the block descriptor and the
frame record found at an address. -/
structure ring_memory where
  block : Nat → tpacket_hdr_v1
  pkt : Nat → tpacket3_hdr

/-- The `struct timespec` of a `packet_info`; `time_t` and `long` are 64-bit
signed. -/
structure timespec where
  tv_sec : Int
  tv_nsec : Int
  deriving Repr, DecidableEq

/-- Modelled from the spec: `struct packet_info` is declared in a header that
is not among the sources.  It is the handler-visible tuple
`{tv_sec, tv_nsec, caplen, len}` of the data model, with 32-bit unsigned
lengths. -/
structure packet_info where
  ts : timespec
  caplen : Nat
  len : Nat
  deriving Repr, DecidableEq

/-- One invocation `handler->func(&handler->context, &pi, eth)` made by the
frame dispatcher: the packet information and the L2 pointer passed. -/
structure frame_call where
  pi : packet_info
  eth : Nat
  deriving Repr, DecidableEq

/-- Modelled from the spec: `struct stats_tracking` is declared in
`af_packet_v3.h`, which is not among the sources.  These are its five
counters, 64-bit unsigned as `stats_thread_func` reads them. -/
structure stats_tracking where
  received_packets : Nat
  received_bytes : Nat
  socket_packets : Nat
  socket_drops : Nat
  socket_freezes : Nat
  deriving Repr, DecidableEq

/-- The `for` loop of `process_all_packets_in_block` (lines 82-96) with
`count` iterations left, `pkt_hdr` the address of the current record,
`byte_count` the `unsigned long` accumulator and `calls` the handler
invocations made so far. -/
def packet_loop (mem : ring_memory) : Nat → Nat → Nat → List frame_call → Nat × List frame_call
  | 0, _, byte_count, calls => (byte_count, calls)
  | count + 1, pkt_hdr, byte_count, calls =>
    let hdr := mem.pkt pkt_hdr
    let byte_count := (byte_count + hdr.tp_snaplen) % U64
    let pi : packet_info :=
      { ts := { tv_sec := (hdr.tp_sec : Int), tv_nsec := (hdr.tp_nsec : Int) }
        caplen := hdr.tp_snaplen
        len := hdr.tp_snaplen }
    let eth := pkt_hdr + hdr.tp_mac
    packet_loop mem count (pkt_hdr + hdr.tp_next_offset) byte_count (calls ++ [{ pi := pi, eth := eth }])

/-- The function `process_all_packets_in_block` (lines 72-103) on the block
descriptor at address `block_hdr`: the updated counters and the handler
invocations made, in order.  `num_pkts` is an `int` initialised from the
32-bit header field; the loop runs while `i < num_pkts`. -/
def process_all_packets_in_block (mem : ring_memory) (block_hdr : Nat)
    (statst : stats_tracking) : stats_tracking × List frame_call :=
  let num_pkts : Int := to_int32 (mem.block block_hdr).num_pkts
  let r := packet_loop mem num_pkts.toNat
    (block_hdr + (mem.block block_hdr).offset_to_first_pkt) 0 []
  ({ statst with
      received_packets := (statst.received_packets + int_to_u64 num_pkts) % U64
      received_bytes := (statst.received_bytes + r.1) % U64 },
   r.2)

/-! ## The ring drainer (`af_packet_rx_ring_fanout_capture`, lines 396-423) -/

/-- Modelled from the spec: `struct thread_storage` is declared in
`af_packet_v3.h`, which is not among the sources.  These are the fields the
main loop uses: the worker number, the block-pointer index (the address of
block `i`) and the ring parameters. -/
structure thread_storage where
  tnum : Nat
  block_header : Nat → Nat
  ring_params : tpacket_req3

/-- What a loop iteration of the drainer does that is visible outside it. -/
inductive drainer_event where
  | poll (timeout_ms : Nat)
  | perror_poll
  | process_block (block_hdr : Nat)
  | frame (call : frame_call)
  | set_block_status (block_hdr : Nat) (status : Nat)
  deriving Repr, DecidableEq

/-- The variables a loop iteration reads and writes: the mapped ring, the
shared counters, and the locals `pstreak` (an `int`) and `cb` (an
`unsigned int`). -/
structure drainer_state where
  mem : ring_memory
  statst : stats_tracking
  pstreak : Int
  cb : Nat

/-- The store `block_hdr->hdr.bh1.block_status = status`. -/
def set_block_status (mem : ring_memory) (block_hdr : Nat) (status : Nat) : ring_memory :=
  { mem with
      block := fun a =>
        if a = block_hdr then { mem.block a with block_status := status } else mem.block a }

/-- The expression `(cb + 1) % thread_block_count` in `unsigned int`
arithmetic; the remainder by zero is a division by zero. -/
def next_block (cb thread_block_count : Nat) : Outcome Nat :=
  if thread_block_count = 0 then Outcome.div_by_zero
  else Outcome.ret ((cb + 1) % U32 % thread_block_count)

/-- One iteration of the main loop (lines 401-422), where `polret` is what
`poll` returns if the iteration calls it: the state after the iteration and
the events of the iteration, in order. -/
def drainer_iteration (thread_stor : thread_storage) (polret : Int) (s : drainer_state) :
    Outcome (drainer_state × List drainer_event) :=
  let thread_block_count := thread_stor.ring_params.tp_block_nr
  let block_hdr := thread_stor.block_header s.cb
  if (s.mem.block block_hdr).block_status &&& TP_STATUS_USER = 0 then
    let perror := if polret < 0 then [drainer_event.perror_poll] else []
    let pstreak :=
      if polret < 0 then s.pstreak
      else if polret > 0 then wrap_int32 (s.pstreak + 1)
      else s.pstreak
    if pstreak > 2 then
      match next_block s.cb thread_block_count with
      | Outcome.ret cb =>
        Outcome.ret ({ s with pstreak := pstreak, cb := cb }, drainer_event.poll 1000 :: perror)
      | Outcome.exit c => Outcome.exit c
      | Outcome.div_by_zero => Outcome.div_by_zero
    else
      Outcome.ret ({ s with pstreak := pstreak }, drainer_event.poll 1000 :: perror)
  else
    let r := process_all_packets_in_block s.mem block_hdr s.statst
    let mem := set_block_status s.mem block_hdr TP_STATUS_KERNEL
    let events := drainer_event.process_block block_hdr :: r.2.map drainer_event.frame
      ++ [drainer_event.set_block_status block_hdr TP_STATUS_KERNEL]
    match next_block s.cb thread_block_count with
    | Outcome.ret cb =>
      Outcome.ret ({ mem := mem, statst := r.1, pstreak := 0, cb := cb }, events)
    | Outcome.exit c => Outcome.exit c
    | Outcome.div_by_zero => Outcome.div_by_zero

/-- Whether an event is a call of `process_all_packets_in_block`. -/
def drainer_event.is_process_block : drainer_event → Bool
  | drainer_event.process_block _ => true
  | _ => false

/-- Whether an event is a store to a block status. -/
def drainer_event.is_set_block_status : drainer_event → Bool
  | drainer_event.set_block_status _ _ => true
  | _ => false

/-- Whether an event is an invocation of the frame handler. -/
def drainer_event.is_frame : drainer_event → Bool
  | drainer_event.frame _ => true
  | _ => false

/-- Whether an event is a call of `poll`. -/
def drainer_event.is_poll : drainer_event → Bool
  | drainer_event.poll _ => true
  | _ => false

/-- Address of record `i` (counting from 0) of the chain of frame records
that starts at `first` and is linked by `tp_next_offset`. -/
def record_addr (mem : ring_memory) (first : Nat) : Nat → Nat
  | 0 => first
  | i + 1 => record_addr mem first i + (mem.pkt (record_addr mem first i)).tp_next_offset

/-- A sequence of calls of `process_all_packets_in_block`, each on the ring
as it is at the time of the call and on one block descriptor: the counters
after the last call and all handler invocations made, in order. -/
def process_blocks : List (ring_memory × Nat) → stats_tracking → stats_tracking × List frame_call
  | [], statst => (statst, [])
  | (mem, block_hdr) :: rest, statst =>
    let r := process_all_packets_in_block mem block_hdr statst
    let r2 := process_blocks rest r.1
    (r2.1, r.2 ++ r2.2)

/-! ## Capture files (`pcap_file_io.c`): bytes, streams and structures -/

/-- One octet of a file or a buffer. -/
abbrev Byte := Fin 256

/-- The low octet of a number. -/
def byte (x : Nat) : Byte := ⟨x % 256, Nat.mod_lt x (by decide)⟩

/-- The four octets of a 32-bit object in memory (little-endian host). -/
def u32_bytes (x : Nat) : List Byte :=
  [byte x, byte (x / 256), byte (x / 65536), byte (x / 16777216)]

/-- The two octets of a 16-bit object in memory (little-endian host). -/
def u16_bytes (x : Nat) : List Byte :=
  [byte x, byte (x / 256)]

/-- The 32-bit object whose octets start a list (little-endian host). -/
def le32 : List Byte → Nat
  | b0 :: b1 :: b2 :: b3 :: _ => b0.val + 256 * b1.val + 65536 * b2.val + 16777216 * b3.val
  | _ => 0

/-- The functions `ntohl` and `htonl` on a little-endian host: the octets of
a 32-bit value in reverse order. -/
def ntohl (x : Nat) : Nat :=
  x % 256 * 16777216 + x / 256 % 256 * 65536 + x / 65536 % 256 * 256 + x / 16777216 % 256

/-- Reduction of an integer to the range of `long` (64-bit two's
complement). -/
def wrap_int64 (x : Int) : Int :=
  (x + 2 ^ 63) % 2 ^ 64 - 2 ^ 63

/-- A `FILE` stream over a regular file: the octets of the file and the file
position.  The file system is taken to be ideal: `fopen` of an existing
file, `fwrite` and `fseek` succeed. -/
structure FILE where
  data : List Byte
  pos : Nat
  deriving Repr, DecidableEq

/-- The call `fread(ptr, size, 1, fp)`: the number of items read (0 or 1),
the octets transferred to `ptr`, and the stream after the call.  A size of
zero reads nothing and returns 0; when fewer than `size` octets are left the
call transfers them, leaves the position at the end of the file and
returns 0. -/
def fread (fp : FILE) (size : Nat) : Nat × List Byte × FILE :=
  if size = 0 then (0, [], fp)
  else if size ≤ (fp.data.drop fp.pos).length then
    (1, (fp.data.drop fp.pos).take size, { fp with pos := fp.pos + size })
  else
    (0, fp.data.drop fp.pos, { fp with pos := fp.pos + (fp.data.drop fp.pos).length })

/-- The call `fwrite(ptr, size, 1, fp)` of the octets `bytes` (`size` is
their number): the number of items written and the stream after the call. -/
def fwrite (fp : FILE) (bytes : List Byte) : Nat × FILE :=
  if bytes.length = 0 then (0, fp)
  else
    (1, { data := fp.data.take fp.pos ++ bytes ++ fp.data.drop (fp.pos + bytes.length)
          pos := fp.pos + bytes.length })

/-- The call `fseek(fp, offset, SEEK_CUR)` with a non-negative offset. -/
def fseek_cur (fp : FILE) (offset : Nat) : FILE :=
  { fp with pos := fp.pos + offset }

/-- The call `fseek(fp, offset, SEEK_SET)`. -/
def fseek_set (fp : FILE) (offset : Nat) : FILE :=
  { fp with pos := offset }

/-- The octets `ptr` points to after `bytes` have been stored at its start. -/
def store_bytes (buffer : List Byte) (bytes : List Byte) : List Byte :=
  bytes ++ buffer.drop bytes.length

/-- The `enum status` of `mercury.h`. -/
inductive status where
  | status_ok
  | status_err
  | status_err_no_more_data
  deriving Repr, DecidableEq

/-- Modelled from the spec: `enum io_direction` is declared in
`pcap_file_io.h`, which is not among the sources.  `pcap_file_open` knows a
reader and a writer direction; any other value takes the `default` case. -/
inductive io_direction where
  | io_direction_reader
  | io_direction_writer
  | other
  deriving Repr, DecidableEq

/-- The constant `O_RDONLY` of `fcntl.h`. -/
def O_RDONLY : Nat := 0

/-- The constant `O_WRONLY` of `fcntl.h`. -/
def O_WRONLY : Nat := 1

/-- Modelled from the spec: `struct pcap_file` is declared in
`pcap_file_io.h`, which is not among the sources.  These are the fields the
functions below read or write, apart from the descriptor, the stream buffer
and the preallocation size, which affect neither the octets of the file nor
a returned status.  `file_ptr` is `none` for a null pointer. -/
structure pcap_file where
  file_ptr : Option FILE
  flags : Nat
  byteswap : Nat
  bytes_written : Nat
  packets_written : Nat
  deriving Repr, DecidableEq

/-- The `struct timeval` of a `pcap_pkthdr`; both fields are `long`. -/
structure timeval where
  tv_sec : Int
  tv_usec : Int
  deriving Repr, DecidableEq

/-- Modelled from the spec: `struct pcap_pkthdr` is declared in
`pcap_file_io.h`, which is not among the sources.  It is the usual capture
record header: a `timeval` and the 32-bit `caplen` and `len`. -/
structure pcap_pkthdr where
  ts : timeval
  caplen : Nat
  len : Nat
  deriving Repr, DecidableEq

/-- The constant `BUFLEN` (line 263). -/
def BUFLEN : Nat := 16384

/-- The file-format constant `magic` (line 35). -/
def magic : Nat := 0xa1b2c3d4

/-- The file-format constant `cagim` (line 36). -/
def cagim : Nat := 0xd4c3b2a1

/-- The size of `struct pcap_file_hdr`. -/
def sizeof_pcap_file_hdr : Nat := 24

/-- The size of `struct pcap_packet_hdr`. -/
def sizeof_pcap_packet_hdr : Nat := 16

/-- The octets of the `struct pcap_file_hdr` that `pcap_file_open` writes
(lines 134-140). -/
def file_header_bytes : List Byte :=
  u32_bytes magic ++ u16_bytes 2 ++ u16_bytes 4 ++ u32_bytes 0 ++ u32_bytes 0
    ++ u32_bytes 65535 ++ u32_bytes 1

/-- Messages `pcap_file_open` writes. -/
inductive open_msg where
  | unsupported_flag
  | error_opening
  | error_writing_header
  | could_not_read_header
  | not_in_pcap_format (magic_number : Nat)
  | pcap_ng_unsupported
  deriving Repr, DecidableEq

/-- The function `pcap_file_open` (lines 85-212).  `opened` is what `fopen`
finds: `none` when the file cannot be opened, otherwise the octets of the
existing file (mode `"w"` truncates them).  The result is the messages
written and either the returned status with the `pcap_file`, or the way the
process ended.  The byte-swapped copies of the other header fields are
locals that are never read again. -/
def pcap_file_open (f : pcap_file) (opened : Option (List Byte)) (dir : io_direction) :
    List open_msg × Outcome (status × pcap_file) :=
  match dir with
  | io_direction.other => ([open_msg.unsupported_flag], Outcome.ret (status.status_err, f))
  | io_direction.io_direction_writer =>
    match opened with
    | none =>
      ([open_msg.error_opening],
        Outcome.ret (status.status_err, { f with flags := O_WRONLY, file_ptr := none }))
    | some _ =>
      let w := fwrite { data := [], pos := 0 } file_header_bytes
      if w.1 = 0 then
        ([open_msg.error_writing_header],
          Outcome.ret (status.status_err, { f with flags := O_WRONLY, file_ptr := none }))
      else
        ([], Outcome.ret (status.status_ok,
          { f with flags := O_WRONLY, file_ptr := some w.2, bytes_written := sizeof_pcap_file_hdr }))
  | io_direction.io_direction_reader =>
    match opened with
    | none =>
      ([open_msg.error_opening],
        Outcome.ret (status.status_err, { f with flags := O_RDONLY, file_ptr := none }))
    | some octets =>
      let r := fread { data := octets, pos := 0 } sizeof_pcap_file_hdr
      let f1 : pcap_file := { f with flags := O_RDONLY, file_ptr := some r.2.2, bytes_written := 0 }
      if r.1 = 0 then
        ([open_msg.could_not_read_header], Outcome.ret (status.status_err, f1))
      else
        let magic_number := le32 r.2.1
        if magic_number = magic then
          ([], Outcome.ret (status.status_ok, { f1 with byteswap := 0 }))
        else if magic_number = cagim then
          ([], Outcome.ret (status.status_ok, { f1 with byteswap := 1 }))
        else
          (open_msg.not_in_pcap_format magic_number ::
            (if magic_number = 0x0a0d0d0a then [open_msg.pcap_ng_unsupported] else []),
           Outcome.exit 255)

/-- The octets of the `struct pcap_packet_hdr` that
`pcap_file_write_packet_direct` fills in (lines 229-232). -/
def packet_hdr_bytes (ts_sec ts_usec incl_len orig_len : Nat) : List Byte :=
  u32_bytes ts_sec ++ u32_bytes ts_usec ++ u32_bytes incl_len ++ u32_bytes orig_len

/-- The function `pcap_file_write_packet_direct` (lines 215-260) for a
non-null `packet` of `length = packet.length` octets: the returned status
and the `pcap_file` after the call.  A null `file_ptr` (undefined behaviour
in `fwrite`) is reported as an error. -/
def pcap_file_write_packet_direct (f : pcap_file) (packet : List Byte) (sec usec : Nat) :
    status × pcap_file :=
  if packet.length = 0 then (status.status_ok, f)
  else
    match f.file_ptr with
    | none => (status.status_err, f)
    | some fp =>
      let w1 := fwrite fp
        (packet_hdr_bytes (sec % U32) (usec % U32) (packet.length % U32) (packet.length % U32))
      if w1.1 = 0 then (status.status_err, { f with file_ptr := some w1.2 })
      else
        let w2 := fwrite w1.2 packet
        if w2.1 = 0 then (status.status_err, { f with file_ptr := some w2.2 })
        else
          (status.status_ok,
            { f with
                file_ptr := some w2.2
                bytes_written := f.bytes_written + (packet.length + sizeof_pcap_packet_hdr) })

/-- Lines 282-290 of `pcap_file_read_packet`: the output parameter `pkthdr`
after the timestamp and `caplen` have been taken from the octets of the
`struct pcap_packet_hdr` read, through `ntohl` when `byteswap` is set. -/
def pkthdr_from_packet_hdr (byteswap : Nat) (packet_hdr : List Byte) (pkthdr : pcap_pkthdr) :
    pcap_pkthdr :=
  let ts_sec := le32 packet_hdr
  let ts_usec := le32 (packet_hdr.drop 4)
  let incl_len := le32 (packet_hdr.drop 8)
  if byteswap ≠ 0 then
    { ts := { tv_sec := (ntohl ts_sec : Int), tv_usec := (ntohl ts_usec : Int) }
      caplen := ntohl incl_len
      len := pkthdr.len }
  else
    { ts := { tv_sec := (ts_sec : Int), tv_usec := (ts_usec : Int) }
      caplen := incl_len
      len := pkthdr.len }

/-- The function `pcap_file_read_packet` (lines 265-321): the returned
status, the `pcap_file` after the call, and the output parameters `pkthdr`
and `packet_data` after the call (they come in with whatever they held
before). -/
def pcap_file_read_packet (f : pcap_file) (pkthdr : pcap_pkthdr) (packet_data : List Byte) :
    status × pcap_file × pcap_pkthdr × List Byte :=
  match f.file_ptr with
  | none => (status.status_err, f, pkthdr, packet_data)
  | some fp =>
    let r := fread fp sizeof_pcap_packet_hdr
    if r.1 = 0 then
      (status.status_err_no_more_data, { f with file_ptr := some r.2.2 }, pkthdr, packet_data)
    else
      let pkthdr1 := pkthdr_from_packet_hdr f.byteswap r.2.1 pkthdr
      if pkthdr1.caplen ≤ BUFLEN then
        let r2 := fread r.2.2 pkthdr1.caplen
        if r2.1 = 0 then
          (status.status_err, { f with file_ptr := some r2.2.2 }, pkthdr1,
            store_bytes packet_data r2.2.1)
        else
          (status.status_ok, { f with file_ptr := some r2.2.2 }, pkthdr1,
            store_bytes packet_data r2.2.1)
      else
        let r2 := fread r.2.2 BUFLEN
        if r2.1 = 0 then
          (status.status_err, { f with file_ptr := some r2.2.2 }, pkthdr1,
            store_bytes packet_data r2.2.1)
        else
          let fp3 := fseek_cur r2.2.2 (pkthdr1.caplen - BUFLEN)
          (status.status_ok, { f with file_ptr := some fp3 },
            { pkthdr1 with len := pkthdr1.caplen, caplen := BUFLEN },
            store_bytes packet_data r2.2.1)

/-- The function `packet_info_init_from_pkthdr` (lines 324-330). -/
def packet_info_init_from_pkthdr (pkthdr : pcap_pkthdr) : packet_info :=
  { len := pkthdr.caplen
    caplen := pkthdr.caplen
    ts := { tv_sec := pkthdr.ts.tv_sec, tv_nsec := wrap_int64 (pkthdr.ts.tv_usec * 1000) } }

/-- One invocation `func(userdata, &pi, packet_data)` made by
`pcap_file_dispatch_frame_handler`: the packet information and the contents
of the buffer `packet_data` at the time of the call. -/
structure pcap_call where
  pi : packet_info
  packet_data : List Byte
  deriving Repr, DecidableEq

/-- The locals of `pcap_file_dispatch_frame_handler` and the handler
invocations made so far. -/
structure dispatch_state where
  f : pcap_file
  st : status
  pkthdr : pcap_pkthdr
  packet_data : List Byte
  total_length : Nat
  num_packets : Nat
  calls : List pcap_call
  deriving Repr, DecidableEq

/-- Number of octets between the file position and the end of the file. -/
def octets_left (f : pcap_file) : Nat :=
  match f.file_ptr with
  | none => 0
  | some fp => fp.data.length - fp.pos

/-- The `do ... while (status == status_ok)` loop of
`pcap_file_dispatch_frame_handler` (lines 345-354), by recursion on a bound
`fuel` on the number of iterations left.  Every iteration that goes round
again has read at least the 16 octets of a record header, so a bound above
the number of octets left is never used up (`read_loop_fuel`). -/
def read_loop : Nat → dispatch_state → dispatch_state
  | 0, s => s
  | fuel + 1, s =>
    let r := pcap_file_read_packet s.f s.pkthdr s.packet_data
    if r.1 = status.status_ok then
      let pi := packet_info_init_from_pkthdr r.2.2.1
      read_loop fuel
        { f := r.2.1
          st := r.1
          pkthdr := r.2.2.1
          packet_data := r.2.2.2
          total_length := (s.total_length + (r.2.2.1.caplen + sizeof_pcap_packet_hdr)) % U64
          num_packets := (s.num_packets + 1) % U64
          calls := s.calls ++ [{ pi := pi, packet_data := r.2.2.2 }] }
    else
      { s with f := r.2.1, st := r.1, pkthdr := r.2.2.1, packet_data := r.2.2.2 }

/-- The rewind between passes (lines 356-362); a null `file_ptr` is left as
it is. -/
def rewind (f : pcap_file) : pcap_file :=
  match f.file_ptr with
  | none => f
  | some fp => { f with file_ptr := some (fseek_set fp sizeof_pcap_file_hdr) }

/-- The `for` loop of `pcap_file_dispatch_frame_handler` (lines 344-363) with
`passes` iterations left and loop variable `i`. -/
def pass_loop (loop_count : Int) : Nat → Int → dispatch_state → dispatch_state
  | 0, _, s => s
  | passes + 1, i, s =>
    let s1 := read_loop (octets_left s.f + 1) s
    let s2 := if i < loop_count - 1 then { s1 with f := rewind s1.f } else s1
    pass_loop loop_count passes (i + 1) s2

/-- The function `pcap_file_dispatch_frame_handler` (lines 333-372), where
`pkthdr` and `packet_data` are what the uninitialised locals hold on entry:
the returned status, the `pcap_file` after the call and the handler
invocations, in order. -/
def pcap_file_dispatch_frame_handler (f : pcap_file) (loop_count : Int)
    (pkthdr : pcap_pkthdr) (packet_data : List Byte) : status × pcap_file × List pcap_call :=
  let s := pass_loop loop_count loop_count.toNat 0
    { f := f, st := status.status_ok, pkthdr := pkthdr, packet_data := packet_data,
      total_length := sizeof_pcap_file_hdr, num_packets := 0, calls := [] }
  let f1 := { s.f with bytes_written := s.total_length, packets_written := s.num_packets }
  (if s.st = status.status_err_no_more_data then status.status_ok else s.st, f1, s.calls)

/-- One pass of the `do ... while` loop from the state `s`. -/
def read_pass (s : dispatch_state) : dispatch_state :=
  read_loop (octets_left s.f + 1) s

/-- A record of a capture file: the timestamp, the original length and the
captured octets (`incl_len` is their number). -/
structure pcap_record where
  ts_sec : Nat
  ts_usec : Nat
  orig_len : Nat
  payload : List Byte
  deriving Repr, DecidableEq

/-- The octets of a record in a file: the four 32-bit header fields, stored
byte-reversed when `byteswap` is not zero, then the captured octets. -/
def record_octets (byteswap : Nat) (r : pcap_record) : List Byte :=
  if byteswap ≠ 0 then
    packet_hdr_bytes (ntohl r.ts_sec) (ntohl r.ts_usec) (ntohl r.payload.length)
      (ntohl r.orig_len) ++ r.payload
  else
    packet_hdr_bytes r.ts_sec r.ts_usec r.payload.length r.orig_len ++ r.payload

/-- The octets of a sequence of records in a file. -/
def records_octets (byteswap : Nat) : List pcap_record → List Byte
  | [] => []
  | r :: rest => record_octets byteswap r ++ records_octets byteswap rest

/-- The packet information a record of at most `BUFLEN` octets is to be
replayed with: its seconds, its microseconds as nanoseconds, and its number
of captured octets as both lengths. -/
def record_info (r : pcap_record) : packet_info :=
  { ts := { tv_sec := (r.ts_sec : Int), tv_nsec := 1000 * (r.ts_usec : Int) }
    caplen := r.payload.length
    len := r.payload.length }

/-- What an invocation hands to the handler: the packet information and the
first `caplen` octets of the buffer. -/
def pcap_call.delivered (c : pcap_call) : packet_info × List Byte :=
  (c.pi, c.packet_data.take c.pi.caplen)

/-- The records as the writer stores them: the original length of a stored
record is the number of octets written. -/
def stored (recs : List pcap_record) : List pcap_record :=
  recs.map (fun r => { r with orig_len := r.payload.length })

/-- Writing records in order with `pcap_file_write_packet_direct`: the
statuses returned and the `pcap_file` after the last call. -/
def write_records : pcap_file → List pcap_record → List status × pcap_file
  | f, [] => ([], f)
  | f, r :: rest =>
    let w := pcap_file_write_packet_direct f r.payload r.ts_sec r.ts_usec
    let w2 := write_records w.2 rest
    (w.1 :: w2.1, w2.2)

/-- Calling `pcap_file_read_packet` `n` times in a row on the same `pkthdr`
and `packet_data`: what each call returned and left in them, and the
`pcap_file` after the last call. -/
def read_packets : Nat → pcap_file → pcap_pkthdr → List Byte →
    List (status × pcap_pkthdr × List Byte) × pcap_file
  | 0, f, _, _ => ([], f)
  | n + 1, f, pkthdr, packet_data =>
    let r := pcap_file_read_packet f pkthdr packet_data
    let r2 := read_packets n r.2.1 r.2.2.1 r.2.2.2
    ((r.1, r.2.2.1, r.2.2.2) :: r2.1, r2.2)

/-- A ring with one block descriptor, of two frame records at offsets 48 and
112 from the block; used to instantiate the theorems. -/
def sample_ring : ring_memory :=
  { block := fun _ => { block_status := 1, num_pkts := 2, offset_to_first_pkt := 48 }
    pkt := fun a =>
      if a = 48 then
        { tp_next_offset := 64, tp_sec := 5, tp_nsec := 6, tp_snaplen := 60, tp_len := 60,
          tp_status := 1, tp_mac := 32 }
      else
        { tp_next_offset := 80, tp_sec := 7, tp_nsec := 8, tp_snaplen := 42, tp_len := 42,
          tp_status := 1, tp_mac := 32 } }

/-- A block descriptor whose header count is `2^31`, over no records. -/
def huge_count_ring : ring_memory :=
  { block := fun _ => { block_status := 1, num_pkts := 2147483648, offset_to_first_pkt := 48 }
    pkt := fun _ =>
      { tp_next_offset := 0, tp_sec := 0, tp_nsec := 0, tp_snaplen := 0, tp_len := 0,
        tp_status := 0, tp_mac := 0 } }

/-- All counters zero, as `memset` leaves them at start. -/
def stats_zero : stats_tracking :=
  { received_packets := 0, received_bytes := 0, socket_packets := 0, socket_drops := 0,
    socket_freezes := 0 }

/-- A worker with four blocks of 4 MiB mapped at address 0. -/
def sample_thread : thread_storage :=
  { tnum := 0
    block_header := fun i => i * 4194304
    ring_params :=
      { tp_block_size := 4194304, tp_block_nr := 4, tp_frame_size := 2048, tp_frame_nr := 8192,
        tp_retire_blk_tov := 100, tp_sizeof_priv := 0, tp_feature_req_word := 1 } }

/-- A ring all of whose blocks are owned by the kernel. -/
def idle_ring : ring_memory :=
  { block := fun _ => { block_status := 0, num_pkts := 0, offset_to_first_pkt := 48 }
    pkt := fun _ =>
      { tp_next_offset := 0, tp_sec := 0, tp_nsec := 0, tp_snaplen := 0, tp_len := 0,
        tp_status := 0, tp_mac := 0 } }

/-- Two records, of one and of two octets. -/
def sample_records : List pcap_record :=
  [{ ts_sec := 1, ts_usec := 1000, orig_len := 1, payload := [byte 1] },
   { ts_sec := 2, ts_usec := 2000, orig_len := 2, payload := [byte 2, byte 3] }]

/-- A `pcap_file` that has not been opened. -/
def closed_file : pcap_file :=
  { file_ptr := none, flags := 0, byteswap := 0, bytes_written := 0, packets_written := 0 }

/-- A `pcap_pkthdr` with all fields zero. -/
def blank_pkthdr : pcap_pkthdr :=
  { ts := { tv_sec := 0, tv_usec := 0 }, caplen := 0, len := 0 }

/-- A reader positioned at the first record of a native-order file that
holds `sample_records`. -/
def sample_reader : pcap_file :=
  { file_ptr := some { data := file_header_bytes ++ records_octets 0 sample_records, pos := 24 }
    flags := O_RDONLY, byteswap := 0, bytes_written := 0, packets_written := 0 }

/-- A record of `2 * BUFLEN` captured octets. -/
def oversized_record : pcap_record :=
  { ts_sec := 1, ts_usec := 2, orig_len := 2 * BUFLEN
    payload := List.replicate (2 * BUFLEN) (byte 7) }

/-- A reader positioned at the only record of a native-order file that
holds `oversized_record`. -/
def oversized_reader : pcap_file :=
  { file_ptr := some { data := file_header_bytes ++ record_octets 0 oversized_record, pos := 24 }
    flags := O_RDONLY, byteswap := 0, bytes_written := 0, packets_written := 0 }

/-! ## Ring sizing as the specification words it (section 4.1) -/

/-- Modelled from the spec: step 2 of the Ring Sizer of section 4.1, "While
bs >= 2 * MIN_BLOCK_SIZE and per_thread / bs < TARGET_BLOCKS: bs <- bs / 2",
by recursion on a bound `fuel` on the number of iterations left.  A quotient
by a zero block size has no value (`none`). -/
def spec_halve_loop (min_block_size target_blocks per_thread : Nat) : Nat → Nat → Option Nat
  | 0, bs => some bs
  | fuel + 1, bs =>
    if bs ≥ 2 * min_block_size then
      if bs = 0 then none
      else if per_thread / bs < target_blocks then
        spec_halve_loop min_block_size target_blocks per_thread fuel (bs / 2)
      else some bs
    else some bs

/-- Modelled from the spec: the Ring Sizer of section 4.1, steps 1 to 4, over
a constants table: `per_thread = min(total_budget / N, RING_LIMIT)`; the
block size halved from the default as step 2 says; `bc = per_thread / bs`;
a fatal failure (`none`) if `bc < MIN_BLOCKS` or if `bs mod frame_size` is
not 0.  The result is the pair of block size and block count. -/
def spec_ring_sizer (rlp : ring_limits) (n : Nat) : Option (Nat × Nat) :=
  if n = 0 then none
  else
    let per_thread := min (rlp.af_desired_memory / n) rlp.af_ring_limit
    match spec_halve_loop rlp.af_min_blocksize rlp.af_target_blocks per_thread
        (rlp.af_blocksize + 1) rlp.af_blocksize with
    | none => none
    | some bs =>
      if bs = 0 then none
      else if per_thread / bs < rlp.af_min_blocks then none
      else if rlp.af_framesize = 0 then none
      else if bs % rlp.af_framesize ≠ 0 then none
      else some (bs, per_thread / bs)

/-- The default constants with a minimum block size of 96 KiB, which is not
the default block size divided by a power of two, and a budget of 1 MiB. -/
def odd_min_limits : ring_limits :=
  { ring_limits_default (2 ^ 20) with af_min_blocksize := 98304 }

/-- The octets of a `struct pcap_packet_hdr` in which every 32-bit field is
stored byte-reversed: the four octets of each field in reverse order. -/
def packet_hdr_bytes_reversed (ts_sec ts_usec incl_len orig_len : Nat) : List Byte :=
  (u32_bytes ts_sec).reverse ++ (u32_bytes ts_usec).reverse ++ (u32_bytes incl_len).reverse
    ++ (u32_bytes orig_len).reverse

/-- A reader, without byte swap, at a native-order record of one octet. -/
def native_reader : pcap_file :=
  { file_ptr := some { data := packet_hdr_bytes 1 1000 1 1 ++ [byte 9], pos := 0 }
    flags := O_RDONLY, byteswap := 0, bytes_written := 0, packets_written := 0 }

/-- A reader, with byte swap, at the same record stored byte-reversed. -/
def swapped_reader : pcap_file :=
  { file_ptr := some { data := packet_hdr_bytes_reversed 1 1000 1 1 ++ [byte 9], pos := 0 }
    flags := O_RDONLY, byteswap := 1, bytes_written := 0, packets_written := 0 }

/-- A reader positioned at the first record of a native-order file that
holds `sample_records` followed by the first 17 octets of a record of two
captured octets: the file ends inside that record's captured octets. -/
def truncated_reader : pcap_file :=
  { file_ptr := some
      { data := file_header_bytes ++ (records_octets 0 sample_records ++
          (record_octets 0
            { ts_sec := 3, ts_usec := 3000, orig_len := 2, payload := [byte 4, byte 5] }).take 17)
        pos := 24 }
    flags := O_RDONLY, byteswap := 0, bytes_written := 0, packets_written := 0 }

/-! ## Socket statistics and the start of a drainer (`af_packet_stats`,
`af_packet_rx_ring_fanout_capture`) -/

/-- The `struct tpacket_stats_v3` of `linux/if_packet.h`; its fields are
32-bit. -/
structure tpacket_stats_v3 where
  tp_packets : Nat
  tp_drops : Nat
  tp_freeze_q_cnt : Nat
  deriving Repr, DecidableEq

/-- The function `af_packet_stats` (lines 55-70).  `err` is what `getsockopt`
returns and `tp3_stats` is what the local of that name holds after the call:
the counters of the kernel when the call succeeded, and what the
uninitialised local happened to hold when it failed.  `statst` is `none` for
a null pointer.  The result tells whether `perror` was called and gives the
counters after the call. -/
def af_packet_stats (err : Int) (tp3_stats : tpacket_stats_v3)
    (statst : Option stats_tracking) : Bool × Option stats_tracking :=
  (decide (err ≠ 0),
   match statst with
   | none => none
   | some s =>
     some { s with
       socket_packets := (s.socket_packets + tp3_stats.tp_packets) % U64
       socket_drops := (s.socket_drops + tp3_stats.tp_drops) % U64
       socket_freezes := (s.socket_freezes + tp3_stats.tp_freeze_q_cnt) % U64 })

/-- What a run of `af_packet_rx_ring_fanout_capture` does that is visible
outside it: the calls on the start barrier with what they return, the reads
of the start flag and of `sig_close_workers` with the value read, the calls
of `af_packet_stats` on a null target (with whether `perror` was called),
and the events of the block walk and of the main loop. -/
inductive capture_event where
  | mutex_lock (err : Int)
  | read_start_flag (value : Int)
  | cond_wait (err : Int)
  | mutex_unlock (err : Int)
  | stats_query (perror : Bool)
  | read_close_workers (value : Int)
  | drainer (e : drainer_event)
  deriving Repr, DecidableEq

/-- Whether an event is an invocation of the frame handler, a call of
`process_all_packets_in_block`, or a store to a block status. -/
def capture_event.touches_ring : capture_event → Bool
  | capture_event.drainer (drainer_event.frame _) => true
  | capture_event.drainer (drainer_event.process_block _) => true
  | capture_event.drainer (drainer_event.set_block_status _ _) => true
  | _ => false

/-- Whether the thread holds the start mutex after an event, given whether it
held it before: it holds it after `pthread_mutex_lock` or
`pthread_cond_wait` returned 0 and no longer after `pthread_mutex_unlock`
or after a call that returned an error. -/
def mutex_step (held : Bool) : capture_event → Bool
  | capture_event.mutex_lock err => decide (err = 0)
  | capture_event.cond_wait err => decide (err = 0)
  | capture_event.mutex_unlock _ => false
  | _ => held

/-- Whether the thread holds the start mutex after a sequence of events. -/
def mutex_after (held : Bool) (events : List capture_event) : Bool :=
  events.foldl mutex_step held

/-- The block walk of lines 342-349 with `count` iterations left and loop
variable `b`: the ring after the walk and the stores made. -/
def reset_blocks (thread_stor : thread_storage) :
    Nat → Nat → ring_memory → ring_memory × List drainer_event
  | 0, _, mem => (mem, [])
  | count + 1, b, mem =>
    let block_hdr := thread_stor.block_header b
    if (mem.block block_hdr).block_status &&& TP_STATUS_USER = 0 then
      reset_blocks thread_stor count (b + 1) mem
    else
      let r := reset_blocks thread_stor count (b + 1)
        (set_block_status mem block_hdr TP_STATUS_KERNEL)
      (r.1, drainer_event.set_block_status block_hdr TP_STATUS_KERNEL :: r.2)

/-- Lines 340-350 of `af_packet_rx_ring_fanout_capture`: the two calls
`af_packet_stats(sockfd, NULL)` around the block walk.  `query1` and `query2`
are what `getsockopt` returns and leaves in `tp3_stats` in each call.  The
result is the ring and the shared counters after these lines, and the
events. -/
def drainer_startup (thread_stor : thread_storage) (query1 query2 : Int × tpacket_stats_v3)
    (mem : ring_memory) (statst : stats_tracking) :
    ring_memory × stats_tracking × List capture_event :=
  let a1 := af_packet_stats query1.1 query1.2 none
  let r := reset_blocks thread_stor thread_stor.ring_params.tp_block_nr 0 mem
  let a2 := af_packet_stats query2.1 query2.2 none
  (r.1, statst,
   capture_event.stats_query a1.1 :: r.2.map capture_event.drainer
     ++ [capture_event.stats_query a2.1])

/-- The wait loop of lines 314-320.  Each element of `waits` is what one
test of the loop condition meets: the value read from `*t_start_p` and what
`pthread_cond_wait` returns if the test leads to a call.  The result is the
events and how the loop ends: `some (Outcome.ret ())` when it is left,
`some (Outcome.exit 255)` after a failed wait, and `none` when the thread
is still waiting after the last element of `waits`. -/
def barrier_wait : List (Int × Int) → List capture_event × Option (Outcome Unit)
  | [] => ([], none)
  | (value, wait_err) :: rest =>
    if value ≠ 1 then
      if wait_err ≠ 0 then
        ([capture_event.read_start_flag value, capture_event.cond_wait wait_err],
          some (Outcome.exit 255))
      else
        let r := barrier_wait rest
        (capture_event.read_start_flag value :: capture_event.cond_wait wait_err :: r.1, r.2)
    else ([capture_event.read_start_flag value], some (Outcome.ret ()))

/-- What one test of the main loop meets: the value read from
`sig_close_workers`, what the kernel has done to the ring by the time the
block status is read, and what `poll` returns if the iteration calls it. -/
structure loop_env where
  close_workers : Int
  kernel : ring_memory → ring_memory
  polret : Int

/-- The main loop of lines 399-423 over what its tests meet.  The result is
the events and how the loop ends: `some (Outcome.ret s)` when it is left
with the state `s`, and `none` when it is still running after the last
element. -/
def main_loop (thread_stor : thread_storage) :
    List loop_env → drainer_state → List capture_event × Option (Outcome drainer_state)
  | [], _ => ([], none)
  | e :: rest, s =>
    if e.close_workers ≠ 0 then
      ([capture_event.read_close_workers e.close_workers], some (Outcome.ret s))
    else
      match drainer_iteration thread_stor e.polret { s with mem := e.kernel s.mem } with
      | Outcome.ret (s1, events) =>
        let r := main_loop thread_stor rest s1
        (capture_event.read_close_workers e.close_workers
          :: events.map capture_event.drainer ++ r.1, r.2)
      | Outcome.exit c =>
        ([capture_event.read_close_workers e.close_workers], some (Outcome.exit c))
      | Outcome.div_by_zero =>
        ([capture_event.read_close_workers e.close_workers], some Outcome.div_by_zero)

/-- What a run of `af_packet_rx_ring_fanout_capture` meets: the results of
the calls on the start barrier, what the wait loop meets, the two
statistics queries, and what the main loop meets. -/
structure capture_env where
  lock_err : Int
  waits : List (Int × Int)
  unlock_err : Int
  query1 : Int × tpacket_stats_v3
  query2 : Int × tpacket_stats_v3
  loop : List loop_env

/-- The function `af_packet_rx_ring_fanout_capture` (lines 301-427) on the
ring `mem` and the shared counters `statst`: the events of the run and how
it ends, `some (Outcome.ret (0, s))` when it returns 0 in the state `s`,
`some (Outcome.exit 255)` after a failed call on the barrier, and `none`
when the run is still waiting or looping at the end of `env`. -/
def af_packet_rx_ring_fanout_capture (thread_stor : thread_storage) (env : capture_env)
    (mem : ring_memory) (statst : stats_tracking) :
    List capture_event × Option (Outcome (Int × drainer_state)) :=
  if env.lock_err ≠ 0 then
    ([capture_event.mutex_lock env.lock_err], some (Outcome.exit 255))
  else
    let w := barrier_wait env.waits
    match w.2 with
    | none => (capture_event.mutex_lock env.lock_err :: w.1, none)
    | some (Outcome.exit c) =>
      (capture_event.mutex_lock env.lock_err :: w.1, some (Outcome.exit c))
    | some Outcome.div_by_zero =>
      (capture_event.mutex_lock env.lock_err :: w.1, some Outcome.div_by_zero)
    | some (Outcome.ret _) =>
      if env.unlock_err ≠ 0 then
        (capture_event.mutex_lock env.lock_err :: w.1
          ++ [capture_event.mutex_unlock env.unlock_err], some (Outcome.exit 255))
      else
        let st := drainer_startup thread_stor env.query1 env.query2 mem statst
        let l := main_loop thread_stor env.loop
          { mem := st.1, statst := st.2.1, pstreak := 0, cb := 0 }
        (capture_event.mutex_lock env.lock_err :: w.1
          ++ [capture_event.mutex_unlock env.unlock_err] ++ st.2.2 ++ l.1,
         match l.2 with
         | none => none
         | some (Outcome.ret s) => some (Outcome.ret (0, s))
         | some (Outcome.exit c) => some (Outcome.exit c)
         | some Outcome.div_by_zero => some Outcome.div_by_zero)

/-- A ring all of whose blocks are owned by user space. -/
def full_ring : ring_memory :=
  { block := fun _ => { block_status := 1, num_pkts := 3, offset_to_first_pkt := 48 }
    pkt := fun _ =>
      { tp_next_offset := 0, tp_sec := 0, tp_nsec := 0, tp_snaplen := 0, tp_len := 0,
        tp_status := 0, tp_mac := 0 } }

/-- A run that finds the start flag at 0 once, then at 1, makes one iteration
of the main loop on a ring the kernel has filled, and leaves the loop at its
second test. -/
def sample_capture_env : capture_env :=
  { lock_err := 0, waits := [(0, 0), (1, 0)], unlock_err := 0
    query1 := (0, { tp_packets := 9, tp_drops := 2, tp_freeze_q_cnt := 1 })
    query2 := (0, { tp_packets := 0, tp_drops := 0, tp_freeze_q_cnt := 0 })
    loop :=
      [{ close_workers := 0, kernel := fun _ => sample_ring, polret := 0 },
       { close_workers := 1, kernel := fun m => m, polret := 0 }] }

/-- A reader positioned at the first record of a native-order file that
holds `sample_records`, then a record with no captured octets, then one more
record of two octets. -/
def zero_length_reader : pcap_file :=
  { file_ptr := some
      { data := file_header_bytes ++ (records_octets 0 sample_records ++
          (record_octets 0 { ts_sec := 3, ts_usec := 3000, orig_len := 60, payload := [] } ++
            record_octets 0
              { ts_sec := 4, ts_usec := 4000, orig_len := 2, payload := [byte 6, byte 7] }))
        pos := 24 }
    flags := O_RDONLY, byteswap := 0, bytes_written := 0, packets_written := 0 }

/-- A ring of `sample_thread` in which the block at index 2 is the only one
owned by user space; it holds two records. -/
def stuck_ring : ring_memory :=
  { block := fun a =>
      if a = 8388608 then { block_status := 1, num_pkts := 2, offset_to_first_pkt := 48 }
      else { block_status := 0, num_pkts := 0, offset_to_first_pkt := 48 }
    pkt := fun a =>
      if a = 8388656 then
        { tp_next_offset := 64, tp_sec := 5, tp_nsec := 6, tp_snaplen := 60, tp_len := 60,
          tp_status := 1, tp_mac := 32 }
      else
        { tp_next_offset := 80, tp_sec := 7, tp_nsec := 8, tp_snaplen := 42, tp_len := 42,
          tp_status := 1, tp_mac := 32 } }

/-- A loop test that finds `sig_close_workers` at 0, with the ring as the
iteration before left it and a `poll` that reports readiness. -/
def ready_env : loop_env :=
  { close_workers := 0, kernel := fun m => m, polret := 1 }

/-- A loop test that finds `sig_close_workers` at 0, with the ring as the
iteration before left it and a `poll` that times out. -/
def timeout_env : loop_env :=
  { close_workers := 0, kernel := fun m => m, polret := 0 }

/-- A loop test that finds `sig_close_workers` at 0, with the ring as the
iteration before left it and a `poll` that fails. -/
def poll_error_env : loop_env :=
  { close_workers := 0, kernel := fun m => m, polret := -1 }

/-- A loop test that finds `sig_close_workers` at 1. -/
def stop_env : loop_env :=
  { close_workers := 1, kernel := fun m => m, polret := 0 }

/-- The drainer of `sample_thread` at block 0 with `pstreak = 0` on
`stuck_ring`: the only block owned by user space is two ahead of `cb`. -/
def stuck_state : drainer_state :=
  { mem := stuck_ring, statst := stats_zero, pstreak := 0, cb := 0 }

/-! ## Socket setup (`create_dedicated_socket`, lines 171-298) -/

/-- What the calls made by one run of `create_dedicated_socket` return:
`socket` (a descriptor or -1), the four `setsockopt` calls, `if_nametoindex`
(as stored in the `int interface_number`), `mmap` (`none` for `MAP_FAILED`),
`malloc` (`none` for a null pointer), `bind`, and `if_indextoname` (`none`
for a null pointer, otherwise whether the name it gives equals the
requested one). -/
structure socket_env where
  socket_ret : Int
  version_err : Int
  interface_number : Int
  membership_err : Int
  rx_ring_err : Int
  mmap_ret : Option Nat
  malloc_ret : Option Nat
  bind_err : Int
  indextoname_ret : Option Bool
  fanout_err : Int

/-- What the process holds from the system: its open sockets, its mappings
(address and length) and its heap allocations (address and size). -/
structure process_resources where
  open_sockets : List Int
  mappings : List (Nat × Nat)
  allocations : List (Nat × Nat)
  deriving Repr, DecidableEq

/-- Modelled from the spec: the fields `sockfd`, `mapped_buffer` and
`block_header` (the pointer to the index, 0 for a null pointer) of
`struct thread_storage`, which is declared in `af_packet_v3.h`, not among
the sources. -/
structure socket_fields where
  sockfd : Int
  mapped_buffer : Nat
  block_header : Nat
  deriving Repr, DecidableEq

/-- The diagnostics `create_dedicated_socket` writes. -/
inductive socket_msg where
  | could_not_create_socket
  | could_not_set_version
  | no_interface_number
  | could_not_enable_promiscuous
  | requesting_rx_ring (bytes blocks blocksize : Nat)
  | could_not_enable_rx_ring
  | mmap_failed
  | could_not_allocate_block_header
  | could_not_bind
  | could_not_get_interface_name
  | interface_name_mismatch
  | could_not_configure_fanout
  deriving Repr, DecidableEq

/-- How a run of `create_dedicated_socket` ends: it returns a value, or it
stores through the null pointer that a failed `malloc` left in
`block_header` (line 254). -/
inductive socket_outcome where
  | returned (code : Int)
  | null_store
  deriving Repr, DecidableEq

/-- Lines 257-297 of `create_dedicated_socket`: `bind`, the check of the
interface name and the fanout option; the diagnostics and the value
returned. -/
def bind_and_fanout (env : socket_env) : List socket_msg × Int :=
  if env.bind_err ≠ 0 then ([socket_msg.could_not_bind], -1)
  else
    match env.indextoname_ret with
    | none => ([socket_msg.could_not_get_interface_name], -1)
    | some same =>
      let mismatch := if same then [] else [socket_msg.interface_name_mismatch]
      if env.fanout_err ≠ 0 then
        (mismatch ++ [socket_msg.could_not_configure_fanout], -1)
      else (mismatch, 0)

/-- The function `create_dedicated_socket` (lines 171-298) for the worker
`thread_stor`, whose fields `sockfd`, `mapped_buffer` and `block_header` come
in as `fields`, in a process that holds `res`: the diagnostics, how the run
ends, the worker's index and fields after the run, and what the process
holds after the run.  The ring length is the `unsigned int` product
`tp_block_size * tp_block_nr`, the address of block `i` is
`mapped_buffer + (i * tp_block_size)` with the product in `unsigned int`,
and a pointer takes 8 octets. -/
def create_dedicated_socket (thread_stor : thread_storage) (fields : socket_fields)
    (env : socket_env) (res : process_resources) :
    List socket_msg × socket_outcome × thread_storage × socket_fields × process_resources :=
  if env.socket_ret = -1 then
    ([socket_msg.could_not_create_socket], socket_outcome.returned (-1), thread_stor, fields,
      res)
  else
    let fields1 := { fields with sockfd := env.socket_ret }
    let res1 := { res with open_sockets := env.socket_ret :: res.open_sockets }
    if env.version_err ≠ 0 then
      ([socket_msg.could_not_set_version], socket_outcome.returned (-1), thread_stor, fields1,
        res1)
    else if env.interface_number = 0 then
      ([socket_msg.no_interface_number], socket_outcome.returned (-1), thread_stor, fields1,
        res1)
    else if env.membership_err ≠ 0 then
      ([socket_msg.could_not_enable_promiscuous], socket_outcome.returned (-1), thread_stor,
        fields1, res1)
    else
      let ring_bytes :=
        thread_stor.ring_params.tp_block_size * thread_stor.ring_params.tp_block_nr % U32
      let request := socket_msg.requesting_rx_ring ring_bytes
        thread_stor.ring_params.tp_block_nr thread_stor.ring_params.tp_block_size
      if env.rx_ring_err = -1 then
        ([request, socket_msg.could_not_enable_rx_ring], socket_outcome.returned (-1),
          thread_stor, fields1, res1)
      else
        match env.mmap_ret with
        | none =>
          ([request, socket_msg.mmap_failed], socket_outcome.returned (-1), thread_stor,
            fields1, res1)
        | some mapped_buffer =>
          let fields2 := { fields1 with mapped_buffer := mapped_buffer }
          let res2 := { res1 with mappings := (mapped_buffer, ring_bytes) :: res1.mappings }
          let index : thread_storage :=
            { thread_stor with
                block_header := fun i =>
                  if i < thread_stor.ring_params.tp_block_nr then
                    mapped_buffer + i * thread_stor.ring_params.tp_block_size % U32
                  else thread_stor.block_header i }
          match env.malloc_ret with
          | none =>
            if thread_stor.ring_params.tp_block_nr = 0 then
              let r := bind_and_fanout env
              (request :: socket_msg.could_not_allocate_block_header :: r.1,
                socket_outcome.returned r.2, thread_stor,
                { fields2 with block_header := 0 }, res2)
            else
              ([request, socket_msg.could_not_allocate_block_header],
                socket_outcome.null_store, thread_stor, { fields2 with block_header := 0 },
                res2)
          | some block_header =>
            let res3 := { res2 with
              allocations :=
                (block_header, thread_stor.ring_params.tp_block_nr * 8 % U64)
                  :: res2.allocations }
            let r := bind_and_fanout env
            (request :: r.1, socket_outcome.returned r.2, index,
              { fields2 with block_header := block_header }, res3)

/-- A process that holds nothing yet. -/
def no_resources : process_resources :=
  { open_sockets := [], mappings := [], allocations := [] }

/-- The fields of a worker before its socket is set up: `sockfd` is -1
(line 522). -/
def blank_fields : socket_fields :=
  { sockfd := -1, mapped_buffer := 0, block_header := 0 }

/-- A run in which `socket` gives descriptor 5 and setting the ring version
fails. -/
def version_failure_env : socket_env :=
  { socket_ret := 5, version_err := -1, interface_number := 2, membership_err := 0,
    rx_ring_err := 0, mmap_ret := some 1048576, malloc_ret := some 4096, bind_err := 0,
    indextoname_ret := some true, fanout_err := 0 }

/-- A run in which `socket` gives descriptor 5, the ring is mapped at
`0x100000`, the index is allocated at `0x1000` and `bind` fails. -/
def bind_failure_env : socket_env :=
  { socket_ret := 5, version_err := 0, interface_number := 2, membership_err := 0,
    rx_ring_err := 0, mmap_ret := some 1048576, malloc_ret := some 4096, bind_err := -1,
    indextoname_ret := some true, fanout_err := 0 }

/-- What `pcap_file_dispatch_frame_handler` hands to the handler for a
complete record of at least one captured octet: the timestamp, `caplen` the
number of captured octets put in the buffer (at most `BUFLEN`), `len` as
`packet_info_init_from_pkthdr` sets it (the value of `caplen`), and those
octets. -/
def record_delivery (r : pcap_record) : packet_info × List Byte :=
  ({ ts := { tv_sec := (r.ts_sec : Int), tv_nsec := 1000 * (r.ts_usec : Int) }
     caplen := min r.payload.length BUFLEN
     len := min r.payload.length BUFLEN },
   r.payload.take BUFLEN)

/-- A reader positioned at the first record of a native-order file that
holds a record with no captured octets, then a complete record of one
octet, then the first 5 octets of the header of a third record. -/
def zero_then_cut_reader : pcap_file :=
  { file_ptr := some
      { data := file_header_bytes ++
          (record_octets 0 { ts_sec := 1, ts_usec := 1000, orig_len := 60, payload := [] } ++
            (record_octets 0
                { ts_sec := 2, ts_usec := 2000, orig_len := 1, payload := [byte 1] } ++
              (record_octets 0
                { ts_sec := 3, ts_usec := 3000, orig_len := 2,
                  payload := [byte 4, byte 5] }).take 5))
        pos := 24 }
    flags := O_RDONLY, byteswap := 0, bytes_written := 0, packets_written := 0 }

/-! ## Theorems: ring sizing -/

/-- Two bounds above the block size give the loop the same result: the bound
is never used up. -/
theorem halve_blocksize_loop_fuel (rlp : ring_limits) (size : Nat) :
    ∀ (fuel fuel2 blocksize : Nat), blocksize < fuel → blocksize < fuel2 →
      halve_blocksize_loop rlp size fuel blocksize
        = halve_blocksize_loop rlp size fuel2 blocksize := by
  intro fuel
  induction fuel with
  | zero => intro f2 b hb; omega
  | succ n ih =>
    intro f2 b hb hb2
    obtain ⟨m, rfl⟩ : ∃ m, f2 = m + 1 := ⟨f2 - 1, by omega⟩
    simp only [halve_blocksize_loop]
    by_cases h1 : b / 2 ≥ rlp.af_min_blocksize
    · by_cases h2 : b = 0
      · simp [h1, h2]
      · by_cases h3 : size / b < rlp.af_target_blocks
        · simp only [h1, h2, h3, if_true, if_false]
          exact ih m (b / 2) (by omega) (by omega)
        · simp [h1, h2, h3]
    · simp [h1]

/-- The loop equation of lines 486-489: what `halve_blocksize` computes is
one test of the loop condition followed, when it holds, by the loop entered
with the halved block size. -/
theorem halve_blocksize_eq (rlp : ring_limits) (size blocksize : Nat) :
    halve_blocksize rlp size blocksize =
      if blocksize / 2 ≥ rlp.af_min_blocksize then
        if blocksize = 0 then Outcome.div_by_zero
        else if size / blocksize < rlp.af_target_blocks then
          halve_blocksize rlp size (blocksize / 2)
        else Outcome.ret blocksize
      else Outcome.ret blocksize := by
  unfold halve_blocksize
  simp only [halve_blocksize_loop]
  by_cases h1 : blocksize / 2 ≥ rlp.af_min_blocksize
  · by_cases h2 : blocksize = 0
    · simp [h1, h2]
    · by_cases h3 : size / blocksize < rlp.af_target_blocks
      · simp only [h1, h2, h3, if_true, if_false]
        exact halve_blocksize_loop_fuel rlp size blocksize (blocksize / 2 + 1) (blocksize / 2)
          (by omega) (by omega)
      · simp [h1, h2, h3]
  · simp [h1]

/-- The ring size is at most the per-thread share of the desired memory. -/
theorem thread_ring_size_le (rlp : ring_limits) (n size : Nat)
    (h : thread_ring_size rlp n = Outcome.ret size) :
    0 < n ∧ size ≤ rlp.af_desired_memory / n := by
  unfold thread_ring_size at h
  by_cases h0 : n = 0
  · simp [h0] at h
  · simp only [h0, if_false] at h
    refine ⟨by omega, ?_⟩
    split at h
    · injection h with h
      have := Nat.mod_le rlp.af_ring_limit (U32)
      omega
    · injection h with h
      have := Nat.mod_le (rlp.af_desired_memory / n) (U32)
      omega

/-- What a returned request of `ring_request` looks like. -/
theorem ring_request_ret (rlp : ring_limits) (n size bs : Nat) (req : tpacket_req3)
    (h : (ring_request rlp n size bs).2 = Outcome.ret req) :
    bs ≠ 0 ∧ rlp.af_framesize ≠ 0 ∧ bs % rlp.af_framesize = 0 ∧
    rlp.af_min_blocks ≤ size / bs % U32 ∧
    req.tp_block_size = bs ∧ req.tp_frame_size = rlp.af_framesize ∧
    req.tp_block_nr = size / bs % U32 ∧
    req.tp_frame_nr = bs * (size / bs % U32) % U32 / rlp.af_framesize := by
  unfold ring_request at h
  by_cases h0 : bs = 0
  · simp [h0] at h
  · by_cases h1 : size / bs % U32 < rlp.af_min_blocks
    · simp [h0, h1] at h
    · by_cases h2 : rlp.af_framesize = 0
      · simp [h0, h1, h2] at h
      · by_cases h3 : bs % rlp.af_framesize = 0
        · simp only [h0, h1, h2, h3, if_false, ne_eq, not_true_eq_false,
            Outcome.ret.injEq] at h
          subst h
          exact ⟨h0, h2, h3, by omega, rfl, rfl, rfl, rfl⟩
        · simp [h0, h1, h2, h3] at h

/-- How `thread_ring_req` returns a request: through the three steps. -/
theorem thread_ring_req_ret (rlp : ring_limits) (n : Nat) (req : tpacket_req3)
    (h : (thread_ring_req rlp n).2 = Outcome.ret req) :
    ∃ size bs, thread_ring_size rlp n = Outcome.ret size ∧
      halve_blocksize rlp size (rlp.af_blocksize % U32) = Outcome.ret bs ∧
      (ring_request rlp n size bs).2 = Outcome.ret req := by
  unfold thread_ring_req at h
  cases hs : thread_ring_size rlp n with
  | exit c => simp [hs] at h
  | div_by_zero => simp [hs] at h
  | ret size =>
    cases hb : halve_blocksize rlp size (rlp.af_blocksize % U32) with
    | exit c => simp [hs, hb] at h
    | div_by_zero => simp [hs, hb] at h
    | ret bs =>
      simp only [hs, hb] at h
      exact ⟨size, bs, rfl, hb, h⟩

/-- C1: whenever the ring-sizing computation of `af_packet_bind_and_dispatch`
returns a request (it neither exits nor divides by zero), the block size is
a multiple of the frame size, the block count is at least `af_min_blocks`,
and `num_threads * tp_block_nr * tp_block_size` is at most the desired
memory. -/
theorem C1_ring_request_invariants (rlp : ring_limits) (num_threads : Nat)
    (req : tpacket_req3)
    (h : (thread_ring_req rlp num_threads).2 = Outcome.ret req) :
    req.tp_block_size % req.tp_frame_size = 0 ∧
    req.tp_block_nr ≥ rlp.af_min_blocks ∧
    num_threads * req.tp_block_nr * req.tp_block_size ≤ rlp.af_desired_memory := by
  obtain ⟨size, bs, hs, -, hr⟩ := thread_ring_req_ret rlp num_threads req h
  obtain ⟨hn, hsize⟩ := thread_ring_size_le rlp num_threads size hs
  obtain ⟨hbs, -, hmul, hmin, e1, e2, e3, -⟩ := ring_request_ret rlp num_threads size bs req hr
  rw [e1, e2, e3]
  refine ⟨hmul, hmin, ?_⟩
  have h1 : size / bs % U32 ≤ size / bs := Nat.mod_le _ _
  have h2 : size / bs * bs ≤ size := Nat.div_mul_le_self size bs
  have h3 : num_threads * (rlp.af_desired_memory / num_threads) ≤ rlp.af_desired_memory :=
    Nat.mul_div_le _ _
  calc num_threads * (size / bs % U32) * bs
      = num_threads * ((size / bs % U32) * bs) := by ring
    _ ≤ num_threads * (size / bs * bs) :=
        Nat.mul_le_mul_left _ (Nat.mul_le_mul_right _ h1)
    _ ≤ num_threads * size := Nat.mul_le_mul_left _ h2
    _ ≤ num_threads * (rlp.af_desired_memory / num_threads) := Nat.mul_le_mul_left _ hsize
    _ ≤ rlp.af_desired_memory := h3

/-- C1 at scenario S5: a budget of 1 GiB and 8 workers with the default
constants give 64 blocks of 2 MiB. -/
theorem C1_ring_request_invariants_witness :
    (thread_ring_req (ring_limits_default (2 ^ 30)) 8).2 = Outcome.ret
      { tp_block_size := 2097152, tp_block_nr := 64, tp_frame_size := 2048,
        tp_frame_nr := 65536, tp_retire_blk_tov := 100, tp_sizeof_priv := 0,
        tp_feature_req_word := 1 } ∧
    ((2097152 : Nat) % 2048 = 0 ∧ (64 : Nat) ≥ 8 ∧ 8 * 64 * 2097152 ≤ 2 ^ 30) :=
  ⟨by decide, C1_ring_request_invariants (ring_limits_default (2 ^ 30)) 8
    { tp_block_size := 2097152, tp_block_nr := 64, tp_frame_size := 2048,
      tp_frame_nr := 65536, tp_retire_blk_tov := 100, tp_sizeof_priv := 0,
      tp_feature_req_word := 1 } (by decide)⟩

/-! ## Theorems: frame dispatcher -/

/-- Following the chain from the second record is following it from the
first, one record later. -/
theorem record_addr_succ (mem : ring_memory) (first : Nat) (i : Nat) :
    record_addr mem (first + (mem.pkt first).tp_next_offset) i = record_addr mem first (i + 1) := by
  induction i with
  | zero => rfl
  | succ k ih =>
    show record_addr mem _ k + _ = record_addr mem first (k + 1) + _
    rw [ih]

/-- The handler invocation the loop makes for the record at address `a`. -/
theorem packet_loop_calls (mem : ring_memory) :
    ∀ (count pkt_hdr byte_count : Nat) (calls : List frame_call),
      (packet_loop mem count pkt_hdr byte_count calls).2 =
        calls ++ (List.range count).map (fun i =>
          ({ pi := { ts := { tv_sec := ((mem.pkt (record_addr mem pkt_hdr i)).tp_sec : Int)
                             tv_nsec := ((mem.pkt (record_addr mem pkt_hdr i)).tp_nsec : Int) }
                     caplen := (mem.pkt (record_addr mem pkt_hdr i)).tp_snaplen
                     len := (mem.pkt (record_addr mem pkt_hdr i)).tp_snaplen }
             eth := record_addr mem pkt_hdr i + (mem.pkt (record_addr mem pkt_hdr i)).tp_mac }
            : frame_call)) := by
  intro count
  induction count with
  | zero => intro a bc calls; simp [packet_loop]
  | succ k ih =>
    intro a bc calls
    simp only [packet_loop]
    rw [ih, List.range_succ_eq_map, List.map_cons, List.map_map, List.append_assoc]
    simp only [List.singleton_append, Function.comp_def, record_addr_succ]
    rfl

/-- The byte counter the loop leaves is, modulo `2^64`, the counter it
starts with plus the `tp_snaplen` of the records it walks. -/
theorem packet_loop_bytes (mem : ring_memory) :
    ∀ (count pkt_hdr byte_count : Nat) (calls : List frame_call),
      (packet_loop mem count pkt_hdr byte_count calls).1 % U64 =
        (byte_count + ((List.range count).map
          (fun i => (mem.pkt (record_addr mem pkt_hdr i)).tp_snaplen)).sum) % U64 := by
  intro count
  induction count with
  | zero => intro a bc calls; simp [packet_loop]
  | succ k ih =>
    intro a bc calls
    simp only [packet_loop]
    rw [ih, List.range_succ_eq_map, List.map_cons, List.map_map, List.sum_cons]
    simp only [Function.comp_def, record_addr_succ]
    have e : record_addr mem a 0 = a := rfl
    rw [e, Nat.add_mod, Nat.mod_mod, ← Nat.add_mod, Nat.add_assoc]

/-- The `int` made from a header count below `2^31` is that count. -/
theorem to_int32_small (n : Nat) (h : n < 2 ^ 31) : to_int32 n = (n : Int) := by
  unfold to_int32
  have h1 : n % 2 ^ 32 = n := Nat.mod_eq_of_lt (by omega)
  rw [h1, if_pos h]

/-- A non-negative `int` converts to the same `uint64_t`. -/
theorem int_to_u64_small (n : Nat) (h : n < 2 ^ 31) : int_to_u64 (n : Int) = n := by
  unfold int_to_u64
  have h1 : ((n : Int)) % 2 ^ 64 = (n : Int) := Int.emod_eq_of_lt (by omega) (by omega)
  rw [h1]
  rfl

/-- The invocations `process_all_packets_in_block` makes on a block whose
header count is below `2^31`. -/
theorem process_all_packets_in_block_calls (mem : ring_memory) (block_hdr : Nat)
    (statst : stats_tracking) (h : (mem.block block_hdr).num_pkts < 2 ^ 31) :
    (process_all_packets_in_block mem block_hdr statst).2 =
      (List.range (mem.block block_hdr).num_pkts).map (fun i =>
        let a := record_addr mem (block_hdr + (mem.block block_hdr).offset_to_first_pkt) i
        ({ pi := { ts := { tv_sec := ((mem.pkt a).tp_sec : Int)
                           tv_nsec := ((mem.pkt a).tp_nsec : Int) }
                   caplen := (mem.pkt a).tp_snaplen
                   len := (mem.pkt a).tp_snaplen }
           eth := a + (mem.pkt a).tp_mac } : frame_call)) := by
  unfold process_all_packets_in_block
  simp only [to_int32_small _ h, Int.toNat_ofNat, packet_loop_calls, List.nil_append]

/-- The counters `process_all_packets_in_block` leaves on a block whose
header count is below `2^31`. -/
theorem process_all_packets_in_block_stats (mem : ring_memory) (block_hdr : Nat)
    (statst : stats_tracking) (h : (mem.block block_hdr).num_pkts < 2 ^ 31) :
    let r := process_all_packets_in_block mem block_hdr statst
    r.1.received_packets = (statst.received_packets + r.2.length) % U64 ∧
    r.1.received_bytes =
      (statst.received_bytes + (r.2.map (fun c => c.pi.caplen)).sum) % U64 ∧
    r.1.socket_packets = statst.socket_packets ∧
    r.1.socket_drops = statst.socket_drops ∧
    r.1.socket_freezes = statst.socket_freezes := by
  intro r
  have hc := process_all_packets_in_block_calls mem block_hdr statst h
  have hlen : r.2.length = (mem.block block_hdr).num_pkts := by
    show (process_all_packets_in_block mem block_hdr statst).2.length = _
    rw [hc, List.length_map, List.length_range]
  refine ⟨?_, ?_, rfl, rfl, rfl⟩
  · rw [hlen]
    show (statst.received_packets + int_to_u64 (to_int32 (mem.block block_hdr).num_pkts)) % U64 = _
    rw [to_int32_small _ h, int_to_u64_small _ h]
  · show (statst.received_bytes + (packet_loop mem
        (to_int32 (mem.block block_hdr).num_pkts).toNat
        (block_hdr + (mem.block block_hdr).offset_to_first_pkt) 0 []).1) % U64 = _
    have hb := packet_loop_bytes mem (to_int32 (mem.block block_hdr).num_pkts).toNat
      (block_hdr + (mem.block block_hdr).offset_to_first_pkt) 0 []
    have hs : (r.2.map (fun c => c.pi.caplen)).sum =
        ((List.range (to_int32 (mem.block block_hdr).num_pkts).toNat).map
          (fun i => (mem.pkt (record_addr mem
            (block_hdr + (mem.block block_hdr).offset_to_first_pkt) i)).tp_snaplen)).sum := by
      show ((process_all_packets_in_block mem block_hdr statst).2.map _).sum = _
      rw [hc, to_int32_small _ h, Int.toNat_ofNat, List.map_map]
      rfl
    rw [hs, Nat.add_mod, hb, Nat.zero_add, ← Nat.add_mod]

/-- C4: on a block whose header gives `num_pkts = n` with `n < 2^31`,
`process_all_packets_in_block` invokes the frame handler exactly `n` times,
in the order of the chain of records that starts at `offset_to_first_pkt`
and is linked by `tp_next_offset`; invocation `i` receives the packet
information `{tv_sec = tp_sec, tv_nsec = tp_nsec, caplen = tp_snaplen,
len = tp_snaplen}` of record `i` and the L2 pointer `record base + tp_mac`. -/
theorem C4_dispatch_calls (mem : ring_memory) (block_hdr : Nat) (statst : stats_tracking)
    (n : Nat) (hn : (mem.block block_hdr).num_pkts = n) (hlt : n < 2 ^ 31) :
    (process_all_packets_in_block mem block_hdr statst).2.length = n ∧
    (process_all_packets_in_block mem block_hdr statst).2 =
      (List.range n).map (fun i =>
        let a := record_addr mem (block_hdr + (mem.block block_hdr).offset_to_first_pkt) i
        ({ pi := { ts := { tv_sec := ((mem.pkt a).tp_sec : Int)
                           tv_nsec := ((mem.pkt a).tp_nsec : Int) }
                   caplen := (mem.pkt a).tp_snaplen
                   len := (mem.pkt a).tp_snaplen }
           eth := a + (mem.pkt a).tp_mac } : frame_call)) := by
  subst hn
  have hc := process_all_packets_in_block_calls mem block_hdr statst hlt
  refine ⟨?_, hc⟩
  rw [hc, List.length_map, List.length_range]

/-- C4 on a block of two records. -/
theorem C4_dispatch_calls_witness :
    ((sample_ring.block 0).num_pkts = 2 ∧ 2 < 2 ^ 31) ∧
    (process_all_packets_in_block sample_ring 0 stats_zero).2.length = 2 ∧
    (process_all_packets_in_block sample_ring 0 stats_zero).2 =
      (List.range 2).map (fun i =>
        let a := record_addr sample_ring (0 + (sample_ring.block 0).offset_to_first_pkt) i
        ({ pi := { ts := { tv_sec := ((sample_ring.pkt a).tp_sec : Int)
                           tv_nsec := ((sample_ring.pkt a).tp_nsec : Int) }
                   caplen := (sample_ring.pkt a).tp_snaplen
                   len := (sample_ring.pkt a).tp_snaplen }
           eth := a + (sample_ring.pkt a).tp_mac } : frame_call)) :=
  ⟨⟨rfl, by decide⟩, C4_dispatch_calls sample_ring 0 stats_zero 2 rfl (by decide)⟩

/-- The counters and invocations of a sequence of calls that starts from
counters in the 64-bit range, when every block has a header count below
`2^31`. -/
theorem process_blocks_stats :
    ∀ (blocks : List (ring_memory × Nat)) (statst : stats_tracking),
      (∀ b ∈ blocks, (b.1.block b.2).num_pkts < 2 ^ 31) →
      statst.received_packets < U64 → statst.received_bytes < U64 →
      (process_blocks blocks statst).1.received_packets =
        (statst.received_packets + (process_blocks blocks statst).2.length) % U64 ∧
      (process_blocks blocks statst).1.received_bytes =
        (statst.received_bytes +
          ((process_blocks blocks statst).2.map (fun c => c.pi.caplen)).sum) % U64 ∧
      (process_blocks blocks statst).1.socket_packets = statst.socket_packets ∧
      (process_blocks blocks statst).1.socket_drops = statst.socket_drops ∧
      (process_blocks blocks statst).1.socket_freezes = statst.socket_freezes := by
  intro blocks
  induction blocks with
  | nil =>
    intro statst _ hp hb
    simp only [process_blocks, List.length_nil, List.map_nil, List.sum_nil, Nat.add_zero]
    exact ⟨(Nat.mod_eq_of_lt hp).symm, (Nat.mod_eq_of_lt hb).symm, trivial, trivial, trivial⟩
  | cons b rest ih =>
    intro statst hall hp hb
    obtain ⟨mem, block_hdr⟩ := b
    have hlt : (mem.block block_hdr).num_pkts < 2 ^ 31 :=
      hall (mem, block_hdr) (List.mem_cons_self _ _)
    obtain ⟨e1, e2, e3, e4, e5⟩ := process_all_packets_in_block_stats mem block_hdr statst hlt
    have hU : 0 < U64 := by decide
    have hp1 : (process_all_packets_in_block mem block_hdr statst).1.received_packets < U64 := by
      rw [e1]; exact Nat.mod_lt _ hU
    have hb1 : (process_all_packets_in_block mem block_hdr statst).1.received_bytes < U64 := by
      rw [e2]; exact Nat.mod_lt _ hU
    obtain ⟨i1, i2, i3, i4, i5⟩ := ih (process_all_packets_in_block mem block_hdr statst).1
      (fun b hb => hall b (List.mem_cons_of_mem _ hb)) hp1 hb1
    simp only [process_blocks, List.length_append, List.map_append, List.sum_append]
    refine ⟨?_, ?_, ?_, ?_, ?_⟩
    · rw [i1, e1, Nat.mod_add_mod, Nat.add_assoc]
    · rw [i2, e2, Nat.mod_add_mod, Nat.add_assoc]
    · rw [i3, e3]
    · rw [i4, e4]
    · rw [i5, e5]

/-- C5, amended: on a block whose header count is below `2^31`, a call of
`process_all_packets_in_block` adds, in 64-bit unsigned arithmetic, the
number of handler invocations it made to `received_packets` and the sum of
the `caplen` values it passed to `received_bytes`, and leaves the `socket_*`
counters as they are; hence after any sequence of such calls that starts
from zero counters, `received_packets` is the total number of invocations
and `received_bytes` the total of their `caplen` values (modulo `2^64`). -/
theorem C5_counters_follow_calls (mem : ring_memory) (block_hdr : Nat)
    (statst : stats_tracking) (blocks : List (ring_memory × Nat))
    (h : (mem.block block_hdr).num_pkts < 2 ^ 31)
    (hall : ∀ b ∈ blocks, (b.1.block b.2).num_pkts < 2 ^ 31) :
    ((process_all_packets_in_block mem block_hdr statst).1.received_packets =
        (statst.received_packets
          + (process_all_packets_in_block mem block_hdr statst).2.length) % U64 ∧
      (process_all_packets_in_block mem block_hdr statst).1.received_bytes =
        (statst.received_bytes +
          ((process_all_packets_in_block mem block_hdr statst).2.map
            (fun c => c.pi.caplen)).sum) % U64 ∧
      (process_all_packets_in_block mem block_hdr statst).1.socket_packets
        = statst.socket_packets ∧
      (process_all_packets_in_block mem block_hdr statst).1.socket_drops
        = statst.socket_drops ∧
      (process_all_packets_in_block mem block_hdr statst).1.socket_freezes
        = statst.socket_freezes) ∧
    ((process_blocks blocks stats_zero).1.received_packets =
        (process_blocks blocks stats_zero).2.length % U64 ∧
      (process_blocks blocks stats_zero).1.received_bytes =
        ((process_blocks blocks stats_zero).2.map (fun c => c.pi.caplen)).sum % U64 ∧
      (process_blocks blocks stats_zero).1.socket_packets = 0 ∧
      (process_blocks blocks stats_zero).1.socket_drops = 0 ∧
      (process_blocks blocks stats_zero).1.socket_freezes = 0) := by
  refine ⟨process_all_packets_in_block_stats mem block_hdr statst h, ?_⟩
  have hz := process_blocks_stats blocks stats_zero hall (by decide) (by decide)
  simpa [stats_zero] using hz

/-- C5, amended, on a block of two records dispatched twice. -/
theorem C5_counters_follow_calls_witness :
    ((sample_ring.block 0).num_pkts < 2 ^ 31 ∧
      ∀ b ∈ [(sample_ring, 0), (sample_ring, 0)], (b.1.block b.2).num_pkts < 2 ^ 31) ∧
    (process_all_packets_in_block sample_ring 0 stats_zero).1.received_packets = 2 ∧
    (process_all_packets_in_block sample_ring 0 stats_zero).1.received_bytes = 102 ∧
    (process_blocks [(sample_ring, 0), (sample_ring, 0)] stats_zero).1.received_packets = 4 ∧
    (process_blocks [(sample_ring, 0), (sample_ring, 0)] stats_zero).1.received_bytes = 204 := by
  have hs : (sample_ring.block 0).num_pkts < 2 ^ 31 := by decide
  have hall : ∀ b ∈ [(sample_ring, 0), (sample_ring, 0)], (b.1.block b.2).num_pkts < 2 ^ 31 := by
    intro b hb
    simp only [List.mem_cons, List.mem_singleton, List.not_mem_nil, or_false, or_self] at hb
    subst hb
    decide
  have h := C5_counters_follow_calls sample_ring 0 stats_zero
    [(sample_ring, 0), (sample_ring, 0)] hs hall
  refine ⟨⟨hs, hall⟩, ?_, ?_, ?_, ?_⟩
  · rw [h.1.1]; decide
  · rw [h.1.2.1]; decide
  · rw [h.2.1]; decide
  · rw [h.2.2.1]; decide

/-- C5 as stated fails on a block whose header count is `2^31`: the `int`
count is negative, the handler is never invoked, and yet `received_packets`
changes from 0 to `2^64 - 2^31`. -/
theorem C5_counterexample :
    (process_all_packets_in_block huge_count_ring 0 stats_zero).2.length = 0 ∧
    (process_all_packets_in_block huge_count_ring 0 stats_zero).1.received_packets
      = 18446744071562067968 ∧
    (process_all_packets_in_block huge_count_ring 0 stats_zero).1.received_packets
      ≠ stats_zero.received_packets
        + (process_all_packets_in_block huge_count_ring 0 stats_zero).2.length := by
  decide

/-! ## Theorems: ring drainer -/

/-- Within a ring of fewer than `2^32` blocks, the next block index is
`(cb + 1) mod block_count`. -/
theorem next_block_eq (cb count : Nat) (h0 : 0 < count) (hcb : cb < count) (ht : count < U32) :
    next_block cb count = Outcome.ret ((cb + 1) % count) := by
  unfold next_block
  have h1 : (cb + 1) % U32 = cb + 1 := Nat.mod_eq_of_lt (by omega)
  rw [if_neg (by omega), h1]

/-- The store to a block status changes that status only. -/
theorem set_block_status_other (mem : ring_memory) (block_hdr status a : Nat)
    (h : a ≠ block_hdr) : (set_block_status mem block_hdr status).block a = mem.block a := by
  simp [set_block_status, h]

/-- The iteration on a block that has the USER bit set. -/
theorem drainer_iteration_user (thread_stor : thread_storage) (polret : Int)
    (s : drainer_state)
    (hcount : 0 < thread_stor.ring_params.tp_block_nr)
    (htype : thread_stor.ring_params.tp_block_nr < U32)
    (hcb : s.cb < thread_stor.ring_params.tp_block_nr)
    (huser : (s.mem.block (thread_stor.block_header s.cb)).block_status &&& TP_STATUS_USER ≠ 0) :
    drainer_iteration thread_stor polret s = Outcome.ret
      ({ mem := set_block_status s.mem (thread_stor.block_header s.cb) TP_STATUS_KERNEL
         statst := (process_all_packets_in_block s.mem (thread_stor.block_header s.cb) s.statst).1
         pstreak := 0
         cb := (s.cb + 1) % thread_stor.ring_params.tp_block_nr },
       drainer_event.process_block (thread_stor.block_header s.cb)
        :: (process_all_packets_in_block s.mem (thread_stor.block_header s.cb) s.statst).2.map
            drainer_event.frame
        ++ [drainer_event.set_block_status (thread_stor.block_header s.cb) TP_STATUS_KERNEL]) := by
  unfold drainer_iteration
  simp only [if_neg huser, next_block_eq _ _ hcount hcb htype]

/-- C2: in a loop iteration in which block `cb` has the USER bit set, the
iteration returns with `pstreak = 0`; it calls
`process_all_packets_in_block` once, on block `cb`, and after it stores
`TP_STATUS_KERNEL` into the status of block `cb` (the events of the
iteration are that call, its handler invocations, and that store); `cb`
becomes `(cb + 1) mod block_count`; no other block descriptor and no frame
record is changed. -/
theorem C2_user_block_iteration (thread_stor : thread_storage) (polret : Int)
    (s : drainer_state)
    (hcount : 0 < thread_stor.ring_params.tp_block_nr)
    (htype : thread_stor.ring_params.tp_block_nr < U32)
    (hcb : s.cb < thread_stor.ring_params.tp_block_nr)
    (huser : (s.mem.block (thread_stor.block_header s.cb)).block_status &&& TP_STATUS_USER ≠ 0) :
    ∃ s1 events, drainer_iteration thread_stor polret s = Outcome.ret (s1, events) ∧
      s1.pstreak = 0 ∧
      events = drainer_event.process_block (thread_stor.block_header s.cb)
        :: (process_all_packets_in_block s.mem (thread_stor.block_header s.cb) s.statst).2.map
            drainer_event.frame
        ++ [drainer_event.set_block_status (thread_stor.block_header s.cb) TP_STATUS_KERNEL] ∧
      events.filter drainer_event.is_process_block
        = [drainer_event.process_block (thread_stor.block_header s.cb)] ∧
      events.filter drainer_event.is_set_block_status
        = [drainer_event.set_block_status (thread_stor.block_header s.cb) TP_STATUS_KERNEL] ∧
      s1.statst = (process_all_packets_in_block s.mem (thread_stor.block_header s.cb) s.statst).1 ∧
      (s1.mem.block (thread_stor.block_header s.cb)).block_status = TP_STATUS_KERNEL ∧
      s1.cb = (s.cb + 1) % thread_stor.ring_params.tp_block_nr ∧
      s1.cb < thread_stor.ring_params.tp_block_nr ∧
      (∀ a, a ≠ thread_stor.block_header s.cb → s1.mem.block a = s.mem.block a) ∧
      s1.mem.pkt = s.mem.pkt := by
  refine ⟨_, _, drainer_iteration_user thread_stor polret s hcount htype hcb huser,
    rfl, rfl, ?_, ?_, rfl, ?_, rfl, Nat.mod_lt _ hcount, ?_, rfl⟩
  · simp [List.filter_cons, List.filter_append, List.filter_map, drainer_event.is_process_block,
      Function.comp_def]
  · simp [List.filter_cons, List.filter_append, List.filter_map,
      drainer_event.is_set_block_status, Function.comp_def]
  · simp [set_block_status]
  · intro a ha
    exact set_block_status_other _ _ _ _ ha

/-- C2 on the first block of a four-block ring, holding two records. -/
theorem C2_user_block_iteration_witness :
    (0 < sample_thread.ring_params.tp_block_nr ∧ sample_thread.ring_params.tp_block_nr < U32 ∧
      (0 : Nat) < sample_thread.ring_params.tp_block_nr ∧
      (sample_ring.block (sample_thread.block_header 0)).block_status &&& TP_STATUS_USER ≠ 0) ∧
    ∃ s1 events,
      drainer_iteration sample_thread 1
        { mem := sample_ring, statst := stats_zero, pstreak := 2, cb := 0 }
        = Outcome.ret (s1, events) ∧
      s1.pstreak = 0 ∧ s1.cb = 1 ∧ events.length = 4 := by
  obtain ⟨s1, events, h1, h2, h3, -, -, -, -, h8, -⟩ :=
    C2_user_block_iteration sample_thread 1
      { mem := sample_ring, statst := stats_zero, pstreak := 2, cb := 0 }
      (by decide) (by decide) (by decide) (by decide)
  refine ⟨⟨by decide, by decide, by decide, by decide⟩, s1, events, h1, h2, ?_, ?_⟩
  · rw [h8]; decide
  · rw [h3]; decide

/-- Adding one to an `int` below `INT_MAX` does not wrap. -/
theorem wrap_int32_succ (p : Int) (hlo : -2147483648 ≤ p) (hhi : p < 2147483647) :
    wrap_int32 (p + 1) = p + 1 := by
  unfold wrap_int32
  have h : (p + 1 + 2 ^ 31) % 2 ^ 32 = p + 1 + 2 ^ 31 :=
    Int.emod_eq_of_lt (by omega) (by omega)
  rw [h]
  omega

/-- The iteration on a block that has the USER bit clear. -/
theorem drainer_iteration_kernel (thread_stor : thread_storage) (polret : Int)
    (s : drainer_state)
    (hcount : 0 < thread_stor.ring_params.tp_block_nr)
    (htype : thread_stor.ring_params.tp_block_nr < U32)
    (hcb : s.cb < thread_stor.ring_params.tp_block_nr)
    (hkernel : (s.mem.block (thread_stor.block_header s.cb)).block_status &&& TP_STATUS_USER = 0) :
    drainer_iteration thread_stor polret s = Outcome.ret
      ({ s with
          pstreak := if polret > 0 then wrap_int32 (s.pstreak + 1) else s.pstreak
          cb := if (if polret > 0 then wrap_int32 (s.pstreak + 1) else s.pstreak) > 2
                then (s.cb + 1) % thread_stor.ring_params.tp_block_nr else s.cb },
       drainer_event.poll 1000 :: (if polret < 0 then [drainer_event.perror_poll] else [])) := by
  unfold drainer_iteration
  simp only [if_pos hkernel, next_block_eq _ _ hcount hcb htype]
  by_cases hneg : polret < 0
  · have hnp : ¬ polret > 0 := by omega
    simp only [if_pos hneg, if_neg hnp]
    by_cases h2 : s.pstreak > 2
    · simp only [if_pos h2]
    · simp only [if_neg h2]
  · simp only [if_neg hneg]
    by_cases hpos : polret > 0
    · simp only [if_pos hpos]
      by_cases h2 : wrap_int32 (s.pstreak + 1) > 2
      · simp only [if_pos h2]
      · simp only [if_neg h2]
    · simp only [if_neg hpos]
      by_cases h2 : s.pstreak > 2
      · simp only [if_pos h2]
      · simp only [if_neg h2]

/-- C3, amended: in a loop iteration in which block `cb` has the USER bit
clear and `pstreak` is below `INT_MAX`, `poll` is called once (with a 1000 ms
timeout); `pstreak` is incremented by exactly 1 if `poll` returned a
positive value and is unchanged if it returned 0 or a negative value; `cb`
becomes `(cb + 1) mod block_count` if the updated `pstreak` is greater than
2 and is otherwise unchanged; the ring and the counters are unchanged, no
block status is written and no frame is dispatched. -/
theorem C3_kernel_block_iteration (thread_stor : thread_storage) (polret : Int)
    (s : drainer_state)
    (hcount : 0 < thread_stor.ring_params.tp_block_nr)
    (htype : thread_stor.ring_params.tp_block_nr < U32)
    (hcb : s.cb < thread_stor.ring_params.tp_block_nr)
    (hkernel : (s.mem.block (thread_stor.block_header s.cb)).block_status &&& TP_STATUS_USER = 0)
    (hlo : -2147483648 ≤ s.pstreak) (hhi : s.pstreak < 2147483647) :
    ∃ s1 events, drainer_iteration thread_stor polret s = Outcome.ret (s1, events) ∧
      events = drainer_event.poll 1000
        :: (if polret < 0 then [drainer_event.perror_poll] else []) ∧
      events.filter drainer_event.is_poll = [drainer_event.poll 1000] ∧
      s1.pstreak = (if polret > 0 then s.pstreak + 1 else s.pstreak) ∧
      s1.cb = (if s1.pstreak > 2 then (s.cb + 1) % thread_stor.ring_params.tp_block_nr
               else s.cb) ∧
      s1.cb < thread_stor.ring_params.tp_block_nr ∧
      s1.mem = s.mem ∧ s1.statst = s.statst ∧
      events.filter drainer_event.is_set_block_status = [] ∧
      events.filter drainer_event.is_frame = [] ∧
      events.filter drainer_event.is_process_block = [] := by
  refine ⟨_, _, drainer_iteration_kernel thread_stor polret s hcount htype hcb hkernel,
    rfl, ?_, ?_, rfl, ?_, rfl, rfl, ?_, ?_, ?_⟩
  · by_cases hneg : polret < 0 <;> simp [hneg, drainer_event.is_poll]
  · simp only [wrap_int32_succ s.pstreak hlo hhi]
  · show (if _ then _ else _) < _
    split_ifs <;> first | exact Nat.mod_lt _ hcount | exact hcb
  · by_cases hneg : polret < 0 <;> simp [hneg, drainer_event.is_set_block_status]
  · by_cases hneg : polret < 0 <;> simp [hneg, drainer_event.is_frame]
  · by_cases hneg : polret < 0 <;> simp [hneg, drainer_event.is_process_block]

/-- C3, amended, at the third ready `poll` in a row on a kernel-owned block:
`pstreak` goes from 2 to 3 and `cb` advances from 0 to 1. -/
theorem C3_kernel_block_iteration_witness :
    (0 < sample_thread.ring_params.tp_block_nr ∧ sample_thread.ring_params.tp_block_nr < U32 ∧
      (0 : Nat) < sample_thread.ring_params.tp_block_nr ∧
      (idle_ring.block (sample_thread.block_header 0)).block_status &&& TP_STATUS_USER = 0 ∧
      (-2147483648 : Int) ≤ 2 ∧ (2 : Int) < 2147483647) ∧
    ∃ s1 events,
      drainer_iteration sample_thread 1
        { mem := idle_ring, statst := stats_zero, pstreak := 2, cb := 0 }
        = Outcome.ret (s1, events) ∧
      events = [drainer_event.poll 1000] ∧ s1.pstreak = 3 ∧ s1.cb = 1 := by
  obtain ⟨s1, events, h1, h2, -, h4, h5, -⟩ :=
    C3_kernel_block_iteration sample_thread 1
      { mem := idle_ring, statst := stats_zero, pstreak := 2, cb := 0 }
      (by decide) (by decide) (by decide) (by decide) (by decide) (by decide)
  refine ⟨⟨by decide, by decide, by decide, by decide, by decide, by decide⟩,
    s1, events, h1, ?_, ?_, ?_⟩
  · rw [h2]; decide
  · rw [h4]; decide
  · rw [h5, h4]; decide

/-- C3 as stated fails when `pstreak` is `INT_MAX`: `poll` returns a positive
value and `pstreak` is not incremented by 1 (the increment overflows; the
wrapped value is `INT_MIN`), so `cb` stays where it is. -/
theorem C3_counterexample :
    (idle_ring.block (sample_thread.block_header 0)).block_status &&& TP_STATUS_USER = 0 ∧
    ((drainer_iteration sample_thread 1
        { mem := idle_ring, statst := stats_zero, pstreak := 2147483647, cb := 0 }).returned.map
      (fun r => (r.1.pstreak, r.1.cb, r.2)))
      = some (-2147483648, 0, [drainer_event.poll 1000]) ∧
    (-2147483648 : Int) ≠ 2147483647 + 1 := by
  decide

/-! ## Theorems: capture files -/

/-- Reading back the octets of a 32-bit object gives its value. -/
theorem le32_u32_bytes (x : Nat) (rest : List Byte) :
    le32 (u32_bytes x ++ rest) = x % U32 := by
  simp only [u32_bytes, le32, byte, List.cons_append, List.nil_append, U32]
  omega

/-- Four octets hold a 32-bit object. -/
theorem u32_bytes_length (x : Nat) : (u32_bytes x).length = 4 := rfl

/-- Skipping the octets of a 32-bit object. -/
theorem drop_u32_bytes (x : Nat) (rest : List Byte) :
    (u32_bytes x ++ rest).drop 4 = rest := by
  simp [u32_bytes]

/-- The octets of a value given by its four octets. -/
theorem octets_of_sum (b0 b1 b2 b3 : Nat) (h0 : b0 < 256) (h1 : b1 < 256) (h2 : b2 < 256)
    (h3 : b3 < 256) :
    (b0 + 256 * b1 + 65536 * b2 + 16777216 * b3) % 256 = b0 ∧
    (b0 + 256 * b1 + 65536 * b2 + 16777216 * b3) / 256 % 256 = b1 ∧
    (b0 + 256 * b1 + 65536 * b2 + 16777216 * b3) / 65536 % 256 = b2 ∧
    (b0 + 256 * b1 + 65536 * b2 + 16777216 * b3) / 16777216 % 256 = b3 := by
  refine ⟨by omega, by omega, by omega, by omega⟩

/-- Reversing the octets of a value given by its four octets. -/
theorem ntohl_of_sum (b0 b1 b2 b3 : Nat) (h0 : b0 < 256) (h1 : b1 < 256) (h2 : b2 < 256)
    (h3 : b3 < 256) :
    ntohl (b0 + 256 * b1 + 65536 * b2 + 16777216 * b3)
      = b3 + 256 * b2 + 65536 * b1 + 16777216 * b0 := by
  obtain ⟨e0, e1, e2, e3⟩ := octets_of_sum b0 b1 b2 b3 h0 h1 h2 h3
  unfold ntohl
  rw [e0, e1, e2, e3]
  omega

/-- Reversing the octets twice gives the value back. -/
theorem ntohl_ntohl (x : Nat) (h : x < U32) : ntohl (ntohl x) = x := by
  unfold U32 at h
  have hx : x = x % 256 + 256 * (x / 256 % 256) + 65536 * (x / 65536 % 256)
      + 16777216 * (x / 16777216) := by omega
  have h3 : x / 16777216 < 256 := by omega
  rw [hx, ntohl_of_sum _ _ _ _ (Nat.mod_lt _ (by decide)) (Nat.mod_lt _ (by decide))
    (Nat.mod_lt _ (by decide)) h3,
    ntohl_of_sum _ _ _ _ h3 (Nat.mod_lt _ (by decide)) (Nat.mod_lt _ (by decide))
      (Nat.mod_lt _ (by decide))]

/-- A byte-reversed value is a 32-bit value. -/
theorem ntohl_lt (x : Nat) : ntohl x < U32 := by
  unfold ntohl U32
  omega

/-- A record header takes 16 octets. -/
theorem packet_hdr_bytes_length (a b c d : Nat) : (packet_hdr_bytes a b c d).length = 16 := rfl

/-- Reading a chunk that lies at the file position. -/
theorem fread_chunk (fp : FILE) (chunk rest : List Byte)
    (h : fp.data.drop fp.pos = chunk ++ rest) (hne : chunk.length ≠ 0) :
    fread fp chunk.length = (1, chunk, { fp with pos := fp.pos + chunk.length }) ∧
    fp.data.drop (fp.pos + chunk.length) = rest := by
  constructor
  · unfold fread
    rw [if_neg hne, h, if_pos (by simp), List.take_left]
  · rw [← List.drop_drop, h, List.drop_left]

/-- Reading at the end of the file. -/
theorem fread_at_end (fp : FILE) (size : Nat) (h : fp.data.drop fp.pos = []) :
    fread fp size = (0, [], fp) := by
  unfold fread
  by_cases hs : size = 0
  · rw [if_pos hs]
  · rw [if_neg hs, h, if_neg (by simpa using hs)]
    simp

/-- The three header fields the reader decodes. -/
theorem packet_hdr_fields (a b c d : Nat) :
    le32 (packet_hdr_bytes a b c d) = a % U32 ∧
    le32 ((packet_hdr_bytes a b c d).drop 4) = b % U32 ∧
    le32 ((packet_hdr_bytes a b c d).drop 8) = c % U32 := by
  simp only [packet_hdr_bytes, u32_bytes, le32, byte, List.cons_append, List.nil_append, U32,
    List.drop_succ_cons, List.drop_zero]
  refine ⟨by omega, by omega, by omega⟩

/-- Reading a record of at most `BUFLEN` octets that lies at the file
position. -/
theorem read_packet_record (f : pcap_file) (fp : FILE) (r : pcap_record) (rest : List Byte)
    (pkthdr : pcap_pkthdr) (packet_data : List Byte)
    (hfp : f.file_ptr = some fp)
    (hdrop : fp.data.drop fp.pos = record_octets f.byteswap r ++ rest)
    (hsec : r.ts_sec < U32) (husec : r.ts_usec < U32)
    (hlen1 : 1 ≤ r.payload.length) (hlen2 : r.payload.length ≤ BUFLEN) :
    pcap_file_read_packet f pkthdr packet_data =
      (status.status_ok,
       { f with file_ptr := some { fp with pos := fp.pos + 16 + r.payload.length } },
       { ts := { tv_sec := (r.ts_sec : Int), tv_usec := (r.ts_usec : Int) }
         caplen := r.payload.length
         len := pkthdr.len },
       store_bytes packet_data r.payload) ∧
    fp.data.drop (fp.pos + 16 + r.payload.length) = rest := by
  have hlenU : r.payload.length < U32 := by
    unfold BUFLEN at hlen2; unfold U32; omega
  by_cases hsw : f.byteswap ≠ 0
  · have hd : fp.data.drop fp.pos =
        packet_hdr_bytes (ntohl r.ts_sec) (ntohl r.ts_usec) (ntohl r.payload.length)
          (ntohl r.orig_len) ++ (r.payload ++ rest) := by
      rw [hdrop, record_octets, if_pos hsw, List.append_assoc]
    obtain ⟨hr1, hd1⟩ := fread_chunk fp _ _ hd (by rw [packet_hdr_bytes_length]; decide)
    rw [packet_hdr_bytes_length] at hr1 hd1
    obtain ⟨hr2, hd2⟩ := fread_chunk { fp with pos := fp.pos + 16 } r.payload rest hd1 (by omega)
    obtain ⟨e1, e2, e3⟩ := packet_hdr_fields (ntohl r.ts_sec) (ntohl r.ts_usec)
      (ntohl r.payload.length) (ntohl r.orig_len)
    refine ⟨?_, hd2⟩
    unfold pcap_file_read_packet
    simp only [hfp, sizeof_pcap_packet_hdr, hr1, pkthdr_from_packet_hdr, if_pos hsw, e1, e2, e3,
      Nat.mod_eq_of_lt (ntohl_lt _), ntohl_ntohl _ hsec, ntohl_ntohl _ husec,
      ntohl_ntohl _ hlenU, if_pos hlen2, hr2]
    simp
  · have hd : fp.data.drop fp.pos =
        packet_hdr_bytes r.ts_sec r.ts_usec r.payload.length r.orig_len ++ (r.payload ++ rest) := by
      rw [hdrop, record_octets, if_neg hsw, List.append_assoc]
    obtain ⟨hr1, hd1⟩ := fread_chunk fp _ _ hd (by rw [packet_hdr_bytes_length]; decide)
    rw [packet_hdr_bytes_length] at hr1 hd1
    obtain ⟨hr2, hd2⟩ := fread_chunk { fp with pos := fp.pos + 16 } r.payload rest hd1 (by omega)
    obtain ⟨e1, e2, e3⟩ := packet_hdr_fields r.ts_sec r.ts_usec r.payload.length r.orig_len
    refine ⟨?_, hd2⟩
    unfold pcap_file_read_packet
    simp only [hfp, sizeof_pcap_packet_hdr, hr1, pkthdr_from_packet_hdr, if_neg hsw, e1, e2, e3,
      Nat.mod_eq_of_lt hsec, Nat.mod_eq_of_lt husec, Nat.mod_eq_of_lt hlenU, if_pos hlen2, hr2]
    simp

/-- Reading a record of more than `BUFLEN` octets, of which at least the
first `BUFLEN` are in the file. -/
theorem read_packet_oversized (f : pcap_file) (fp : FILE) (r : pcap_record)
    (first rest : List Byte) (pkthdr : pcap_pkthdr) (packet_data : List Byte)
    (hfp : f.file_ptr = some fp)
    (hhdr : fp.data.drop fp.pos =
      (if f.byteswap ≠ 0 then
        packet_hdr_bytes (ntohl r.ts_sec) (ntohl r.ts_usec) (ntohl r.payload.length)
          (ntohl r.orig_len)
       else packet_hdr_bytes r.ts_sec r.ts_usec r.payload.length r.orig_len)
      ++ (first ++ rest))
    (hfirst : first.length = BUFLEN)
    (hsec : r.ts_sec < U32) (husec : r.ts_usec < U32)
    (hlen1 : BUFLEN < r.payload.length) (hlen2 : r.payload.length < U32) :
    pcap_file_read_packet f pkthdr packet_data =
      (status.status_ok,
       { f with file_ptr := some { fp with pos := fp.pos + 16 + r.payload.length } },
       { ts := { tv_sec := (r.ts_sec : Int), tv_usec := (r.ts_usec : Int) }
         caplen := BUFLEN
         len := r.payload.length },
       store_bytes packet_data first) := by
  have hne : first.length ≠ 0 := by rw [hfirst]; decide
  have hnle : ¬ r.payload.length ≤ BUFLEN := by omega
  have hpos : fp.pos + 16 + BUFLEN + (r.payload.length - BUFLEN)
      = fp.pos + 16 + r.payload.length := by omega
  by_cases hsw : f.byteswap ≠ 0
  · rw [if_pos hsw] at hhdr
    obtain ⟨hr1, hd1⟩ := fread_chunk fp _ _ hhdr (by rw [packet_hdr_bytes_length]; decide)
    rw [packet_hdr_bytes_length] at hr1 hd1
    obtain ⟨hr2, -⟩ := fread_chunk { fp with pos := fp.pos + 16 } first rest hd1 hne
    rw [hfirst] at hr2
    obtain ⟨e1, e2, e3⟩ := packet_hdr_fields (ntohl r.ts_sec) (ntohl r.ts_usec)
      (ntohl r.payload.length) (ntohl r.orig_len)
    unfold pcap_file_read_packet
    simp only [hfp, sizeof_pcap_packet_hdr, hr1, pkthdr_from_packet_hdr, if_pos hsw, e1, e2, e3,
      Nat.mod_eq_of_lt (ntohl_lt _), ntohl_ntohl _ hsec, ntohl_ntohl _ husec,
      ntohl_ntohl _ hlen2, if_neg hnle, hr2, fseek_cur, hpos]
    simp
  · rw [if_neg hsw] at hhdr
    obtain ⟨hr1, hd1⟩ := fread_chunk fp _ _ hhdr (by rw [packet_hdr_bytes_length]; decide)
    rw [packet_hdr_bytes_length] at hr1 hd1
    obtain ⟨hr2, -⟩ := fread_chunk { fp with pos := fp.pos + 16 } first rest hd1 hne
    rw [hfirst] at hr2
    obtain ⟨e1, e2, e3⟩ := packet_hdr_fields r.ts_sec r.ts_usec r.payload.length r.orig_len
    unfold pcap_file_read_packet
    simp only [hfp, sizeof_pcap_packet_hdr, hr1, pkthdr_from_packet_hdr, if_neg hsw, e1, e2, e3,
      Nat.mod_eq_of_lt hsec, Nat.mod_eq_of_lt husec, Nat.mod_eq_of_lt hlen2, if_neg hnle, hr2,
      fseek_cur, hpos]
    simp

/-- Reading at the end of the file. -/
theorem read_packet_at_end (f : pcap_file) (fp : FILE)
    (pkthdr : pcap_pkthdr) (packet_data : List Byte)
    (hfp : f.file_ptr = some fp) (hdrop : fp.data.drop fp.pos = []) :
    pcap_file_read_packet f pkthdr packet_data =
      (status.status_err_no_more_data, f, pkthdr, packet_data) := by
  unfold pcap_file_read_packet
  simp only [hfp, fread_at_end fp _ hdrop, if_true]
  cases f
  simp only at hfp
  simp [hfp]

/-- Writing at the end of a stream appends. -/
theorem fwrite_at_end (data bytes : List Byte) (hne : bytes.length ≠ 0) :
    fwrite { data := data, pos := data.length } bytes =
      (1, { data := data ++ bytes, pos := (data ++ bytes).length }) := by
  unfold fwrite
  rw [if_neg hne]
  simp

/-- A record as the writer stores it: the original length is the number of
octets written. -/
theorem write_packet_direct_at_end (f : pcap_file) (data : List Byte) (r : pcap_record)
    (hfp : f.file_ptr = some { data := data, pos := data.length })
    (hsec : r.ts_sec < U32) (husec : r.ts_usec < U32)
    (hlen1 : 1 ≤ r.payload.length) (hlen2 : r.payload.length < U32) :
    pcap_file_write_packet_direct f r.payload r.ts_sec r.ts_usec =
      (status.status_ok,
       { f with
          file_ptr := some
            { data := data ++ record_octets 0 { r with orig_len := r.payload.length }
              pos := (data ++ record_octets 0 { r with orig_len := r.payload.length }).length }
          bytes_written := f.bytes_written + (r.payload.length + sizeof_pcap_packet_hdr) }) := by
  have hne : r.payload.length ≠ 0 := by omega
  unfold pcap_file_write_packet_direct
  rw [if_neg hne, hfp]
  simp only [Nat.mod_eq_of_lt hsec, Nat.mod_eq_of_lt husec, Nat.mod_eq_of_lt hlen2]
  rw [fwrite_at_end data _ (by rw [packet_hdr_bytes_length]; decide)]
  simp only [Nat.one_ne_zero, if_false]
  rw [fwrite_at_end _ _ hne]
  simp only [Nat.one_ne_zero, if_false, record_octets, ne_eq, not_true_eq_false,
    List.append_assoc]

/-- Writing records at the end of a stream appends their octets and returns
`status_ok` for each. -/
theorem write_records_at_end :
    ∀ (recs : List pcap_record) (f : pcap_file) (data : List Byte),
      f.file_ptr = some { data := data, pos := data.length } →
      (∀ r ∈ recs, r.ts_sec < U32 ∧ r.ts_usec < U32 ∧ 1 ≤ r.payload.length ∧
        r.payload.length ≤ BUFLEN) →
      ∃ f1, write_records f recs = (recs.map (fun _ => status.status_ok), f1) ∧
        f1.file_ptr = some
          { data := data ++ records_octets 0 (stored recs)
            pos := (data ++ records_octets 0 (stored recs)).length } := by
  intro recs
  induction recs with
  | nil =>
    intro f data hfp _
    exact ⟨f, rfl, by simpa [records_octets, stored] using hfp⟩
  | cons r rest ih =>
    intro f data hfp hall
    obtain ⟨hsec, husec, hlen1, hlen2⟩ := hall r (List.mem_cons_self _ _)
    have hlenU : r.payload.length < U32 := by
      unfold BUFLEN at hlen2; unfold U32; omega
    have hw := write_packet_direct_at_end f data r hfp hsec husec hlen1 hlenU
    obtain ⟨f1, h1, h2⟩ := ih (pcap_file_write_packet_direct f r.payload r.ts_sec r.ts_usec).2
      (data ++ record_octets 0 { r with orig_len := r.payload.length })
      (by rw [hw]) (fun x hx => hall x (List.mem_cons_of_mem _ hx))
    refine ⟨f1, ?_, ?_⟩
    · rw [hw] at h1
      simp only [write_records, hw, h1, List.map_cons]
    · rw [h2]
      simp [records_octets, stored, List.append_assoc]

/-- Reading the records that lie at the file position, then once more. -/
theorem read_packets_records :
    ∀ (recs : List pcap_record) (f : pcap_file) (fp : FILE) (pkthdr : pcap_pkthdr)
      (packet_data : List Byte),
      f.file_ptr = some fp →
      fp.data.drop fp.pos = records_octets f.byteswap recs →
      (∀ r ∈ recs, r.ts_sec < U32 ∧ r.ts_usec < U32 ∧ 1 ≤ r.payload.length ∧
        r.payload.length ≤ BUFLEN) →
      (read_packets (recs.length + 1) f pkthdr packet_data).1.map (fun x => x.1)
        = recs.map (fun _ => status.status_ok) ++ [status.status_err_no_more_data] ∧
      ((read_packets (recs.length + 1) f pkthdr packet_data).1.take recs.length).map
          (fun x => (x.2.1.ts.tv_sec, x.2.1.ts.tv_usec, x.2.1.caplen, x.2.2.take x.2.1.caplen))
        = recs.map (fun r => ((r.ts_sec : Int), (r.ts_usec : Int), r.payload.length, r.payload)) := by
  intro recs
  induction recs with
  | nil =>
    intro f fp pkthdr packet_data hfp hdrop _
    have h := read_packet_at_end f fp pkthdr packet_data hfp (by simpa [records_octets] using hdrop)
    simp [read_packets, h]
  | cons r rest ih =>
    intro f fp pkthdr packet_data hfp hdrop hall
    obtain ⟨hsec, husec, hlen1, hlen2⟩ := hall r (List.mem_cons_self _ _)
    obtain ⟨hr, hd⟩ := read_packet_record f fp r (records_octets f.byteswap rest) pkthdr
      packet_data hfp (by simpa [records_octets] using hdrop) hsec husec hlen1 hlen2
    obtain ⟨i1, i2⟩ := ih
      { f with file_ptr := some { fp with pos := fp.pos + 16 + r.payload.length } }
      { fp with pos := fp.pos + 16 + r.payload.length }
      { ts := { tv_sec := (r.ts_sec : Int), tv_usec := (r.ts_usec : Int) }
        caplen := r.payload.length
        len := pkthdr.len }
      (store_bytes packet_data r.payload) rfl hd
      (fun x hx => hall x (List.mem_cons_of_mem _ hx))
    constructor
    · rw [List.length_cons, read_packets, hr]
      simp only [List.map_cons, List.cons_append]
      rw [i1]
    · rw [List.length_cons, read_packets, hr]
      simp only [List.take_succ_cons, List.map_cons]
      rw [i2]
      simp [store_bytes]

/-- The octets of the file header hold the magic number first. -/
theorem file_header_bytes_magic (rest : List Byte) :
    le32 (file_header_bytes ++ rest) = magic := by
  simp only [file_header_bytes, u32_bytes, List.cons_append, List.nil_append, le32]
  decide

/-- The file header takes 24 octets. -/
theorem file_header_bytes_length : file_header_bytes.length = 24 := rfl

/-- Opening a creatable file as writer leaves the file header in it. -/
theorem pcap_file_open_writer (f : pcap_file) (existing : List Byte) :
    pcap_file_open f (some existing) io_direction.io_direction_writer =
      ([], Outcome.ret (status.status_ok,
        { f with
            flags := O_WRONLY
            file_ptr := some { data := file_header_bytes, pos := file_header_bytes.length }
            bytes_written := sizeof_pcap_file_hdr })) := by
  have h := fwrite_at_end [] file_header_bytes (by decide)
  simp only [List.length_nil, List.nil_append] at h
  simp only [pcap_file_open, h, Nat.one_ne_zero, if_false]

/-- Opening as reader a file that starts with the header the writer stores. -/
theorem pcap_file_open_reader_native (g : pcap_file) (rest : List Byte) :
    pcap_file_open g (some (file_header_bytes ++ rest)) io_direction.io_direction_reader =
      ([], Outcome.ret (status.status_ok,
        { g with
            flags := O_RDONLY
            file_ptr := some { data := file_header_bytes ++ rest, pos := 24 }
            bytes_written := 0
            byteswap := 0 })) := by
  obtain ⟨hr, -⟩ := fread_chunk { data := file_header_bytes ++ rest, pos := 0 }
    file_header_bytes rest rfl (by decide)
  rw [file_header_bytes_length] at hr
  have hm : le32 file_header_bytes = magic := by
    have := file_header_bytes_magic []
    simpa using this
  simp only [pcap_file_open, sizeof_pcap_file_hdr, hr, Nat.one_ne_zero, if_false, hm, if_true,
    Nat.zero_add]

/-- C6: round trip.  For every list of records with 32-bit `sec` and `usec`
and payloads of 1 to `BUFLEN` octets: `pcap_file_open` as writer returns
`status_ok`; writing the records in order with
`pcap_file_write_packet_direct` returns `status_ok` each time; opening the
resulting file as reader returns `status_ok`; and calling
`pcap_file_read_packet` repeatedly returns `status_ok` once per record, with
the same `sec`, `usec`, `caplen` equal to the payload length and the payload
octets at the start of the buffer, in the same order, followed by
`status_err_no_more_data`. -/
theorem C6_write_read_round_trip (recs : List pcap_record) (f0 g0 : pcap_file)
    (existing : List Byte) (pkthdr : pcap_pkthdr) (packet_data : List Byte)
    (hrecs : ∀ r ∈ recs, r.ts_sec < U32 ∧ r.ts_usec < U32 ∧ 1 ≤ r.payload.length ∧
      r.payload.length ≤ BUFLEN) :
    ∃ (w w1 rd : pcap_file) (fp : FILE),
      (pcap_file_open f0 (some existing) io_direction.io_direction_writer).2
        = Outcome.ret (status.status_ok, w) ∧
      write_records w recs = (recs.map (fun _ => status.status_ok), w1) ∧
      w1.file_ptr = some fp ∧
      (pcap_file_open g0 (some fp.data) io_direction.io_direction_reader).2
        = Outcome.ret (status.status_ok, rd) ∧
      (read_packets (recs.length + 1) rd pkthdr packet_data).1.map (fun x => x.1)
        = recs.map (fun _ => status.status_ok) ++ [status.status_err_no_more_data] ∧
      ((read_packets (recs.length + 1) rd pkthdr packet_data).1.take recs.length).map
          (fun x => (x.2.1.ts.tv_sec, x.2.1.ts.tv_usec, x.2.1.caplen, x.2.2.take x.2.1.caplen))
        = recs.map (fun r => ((r.ts_sec : Int), (r.ts_usec : Int), r.payload.length, r.payload)) := by
  have hw := pcap_file_open_writer f0 existing
  obtain ⟨w1, hw1, hfp1⟩ := write_records_at_end recs
    { f0 with
        flags := O_WRONLY
        file_ptr := some { data := file_header_bytes, pos := file_header_bytes.length }
        bytes_written := sizeof_pcap_file_hdr }
    file_header_bytes rfl hrecs
  have hrd := pcap_file_open_reader_native g0 (records_octets 0 (stored recs))
  have hstored : ∀ r ∈ stored recs, r.ts_sec < U32 ∧ r.ts_usec < U32 ∧ 1 ≤ r.payload.length ∧
      r.payload.length ≤ BUFLEN := by
    intro r hr
    simp only [stored, List.mem_map] at hr
    obtain ⟨r0, hr0, rfl⟩ := hr
    exact hrecs r0 hr0
  have hlen : (stored recs).length = recs.length := by simp [stored]
  obtain ⟨h1, h2⟩ := read_packets_records (stored recs)
    { g0 with
        flags := O_RDONLY
        file_ptr := some { data := file_header_bytes ++ records_octets 0 (stored recs), pos := 24 }
        bytes_written := 0
        byteswap := 0 }
    { data := file_header_bytes ++ records_octets 0 (stored recs), pos := 24 }
    pkthdr packet_data rfl
    (by
      show (file_header_bytes ++ records_octets 0 (stored recs)).drop 24 = _
      rw [← file_header_bytes_length, List.drop_left])
    hstored
  rw [hlen] at h1 h2
  refine ⟨_, w1, _, _, by rw [hw], hw1, hfp1, by rw [hrd], ?_, ?_⟩
  · rw [h1, stored, List.map_map]; rfl
  · rw [h2, stored, List.map_map]; rfl

/-- C6 on two records, of one and of two octets. -/
theorem C6_write_read_round_trip_witness :
    (∀ r ∈ sample_records, r.ts_sec < U32 ∧ r.ts_usec < U32 ∧ 1 ≤ r.payload.length ∧
      r.payload.length ≤ BUFLEN) ∧
    ∃ (w w1 rd : pcap_file) (fp : FILE),
      (pcap_file_open closed_file (some []) io_direction.io_direction_writer).2
        = Outcome.ret (status.status_ok, w) ∧
      write_records w sample_records = (sample_records.map (fun _ => status.status_ok), w1) ∧
      w1.file_ptr = some fp ∧
      (pcap_file_open closed_file (some fp.data) io_direction.io_direction_reader).2
        = Outcome.ret (status.status_ok, rd) ∧
      (read_packets (sample_records.length + 1) rd blank_pkthdr []).1.map (fun x => x.1)
        = sample_records.map (fun _ => status.status_ok) ++ [status.status_err_no_more_data] ∧
      ((read_packets (sample_records.length + 1) rd blank_pkthdr []).1.take
          sample_records.length).map
          (fun x => (x.2.1.ts.tv_sec, x.2.1.ts.tv_usec, x.2.1.caplen, x.2.2.take x.2.1.caplen))
        = sample_records.map
            (fun r => ((r.ts_sec : Int), (r.ts_usec : Int), r.payload.length, r.payload)) :=
  ⟨by decide, C6_write_read_round_trip sample_records closed_file closed_file [] blank_pkthdr []
    (by decide)⟩

/-- A successful `fread` moves the file position forward by the size read,
within the file. -/
theorem fread_ok (fp : FILE) (size : Nat) (h : (fread fp size).1 ≠ 0) :
    (fread fp size).2.2 = { fp with pos := fp.pos + size } ∧ 0 < size ∧
      fp.pos + size ≤ fp.data.length := by
  unfold fread at h ⊢
  by_cases h0 : size = 0
  · rw [if_pos h0] at h
    exact absurd rfl h
  · by_cases h1 : size ≤ (fp.data.drop fp.pos).length
    · rw [if_neg h0, if_pos h1]
      rw [List.length_drop] at h1
      exact ⟨rfl, by omega, by omega⟩
    · rw [if_neg h0, if_neg h1] at h
      exact absurd rfl h

/-- A call of `pcap_file_read_packet` that returns `status_ok` leaves fewer
octets between the file position and the end of the file. -/
theorem read_packet_ok_octets_left (f : pcap_file) (pkthdr : pcap_pkthdr)
    (packet_data : List Byte)
    (h : (pcap_file_read_packet f pkthdr packet_data).1 = status.status_ok) :
    octets_left (pcap_file_read_packet f pkthdr packet_data).2.1 < octets_left f := by
  unfold pcap_file_read_packet at h ⊢
  cases hfp : f.file_ptr with
  | none => simp [hfp] at h
  | some fp =>
    simp only [hfp] at h ⊢
    by_cases h1 : (fread fp sizeof_pcap_packet_hdr).1 = 0
    · simp [h1] at h
    · obtain ⟨e1, -, b1⟩ := fread_ok fp _ h1
      simp only [if_neg h1, e1] at h ⊢
      generalize pkthdr_from_packet_hdr f.byteswap (fread fp sizeof_pcap_packet_hdr).2.1 pkthdr
        = ph at h ⊢
      simp only [sizeof_pcap_packet_hdr] at b1 h ⊢
      by_cases hc : ph.caplen ≤ BUFLEN
      · simp only [if_pos hc] at h ⊢
        by_cases h2 : (fread { data := fp.data, pos := fp.pos + 16 } ph.caplen).1 = 0
        · simp [h2] at h
        · obtain ⟨e2, p2, b2⟩ := fread_ok _ _ h2
          simp only [if_neg h2, e2, octets_left, hfp]
          simp only at b2
          omega
      · simp only [if_neg hc] at h ⊢
        by_cases h2 : (fread { data := fp.data, pos := fp.pos + 16 } BUFLEN).1 = 0
        · simp [h2] at h
        · obtain ⟨e2, p2, b2⟩ := fread_ok _ _ h2
          simp only [if_neg h2, e2, octets_left, hfp, fseek_cur]
          simp only at b2
          omega

/-- Two bounds above the number of octets left give the loop the same
result: the bound is never used up. -/
theorem read_loop_fuel :
    ∀ (fuel fuel2 : Nat) (s : dispatch_state),
      octets_left s.f < fuel → octets_left s.f < fuel2 →
      read_loop fuel s = read_loop fuel2 s := by
  intro fuel
  induction fuel with
  | zero => intro f2 s h; omega
  | succ n ih =>
    intro f2 s h1 h2
    obtain ⟨m, rfl⟩ : ∃ m, f2 = m + 1 := ⟨f2 - 1, by omega⟩
    simp only [read_loop]
    by_cases hok : (pcap_file_read_packet s.f s.pkthdr s.packet_data).1 = status.status_ok
    · have hlt := read_packet_ok_octets_left s.f s.pkthdr s.packet_data hok
      simp only [if_pos hok]
      exact ih m _ (by simp only; omega) (by simp only; omega)
    · simp only [if_neg hok]

/-- The loop equation of lines 345-354: a pass is one call of
`pcap_file_read_packet` followed, when it returned `status_ok`, by the
handler invocation, the two counter updates and the rest of the pass. -/
theorem read_pass_eq (s : dispatch_state) :
    read_pass s =
      if (pcap_file_read_packet s.f s.pkthdr s.packet_data).1 = status.status_ok then
        read_pass
          { f := (pcap_file_read_packet s.f s.pkthdr s.packet_data).2.1
            st := (pcap_file_read_packet s.f s.pkthdr s.packet_data).1
            pkthdr := (pcap_file_read_packet s.f s.pkthdr s.packet_data).2.2.1
            packet_data := (pcap_file_read_packet s.f s.pkthdr s.packet_data).2.2.2
            total_length := (s.total_length
              + ((pcap_file_read_packet s.f s.pkthdr s.packet_data).2.2.1.caplen
                + sizeof_pcap_packet_hdr)) % U64
            num_packets := (s.num_packets + 1) % U64
            calls := s.calls ++
              [{ pi := packet_info_init_from_pkthdr
                    (pcap_file_read_packet s.f s.pkthdr s.packet_data).2.2.1
                 packet_data := (pcap_file_read_packet s.f s.pkthdr s.packet_data).2.2.2 }] }
      else
        { s with
            f := (pcap_file_read_packet s.f s.pkthdr s.packet_data).2.1
            st := (pcap_file_read_packet s.f s.pkthdr s.packet_data).1
            pkthdr := (pcap_file_read_packet s.f s.pkthdr s.packet_data).2.2.1
            packet_data := (pcap_file_read_packet s.f s.pkthdr s.packet_data).2.2.2 } := by
  conv_lhs => rw [read_pass, read_loop]
  by_cases hok : (pcap_file_read_packet s.f s.pkthdr s.packet_data).1 = status.status_ok
  · have hlt := read_packet_ok_octets_left s.f s.pkthdr s.packet_data hok
    simp only [if_pos hok]
    rw [read_pass]
    apply read_loop_fuel
    · exact hlt
    · exact Nat.lt_succ_self _
  · simp only [if_neg hok]

/-- Microseconds of a 32-bit field, as nanoseconds, fit a `long`. -/
theorem wrap_int64_usec (u : Nat) (h : u < U32) :
    wrap_int64 ((u : Int) * 1000) = 1000 * (u : Int) := by
  unfold U32 at h
  unfold wrap_int64
  have e : ((u : Int) * 1000 + 2 ^ 63) % 2 ^ 64 = (u : Int) * 1000 + 2 ^ 63 :=
    Int.emod_eq_of_lt (by omega) (by omega)
  rw [e]
  omega

/-- The number of octets of a record in a file. -/
theorem record_octets_length (byteswap : Nat) (r : pcap_record) :
    (record_octets byteswap r).length = 16 + r.payload.length := by
  unfold record_octets
  split <;> rw [List.length_append, packet_hdr_bytes_length]

/-- One pass over the records that lie at the file position. -/
theorem read_pass_records :
    ∀ (recs : List pcap_record) (s : dispatch_state) (fp : FILE),
      s.f.file_ptr = some fp →
      fp.data.drop fp.pos = records_octets s.f.byteswap recs →
      (∀ r ∈ recs, r.ts_sec < U32 ∧ r.ts_usec < U32 ∧ 1 ≤ r.payload.length ∧
        r.payload.length ≤ BUFLEN) →
      s.num_packets < U64 →
      (read_pass s).st = status.status_err_no_more_data ∧
      (read_pass s).f = { s.f with file_ptr := some (
        { fp with pos := fp.pos + (records_octets s.f.byteswap recs).length }) } ∧
      (read_pass s).calls.map pcap_call.delivered
        = s.calls.map pcap_call.delivered ++ recs.map (fun r => (record_info r, r.payload)) ∧
      (read_pass s).num_packets = (s.num_packets + recs.length) % U64 := by
  intro recs
  induction recs with
  | nil =>
    intro s fp hfp hdrop _ hnum
    have h := read_packet_at_end s.f fp s.pkthdr s.packet_data hfp
      (by simpa [records_octets] using hdrop)
    rw [read_pass_eq, h]
    simp only [reduceCtorEq, if_false, records_octets, List.length_nil, Nat.add_zero,
      List.map_nil, List.append_nil, Nat.mod_eq_of_lt hnum, true_and, and_true]
    cases hs : s.f
    rw [hs] at hfp
    simp only at hfp
    simp [hfp]
  | cons r rest ih =>
    intro s fp hfp hdrop hall hnum
    obtain ⟨hsec, husec, hlen1, hlen2⟩ := hall r (List.mem_cons_self _ _)
    obtain ⟨hr, hd⟩ := read_packet_record s.f fp r (records_octets s.f.byteswap rest) s.pkthdr
      s.packet_data hfp (by simpa [records_octets] using hdrop) hsec husec hlen1 hlen2
    have hU : 0 < U64 := by decide
    rw [read_pass_eq, hr]
    simp only [if_true]
    obtain ⟨i1, i2, i3, i4⟩ := ih
      { f := { s.f with file_ptr := some { fp with pos := fp.pos + 16 + r.payload.length } }
        st := status.status_ok
        pkthdr :=
          { ts := { tv_sec := (r.ts_sec : Int), tv_usec := (r.ts_usec : Int) }
            caplen := r.payload.length
            len := s.pkthdr.len }
        packet_data := store_bytes s.packet_data r.payload
        total_length := (s.total_length + (r.payload.length + sizeof_pcap_packet_hdr)) % U64
        num_packets := (s.num_packets + 1) % U64
        calls := s.calls ++
          [{ pi := packet_info_init_from_pkthdr
                { ts := { tv_sec := (r.ts_sec : Int), tv_usec := (r.ts_usec : Int) }
                  caplen := r.payload.length
                  len := s.pkthdr.len }
             packet_data := store_bytes s.packet_data r.payload }] }
      { fp with pos := fp.pos + 16 + r.payload.length } rfl hd
      (fun x hx => hall x (List.mem_cons_of_mem _ hx)) (Nat.mod_lt _ hU)
    refine ⟨i1, ?_, ?_, ?_⟩
    · rw [i2]
      simp only [records_octets, List.length_append, record_octets_length]
      simp only [Nat.add_assoc]
    · rw [i3]
      simp only [List.map_append, List.map_cons, List.map_nil, List.append_assoc,
        List.singleton_append, pcap_call.delivered, packet_info_init_from_pkthdr,
        wrap_int64_usec _ husec, record_info, store_bytes, List.take_left]
    · rw [i4]
      simp only [List.length_cons, Nat.mod_add_mod]
      congr 1
      omega

/-- The passes of the `for` loop over a file whose records start right after
the 24 octets of the file header. -/
theorem pass_loop_records (recs : List pcap_record) (hdr : List Byte)
    (hhdr : hdr.length = 24) (loop_count : Int)
    (hall : ∀ r ∈ recs, r.ts_sec < U32 ∧ r.ts_usec < U32 ∧ 1 ≤ r.payload.length ∧
      r.payload.length ≤ BUFLEN) :
    ∀ (k : Nat) (i : Int) (s : dispatch_state) (fp : FILE),
      loop_count = i + k →
      s.f.file_ptr = some fp →
      fp.data = hdr ++ records_octets s.f.byteswap recs →
      fp.pos = 24 →
      s.num_packets < U64 →
      (pass_loop loop_count k i s).calls.map pcap_call.delivered
        = s.calls.map pcap_call.delivered
          ++ (List.replicate k (recs.map (fun r => (record_info r, r.payload)))).flatten ∧
      (pass_loop loop_count k i s).num_packets = (s.num_packets + k * recs.length) % U64 ∧
      (0 < k → (pass_loop loop_count k i s).st = status.status_err_no_more_data) := by
  intro k
  induction k with
  | zero =>
    intro i s fp _ _ _ _ hnum
    simp [pass_loop, Nat.mod_eq_of_lt hnum]
  | succ k ih =>
    intro i s fp hlc hfp hdata hpos hnum
    have hdrop : fp.data.drop fp.pos = records_octets s.f.byteswap recs := by
      rw [hdata, hpos, ← hhdr, List.drop_left]
    obtain ⟨p1, p2, p3, p4⟩ := read_pass_records recs s fp hfp hdrop hall hnum
    have hp : read_loop (octets_left s.f + 1) s = read_pass s := rfl
    have hU : 0 < U64 := by decide
    simp only [pass_loop, hp]
    by_cases hk : k = 0
    · subst hk
      have hcond : ¬ i < loop_count - 1 := by rw [hlc]; push_cast; omega
      simp only [if_neg hcond, pass_loop]
      refine ⟨?_, ?_, fun _ => p1⟩
      · rw [p3]; simp
      · rw [p4]; simp
    · have hcond : i < loop_count - 1 := by rw [hlc]; push_cast; omega
      simp only [if_pos hcond]
      have hrew : rewind (read_pass s).f
          = { s.f with file_ptr := some ({ fp with pos := 24 }) } := by
        rw [p2]
        simp [rewind, fseek_set, sizeof_pcap_file_hdr]
      obtain ⟨i1, i2, i3⟩ := ih (i + 1) { read_pass s with f := rewind (read_pass s).f }
        { fp with pos := 24 } (by rw [hlc]; push_cast; omega)
        (by rw [hrew]) (by rw [hrew]; exact hdata) rfl
        (by rw [p4]; exact Nat.mod_lt _ hU)
      refine ⟨?_, ?_, fun _ => i3 (by omega)⟩
      · rw [i1]
        simp only [p3, List.replicate_succ, List.flatten_cons, List.append_assoc]
      · rw [i2]
        simp only [p4, Nat.mod_add_mod]
        congr 1
        rw [Nat.succ_mul]
        omega

/-- C7: on a file that holds the records `recs`, each with 32-bit timestamp
fields and 1 to `BUFLEN` captured octets, right after the 24 octets of its
file header, opened with the byte order of its records and positioned at the
first record, `pcap_file_dispatch_frame_handler` with `loop_count = n >= 1`
returns `status_ok` and invokes the handler exactly `n * k` times: the
invocations are those of a single pass repeated `n` times, invocation `j` of
a pass receiving the packet information `{tv_sec = ts_sec, tv_nsec =
1000 * ts_usec, caplen = incl_len, len = incl_len}` and the captured octets
of record `j`; `packets_written` is set to `n * k` (as a 64-bit count). -/
theorem C7_replay_passes (f : pcap_file) (fp : FILE) (recs : List pcap_record)
    (hdr : List Byte) (n : Nat) (pkthdr : pcap_pkthdr) (packet_data : List Byte)
    (hfp : f.file_ptr = some fp)
    (hdata : fp.data = hdr ++ records_octets f.byteswap recs)
    (hhdr : hdr.length = 24) (hpos : fp.pos = 24)
    (hall : ∀ r ∈ recs, r.ts_sec < U32 ∧ r.ts_usec < U32 ∧ 1 ≤ r.payload.length ∧
      r.payload.length ≤ BUFLEN)
    (hn : 1 ≤ n) :
    (pcap_file_dispatch_frame_handler f (n : Int) pkthdr packet_data).1 = status.status_ok ∧
    (pcap_file_dispatch_frame_handler f (n : Int) pkthdr packet_data).2.2.length
      = n * recs.length ∧
    (pcap_file_dispatch_frame_handler f (n : Int) pkthdr packet_data).2.2.map pcap_call.delivered
      = (List.replicate n (recs.map (fun r => (record_info r, r.payload)))).flatten ∧
    (pcap_file_dispatch_frame_handler f (n : Int) pkthdr packet_data).2.1.packets_written
      = n * recs.length % U64 ∧
    (n * recs.length < U64 →
      (pcap_file_dispatch_frame_handler f (n : Int) pkthdr packet_data).2.1.packets_written
        = n * recs.length) := by
  obtain ⟨h1, h2, h3⟩ := pass_loop_records recs hdr hhdr (n : Int) hall n 0
    { f := f, st := status.status_ok, pkthdr := pkthdr, packet_data := packet_data,
      total_length := sizeof_pcap_file_hdr, num_packets := 0, calls := [] }
    fp (by simp) hfp hdata hpos (show 0 < U64 by decide)
  simp only [List.map_nil, List.nil_append, Nat.zero_add] at h1 h2
  have hst := h3 (by omega)
  have hlen : (pcap_file_dispatch_frame_handler f (n : Int) pkthdr packet_data).2.2.length
      = n * recs.length := by
    have := congrArg List.length h1
    simp only [List.length_map, List.length_flatten, List.map_replicate, List.sum_replicate,
      smul_eq_mul] at this
    simpa [pcap_file_dispatch_frame_handler] using this
  refine ⟨?_, hlen, ?_, ?_, ?_⟩
  · simp only [pcap_file_dispatch_frame_handler, Int.toNat_ofNat, hst, if_true]
  · simpa [pcap_file_dispatch_frame_handler] using h1
  · simpa [pcap_file_dispatch_frame_handler] using h2
  · intro hlt
    have : (pcap_file_dispatch_frame_handler f (n : Int) pkthdr packet_data).2.1.packets_written
        = n * recs.length % U64 := by
      simpa [pcap_file_dispatch_frame_handler] using h2
    rw [this, Nat.mod_eq_of_lt hlt]

/-- C7 on a file of two records replayed three times. -/
theorem C7_replay_passes_witness :
    (sample_reader.file_ptr = some
        { data := file_header_bytes ++ records_octets 0 sample_records, pos := 24 } ∧
      file_header_bytes.length = 24 ∧
      (∀ r ∈ sample_records, r.ts_sec < U32 ∧ r.ts_usec < U32 ∧ 1 ≤ r.payload.length ∧
        r.payload.length ≤ BUFLEN) ∧ 1 ≤ 3) ∧
    (pcap_file_dispatch_frame_handler sample_reader ((3 : Nat) : Int) blank_pkthdr []).1
      = status.status_ok ∧
    (pcap_file_dispatch_frame_handler sample_reader ((3 : Nat) : Int) blank_pkthdr []).2.2.length
      = 3 * sample_records.length :=
  ⟨⟨rfl, rfl, by decide, by decide⟩,
   (C7_replay_passes sample_reader
      { data := file_header_bytes ++ records_octets 0 sample_records, pos := 24 }
      sample_records file_header_bytes 3 blank_pkthdr [] rfl rfl rfl rfl
      (by decide) (by decide)).1,
   (C7_replay_passes sample_reader
      { data := file_header_bytes ++ records_octets 0 sample_records, pos := 24 }
      sample_records file_header_bytes 3 blank_pkthdr [] rfl rfl rfl rfl
      (by decide) (by decide)).2.1⟩

/-- The octets stored at the start of a buffer are found there. -/
theorem store_bytes_take (buffer bytes : List Byte) :
    (store_bytes buffer bytes).take bytes.length = bytes := by
  unfold store_bytes
  rw [List.take_left]

/-- Storing octets at the start of a buffer leaves what lies after them. -/
theorem store_bytes_drop (buffer bytes : List Byte) :
    (store_bytes buffer bytes).drop bytes.length = buffer.drop bytes.length := by
  unfold store_bytes
  rw [List.drop_left]

/-- C8: for a record of more than `BUFLEN` captured octets that is fully in
the file, `pcap_file_read_packet` returns `status_ok`; it stores the first
`BUFLEN` captured octets at the start of the output buffer and leaves the
rest of the buffer as it was; it sets `caplen = BUFLEN` and `len` to the
record's `incl_len`; and it leaves the file position at the start of the
following record, `16 + incl_len` octets further. -/
theorem C8_oversized_record (f : pcap_file) (fp : FILE) (r : pcap_record) (rest : List Byte)
    (pkthdr : pcap_pkthdr) (packet_data : List Byte)
    (hfp : f.file_ptr = some fp)
    (hdrop : fp.data.drop fp.pos = record_octets f.byteswap r ++ rest)
    (hsec : r.ts_sec < U32) (husec : r.ts_usec < U32)
    (hlen1 : BUFLEN < r.payload.length) (hlen2 : r.payload.length < U32) :
    ∃ (f1 : pcap_file) (fp1 : FILE) (pkthdr1 : pcap_pkthdr) (buffer : List Byte),
      pcap_file_read_packet f pkthdr packet_data = (status.status_ok, f1, pkthdr1, buffer) ∧
      buffer.take BUFLEN = r.payload.take BUFLEN ∧
      (r.payload.take BUFLEN).length = BUFLEN ∧
      buffer.drop BUFLEN = packet_data.drop BUFLEN ∧
      pkthdr1.caplen = BUFLEN ∧
      pkthdr1.len = r.payload.length ∧
      f1.file_ptr = some fp1 ∧
      fp1.data = fp.data ∧
      fp1.pos = fp.pos + (16 + r.payload.length) ∧
      fp1.data.drop fp1.pos = rest := by
  have hlenf : (r.payload.take BUFLEN).length = BUFLEN := by
    rw [List.length_take]; omega
  have hsplit : record_octets f.byteswap r ++ rest =
      (if f.byteswap ≠ 0 then
        packet_hdr_bytes (ntohl r.ts_sec) (ntohl r.ts_usec) (ntohl r.payload.length)
          (ntohl r.orig_len)
       else packet_hdr_bytes r.ts_sec r.ts_usec r.payload.length r.orig_len)
      ++ (r.payload.take BUFLEN ++ (r.payload.drop BUFLEN ++ rest)) := by
    have e : r.payload ++ rest = r.payload.take BUFLEN ++ (r.payload.drop BUFLEN ++ rest) := by
      rw [← List.append_assoc, List.take_append_drop]
    unfold record_octets
    split <;> rw [List.append_assoc, e]
  have h := read_packet_oversized f fp r (r.payload.take BUFLEN) (r.payload.drop BUFLEN ++ rest)
    pkthdr packet_data hfp (by rw [hdrop, hsplit]) hlenf hsec husec hlen1 hlen2
  refine ⟨_, _, _, _, h, ?_, hlenf, ?_, rfl, rfl, rfl, rfl, by simp only [Nat.add_assoc], ?_⟩
  · have e := store_bytes_take packet_data (r.payload.take BUFLEN)
    rw [hlenf] at e
    exact e
  · have e := store_bytes_drop packet_data (r.payload.take BUFLEN)
    rw [hlenf] at e
    exact e
  · show fp.data.drop (fp.pos + 16 + r.payload.length) = rest
    rw [Nat.add_assoc, ← List.drop_drop, hdrop, ← record_octets_length f.byteswap r,
      List.drop_left]

/-- Skipping the file header. -/
theorem drop_file_header (rest : List Byte) : (file_header_bytes ++ rest).drop 24 = rest := by
  rw [← file_header_bytes_length, List.drop_left]

/-- The record of `2 * BUFLEN` octets has that many captured octets. -/
theorem oversized_record_length : oversized_record.payload.length = 2 * BUFLEN := by
  simp [oversized_record]

/-- C8 on a record of `2 * BUFLEN` captured octets. -/
theorem C8_oversized_record_witness :
    (BUFLEN < oversized_record.payload.length ∧ oversized_record.payload.length < U32 ∧
      oversized_record.ts_sec < U32 ∧ oversized_record.ts_usec < U32) ∧
    ∃ (f1 : pcap_file) (fp1 : FILE) (pkthdr1 : pcap_pkthdr) (buffer : List Byte),
      pcap_file_read_packet oversized_reader blank_pkthdr (List.replicate BUFLEN (byte 0))
        = (status.status_ok, f1, pkthdr1, buffer) ∧
      pkthdr1.caplen = BUFLEN ∧ pkthdr1.len = oversized_record.payload.length ∧
      f1.file_ptr = some fp1 ∧ fp1.pos = 24 + (16 + oversized_record.payload.length) := by
  have h1 : BUFLEN < oversized_record.payload.length := by
    rw [oversized_record_length]; decide
  have h2 : oversized_record.payload.length < U32 := by
    rw [oversized_record_length]; decide
  obtain ⟨f1, fp1, pkthdr1, buffer, e1, -, -, -, e5, e6, e7, -, e9, -⟩ :=
    C8_oversized_record oversized_reader
      { data := file_header_bytes ++ record_octets 0 oversized_record, pos := 24 }
      oversized_record [] blank_pkthdr (List.replicate BUFLEN (byte 0)) rfl
      ((drop_file_header _).trans (List.append_nil _).symm)
      (by decide) (by decide) h1 h2
  simp only at e9
  exact ⟨⟨h1, h2, by decide, by decide⟩, f1, fp1, pkthdr1, buffer, e1, e5, e6, e7, e9⟩

/-- With a loop count of 1 the `for` loop is one pass, without rewind. -/
theorem pass_loop_single (s : dispatch_state) : pass_loop 1 1 0 s = read_pass s := by
  simp [pass_loop, read_pass]

/-- Replaying a file whose only record has more than `BUFLEN` captured
octets: the handler is invoked once, with `caplen` and `len` both `BUFLEN`
and the first `BUFLEN` captured octets in the buffer. -/
theorem dispatch_oversized_record (f : pcap_file) (fp : FILE) (r : pcap_record)
    (pkthdr : pcap_pkthdr) (packet_data : List Byte)
    (hfp : f.file_ptr = some fp)
    (hdrop : fp.data.drop fp.pos = record_octets f.byteswap r)
    (hsec : r.ts_sec < U32) (husec : r.ts_usec < U32)
    (hlen1 : BUFLEN < r.payload.length) (hlen2 : r.payload.length < U32) :
    pcap_file_dispatch_frame_handler f 1 pkthdr packet_data =
      (status.status_ok,
       { f with
          file_ptr := some { fp with pos := fp.pos + 16 + r.payload.length }
          bytes_written := (sizeof_pcap_file_hdr + (BUFLEN + sizeof_pcap_packet_hdr)) % U64
          packets_written := 1 },
       [{ pi := { ts := { tv_sec := (r.ts_sec : Int), tv_nsec := 1000 * (r.ts_usec : Int) }
                  caplen := BUFLEN
                  len := BUFLEN }
          packet_data := store_bytes packet_data (r.payload.take BUFLEN) }]) := by
  have hlenf : (r.payload.take BUFLEN).length = BUFLEN := by
    rw [List.length_take]; omega
  have hsplit : record_octets f.byteswap r =
      (if f.byteswap ≠ 0 then
        packet_hdr_bytes (ntohl r.ts_sec) (ntohl r.ts_usec) (ntohl r.payload.length)
          (ntohl r.orig_len)
       else packet_hdr_bytes r.ts_sec r.ts_usec r.payload.length r.orig_len)
      ++ (r.payload.take BUFLEN ++ r.payload.drop BUFLEN) := by
    rw [List.take_append_drop]
    unfold record_octets
    split <;> rfl
  have h := read_packet_oversized f fp r (r.payload.take BUFLEN) (r.payload.drop BUFLEN)
    pkthdr packet_data hfp (by rw [hdrop, hsplit]) hlenf hsec husec hlen1 hlen2
  have hend : fp.data.drop (fp.pos + 16 + r.payload.length) = [] := by
    rw [Nat.add_assoc, ← List.drop_drop, hdrop, ← record_octets_length f.byteswap r,
      List.drop_length]
  have h2 := read_packet_at_end
    { f with file_ptr := some { fp with pos := fp.pos + 16 + r.payload.length } }
    { fp with pos := fp.pos + 16 + r.payload.length }
    { ts := { tv_sec := (r.ts_sec : Int), tv_usec := (r.ts_usec : Int) }
      caplen := BUFLEN
      len := r.payload.length }
    (store_bytes packet_data (r.payload.take BUFLEN)) rfl hend
  have hone : (1 : Int).toNat = 1 := rfl
  simp only [pcap_file_dispatch_frame_handler, hone, pass_loop_single]
  rw [read_pass_eq]
  simp only [h, if_true]
  rw [read_pass_eq]
  have e1 : (1 : Nat) % U64 = 1 := by decide
  simp only [h2, reduceCtorEq, if_false, if_true, packet_info_init_from_pkthdr,
    wrap_int64_usec _ husec, List.nil_append, Nat.zero_add, e1]

/-- C9, what the code does: replaying a file whose only record has
`incl_len = 2 * BUFLEN` returns `status_ok` and invokes the handler once,
with `caplen = BUFLEN` and the first `BUFLEN` captured octets in the buffer,
but with `len = BUFLEN`, not `2 * BUFLEN`: `packet_info_init_from_pkthdr`
takes `len` from `caplen` and drops the `len` that `pcap_file_read_packet`
has just set. -/
theorem C9_oversized_replay_len :
    ∃ (f1 : pcap_file) (call : pcap_call),
      pcap_file_dispatch_frame_handler oversized_reader 1 blank_pkthdr
          (List.replicate BUFLEN (byte 0)) = (status.status_ok, f1, [call]) ∧
      oversized_record.payload.length = 2 * BUFLEN ∧
      call.pi.caplen = BUFLEN ∧
      call.pi.len = BUFLEN ∧
      call.pi.len ≠ 2 * BUFLEN ∧
      call.packet_data.take BUFLEN = oversized_record.payload.take BUFLEN ∧
      call.packet_data.length = BUFLEN := by
  have h1 : BUFLEN < oversized_record.payload.length := by
    rw [oversized_record_length]; decide
  have h2 : oversized_record.payload.length < U32 := by
    rw [oversized_record_length]; decide
  have hlenf : (oversized_record.payload.take BUFLEN).length = BUFLEN := by
    rw [List.length_take, oversized_record_length]; decide
  have h := dispatch_oversized_record oversized_reader
    { data := file_header_bytes ++ record_octets 0 oversized_record, pos := 24 }
    oversized_record blank_pkthdr (List.replicate BUFLEN (byte 0)) rfl
    (drop_file_header _) (by decide) (by decide) h1 h2
  refine ⟨_, _, h, oversized_record_length, rfl, rfl, by decide, ?_, ?_⟩
  · have e := store_bytes_take (List.replicate BUFLEN (byte 0)) (oversized_record.payload.take BUFLEN)
    rw [hlenf] at e
    exact e
  · show (store_bytes _ _).length = BUFLEN
    unfold store_bytes
    rw [List.length_append, List.length_drop, hlenf, List.length_replicate, Nat.sub_self,
      Nat.add_zero]

/-- The first four octets of a file that starts with a 32-bit word. -/
theorem le32_take_24 (m : Nat) (rest : List Byte) :
    le32 ((u32_bytes m ++ rest).take 24) = m % U32 := by
  simp only [u32_bytes, List.cons_append, List.nil_append, List.take_succ_cons, le32, byte, U32]
  omega

/-- Opening as reader a file with a complete header whose first word is `m`:
the four cases of lines 187-200. -/
theorem pcap_file_open_reader_word (f : pcap_file) (m : Nat) (rest : List Byte)
    (hm : m < U32) (hrest : 20 ≤ rest.length) :
    pcap_file_open f (some (u32_bytes m ++ rest)) io_direction.io_direction_reader =
      if m = magic then
        ([], Outcome.ret (status.status_ok,
          { f with
              flags := O_RDONLY
              file_ptr := some { data := u32_bytes m ++ rest, pos := 24 }
              bytes_written := 0
              byteswap := 0 }))
      else if m = cagim then
        ([], Outcome.ret (status.status_ok,
          { f with
              flags := O_RDONLY
              file_ptr := some { data := u32_bytes m ++ rest, pos := 24 }
              bytes_written := 0
              byteswap := 1 }))
      else
        (open_msg.not_in_pcap_format m ::
          (if m = 0x0a0d0d0a then [open_msg.pcap_ng_unsupported] else []),
         Outcome.exit 255) := by
  have hlen : 24 ≤ (List.drop 0 (u32_bytes m ++ rest)).length := by
    rw [List.drop_zero, List.length_append, u32_bytes_length]; omega
  have hr : fread { data := u32_bytes m ++ rest, pos := 0 } 24 =
      (1, (u32_bytes m ++ rest).take 24, { data := u32_bytes m ++ rest, pos := 24 }) := by
    unfold fread
    rw [if_neg (by decide), if_pos hlen]
    rfl
  have hw : le32 ((u32_bytes m ++ rest).take 24) = m := by
    rw [le32_take_24, Nat.mod_eq_of_lt hm]
  simp only [pcap_file_open, sizeof_pcap_file_hdr, hr, Nat.one_ne_zero, if_false, hw]

/-- C10: `pcap_file_open` in reader mode, on a file with a complete 24-octet
header whose first 32-bit word is `m`: it returns `status_ok` with
`byteswap = 0` if `m` is `0xA1B2C3D4`, returns `status_ok` with
`byteswap = 1` if `m` is `0xD4C3B2A1`, and ends the process with a non-zero
exit status for every other `m`; the pcap-ng diagnostic is written if and
only if `m` is `0x0A0D0D0A`. -/
theorem C10_open_reader_magic (f : pcap_file) (m : Nat) (rest : List Byte)
    (hm : m < U32) (hrest : 20 ≤ rest.length) :
    (m = 0xa1b2c3d4 →
      ∃ f1, (pcap_file_open f (some (u32_bytes m ++ rest)) io_direction.io_direction_reader).2
          = Outcome.ret (status.status_ok, f1) ∧ f1.byteswap = 0) ∧
    (m = 0xd4c3b2a1 →
      ∃ f1, (pcap_file_open f (some (u32_bytes m ++ rest)) io_direction.io_direction_reader).2
          = Outcome.ret (status.status_ok, f1) ∧ f1.byteswap = 1) ∧
    (m ≠ 0xa1b2c3d4 → m ≠ 0xd4c3b2a1 →
      ∃ code, (pcap_file_open f (some (u32_bytes m ++ rest)) io_direction.io_direction_reader).2
          = Outcome.exit code ∧ code ≠ 0) ∧
    (open_msg.pcap_ng_unsupported ∈
        (pcap_file_open f (some (u32_bytes m ++ rest)) io_direction.io_direction_reader).1
      ↔ m = 0x0a0d0d0a) := by
  have h := pcap_file_open_reader_word f m rest hm hrest
  have hmagic : magic = 0xa1b2c3d4 := rfl
  have hcagim : cagim = 0xd4c3b2a1 := rfl
  refine ⟨?_, ?_, ?_, ?_⟩
  · intro e
    rw [h, if_pos (by rw [hmagic]; exact e)]
    exact ⟨_, rfl, rfl⟩
  · intro e
    rw [h, if_neg (by rw [hmagic, e]; decide), if_pos (by rw [hcagim]; exact e)]
    exact ⟨_, rfl, rfl⟩
  · intro e1 e2
    rw [h, if_neg (by rw [hmagic]; exact e1), if_neg (by rw [hcagim]; exact e2)]
    exact ⟨255, rfl, by decide⟩
  · rw [h]
    by_cases e1 : m = magic
    · rw [if_pos e1]
      constructor
      · intro hin; simp at hin
      · intro e; rw [hmagic] at e1; omega
    · rw [if_neg e1]
      by_cases e2 : m = cagim
      · rw [if_pos e2]
        constructor
        · intro hin; simp at hin
        · intro e; rw [hcagim] at e2; omega
      · rw [if_neg e2]
        by_cases e3 : m = 0x0a0d0d0a
        · simp [e3]
        · simp [e3]

/-- C10 on the pcap-ng magic `0x0A0D0D0A`: the process exits with status 255
after both diagnostics. -/
theorem C10_open_reader_magic_witness :
    ((0x0a0d0d0a : Nat) < U32 ∧ 20 ≤ (List.replicate 20 (byte 0)).length) ∧
    pcap_file_open closed_file (some (u32_bytes 0x0a0d0d0a ++ List.replicate 20 (byte 0)))
        io_direction.io_direction_reader
      = ([open_msg.not_in_pcap_format 0x0a0d0d0a, open_msg.pcap_ng_unsupported],
         Outcome.exit 255) ∧
    (open_msg.pcap_ng_unsupported ∈
        (pcap_file_open closed_file (some (u32_bytes 0x0a0d0d0a ++ List.replicate 20 (byte 0)))
          io_direction.io_direction_reader).1
      ↔ (0x0a0d0d0a : Nat) = 0x0a0d0d0a) :=
  ⟨⟨by decide, by decide⟩, by decide,
   (C10_open_reader_magic closed_file 0x0a0d0d0a (List.replicate 20 (byte 0))
      (by decide) (by decide)).2.2.2⟩

/-- What the loop leaves when it returns: the loop condition fails, and the
block size has not grown. -/
theorem halve_blocksize_loop_exit (rlp : ring_limits) (size : Nat) :
    ∀ (fuel bs0 bs : Nat), bs0 < fuel →
      halve_blocksize_loop rlp size fuel bs0 = Outcome.ret bs →
      (bs / 2 < rlp.af_min_blocksize ∨ rlp.af_target_blocks ≤ size / bs) ∧ bs ≤ bs0 := by
  intro fuel
  induction fuel with
  | zero => intro bs0 bs h; omega
  | succ n ih =>
    intro bs0 bs hlt h
    simp only [halve_blocksize_loop] at h
    by_cases h1 : bs0 / 2 ≥ rlp.af_min_blocksize
    · by_cases h2 : bs0 = 0
      · rw [if_pos h1, if_pos h2] at h
        cases h
      · by_cases h3 : size / bs0 < rlp.af_target_blocks
        · simp only [h1, h2, h3, if_true, if_false] at h
          obtain ⟨e1, e2⟩ := ih (bs0 / 2) bs (by omega) h
          exact ⟨e1, by omega⟩
        · simp only [h1, h2, h3, if_true, if_false, Outcome.ret.injEq] at h
          subst h
          exact ⟨Or.inr (by omega), Nat.le_refl _⟩
    · simp only [h1, if_false, Outcome.ret.injEq] at h
      subst h
      exact ⟨Or.inl (by omega), Nat.le_refl _⟩

/-- From a block size that is the minimum block size times a power of two,
the loop returns such a block size, with no greater exponent. -/
theorem halve_blocksize_loop_pow (rlp : ring_limits) (size : Nat)
    (hmin : 0 < rlp.af_min_blocksize) :
    ∀ (fuel k : Nat), ∃ j, j ≤ k ∧
      halve_blocksize_loop rlp size fuel (rlp.af_min_blocksize * 2 ^ k)
        = Outcome.ret (rlp.af_min_blocksize * 2 ^ j) := by
  intro fuel
  induction fuel with
  | zero => intro k; exact ⟨k, Nat.le_refl _, rfl⟩
  | succ n ih =>
    intro k
    simp only [halve_blocksize_loop]
    have hpos : 0 < rlp.af_min_blocksize * 2 ^ k := Nat.mul_pos hmin (Nat.two_pow_pos k)
    by_cases h1 : rlp.af_min_blocksize * 2 ^ k / 2 ≥ rlp.af_min_blocksize
    · by_cases h3 : size / (rlp.af_min_blocksize * 2 ^ k) < rlp.af_target_blocks
      · simp only [h1, h3, if_true, if_neg (Nat.pos_iff_ne_zero.mp hpos)]
        cases k with
        | zero =>
          simp only [Nat.pow_zero, Nat.mul_one] at h1
          omega
        | succ i =>
          have e : rlp.af_min_blocksize * 2 ^ (i + 1) / 2 = rlp.af_min_blocksize * 2 ^ i := by
            rw [Nat.pow_succ, ← Nat.mul_assoc, Nat.mul_div_cancel _ (by decide)]
          rw [e]
          obtain ⟨j, hj, hr⟩ := ih i
          exact ⟨j, by omega, hr⟩
      · simp only [h1, h3, if_true, if_false, if_neg (Nat.pos_iff_ne_zero.mp hpos)]
        exact ⟨k, Nat.le_refl _, rfl⟩
    · simp only [h1, if_false]
      exact ⟨k, Nat.le_refl _, rfl⟩

/-- The ring size is a 32-bit value. -/
theorem thread_ring_size_lt (rlp : ring_limits) (n size : Nat)
    (h : thread_ring_size rlp n = Outcome.ret size) : size < U32 := by
  have hU : 0 < U32 := by decide
  unfold thread_ring_size at h
  split at h
  · cases h
  · split at h
    · injection h with h
      rw [← h]; exact Nat.mod_lt _ hU
    · injection h with h
      rw [← h]; exact Nat.mod_lt _ hU

/-- The ring size is at most the ring limit. -/
theorem thread_ring_size_le_limit (rlp : ring_limits) (n size : Nat)
    (h : thread_ring_size rlp n = Outcome.ret size) : size ≤ rlp.af_ring_limit := by
  unfold thread_ring_size at h
  split at h
  · cases h
  · split at h
    · injection h with h
      rw [← h]; exact Nat.mod_le _ _
    · rename_i hle
      injection h with h
      have := Nat.mod_le (rlp.af_desired_memory / n) U32
      omega

/-- C13, amended: whenever the ring sizing returns a request, the block count
is at least `af_target_blocks` unless the block size cannot be halved again
without falling below `af_min_blocksize` (half the block size is below it);
when the initial block size is `af_min_blocksize` times a power of two, as
with the default constants, the block count is at least `af_target_blocks`
unless the block size equals `af_min_blocksize`. -/
theorem C13_target_blocks_or_floor (rlp : ring_limits) (num_threads : Nat)
    (req : tpacket_req3)
    (h : (thread_ring_req rlp num_threads).2 = Outcome.ret req) :
    (req.tp_block_nr ≥ rlp.af_target_blocks ∨
      req.tp_block_size / 2 < rlp.af_min_blocksize) ∧
    (∀ k, 0 < rlp.af_min_blocksize →
      rlp.af_blocksize % U32 = rlp.af_min_blocksize * 2 ^ k →
      req.tp_block_nr ≥ rlp.af_target_blocks ∨ req.tp_block_size = rlp.af_min_blocksize) := by
  obtain ⟨size, bs, hs, hb, hr⟩ := thread_ring_req_ret rlp num_threads req h
  obtain ⟨-, -, -, -, e1, -, e3, -⟩ := ring_request_ret rlp num_threads size bs req hr
  have hlt := thread_ring_size_lt rlp num_threads size hs
  have hmod : size / bs % U32 = size / bs :=
    Nat.mod_eq_of_lt (Nat.lt_of_le_of_lt (Nat.div_le_self _ _) hlt)
  obtain ⟨hexit, -⟩ := halve_blocksize_loop_exit rlp size _ _ bs (Nat.lt_succ_self _) hb
  rw [e1, e3, hmod]
  have first : size / bs ≥ rlp.af_target_blocks ∨ bs / 2 < rlp.af_min_blocksize := by
    cases hexit with
    | inl hl => exact Or.inr hl
    | inr hr => exact Or.inl hr
  refine ⟨first, ?_⟩
  intro k hmin hk
  cases first with
  | inl hl => exact Or.inl hl
  | inr hhalf =>
    right
    obtain ⟨j, -, hj⟩ := halve_blocksize_loop_pow rlp size hmin
      (rlp.af_min_blocksize * 2 ^ k + 1) k
    unfold halve_blocksize at hb
    rw [hk, hj] at hb
    injection hb with hb
    subst hb
    cases j with
    | zero => simp
    | succ i =>
      exfalso
      have e : rlp.af_min_blocksize * 2 ^ (i + 1) / 2 = rlp.af_min_blocksize * 2 ^ i := by
        rw [Nat.pow_succ, ← Nat.mul_assoc, Nat.mul_div_cancel _ (by decide)]
      rw [e] at hhalf
      have : rlp.af_min_blocksize * 1 ≤ rlp.af_min_blocksize * 2 ^ i :=
        Nat.mul_le_mul_left _ (Nat.two_pow_pos i)
      omega

/-- C13, amended, at scenario S5: 64 blocks, the target. -/
theorem C13_target_blocks_or_floor_witness :
    (thread_ring_req (ring_limits_default (2 ^ 30)) 8).2 = Outcome.ret
      { tp_block_size := 2097152, tp_block_nr := 64, tp_frame_size := 2048,
        tp_frame_nr := 65536, tp_retire_blk_tov := 100, tp_sizeof_priv := 0,
        tp_feature_req_word := 1 } ∧
    ((64 : Nat) ≥ (ring_limits_default (2 ^ 30)).af_target_blocks ∨
      (2097152 : Nat) / 2 < (ring_limits_default (2 ^ 30)).af_min_blocksize) :=
  ⟨by decide, (C13_target_blocks_or_floor (ring_limits_default (2 ^ 30)) 8
    { tp_block_size := 2097152, tp_block_nr := 64, tp_frame_size := 2048,
      tp_frame_nr := 65536, tp_retire_blk_tov := 100, tp_sizeof_priv := 0,
      tp_feature_req_word := 1 } (by decide)).1⟩

/-- C13 as stated fails on a table whose minimum block size is 96 KiB: with a
budget of 1 MiB and one worker the sizing succeeds with 8 blocks of 128 KiB,
fewer than the target of 64, and the block size is not the minimum. -/
theorem C13_counterexample :
    (thread_ring_req odd_min_limits 1).2 = Outcome.ret
      { tp_block_size := 131072, tp_block_nr := 8, tp_frame_size := 2048,
        tp_frame_nr := 512, tp_retire_blk_tov := 100, tp_sizeof_priv := 0,
        tp_feature_req_word := 1 } ∧
    ¬ ((8 : Nat) ≥ odd_min_limits.af_target_blocks ∨
      (131072 : Nat) = odd_min_limits.af_min_blocksize) := by
  decide

/-- C15: whenever the ring sizing returns a request, the total ring size
`tp_block_size * tp_block_nr` is at most `af_ring_limit` and below `2^32`,
so the 32-bit product does not wrap, and `tp_frame_nr` is exactly
`tp_block_size * tp_block_nr / tp_frame_size`. -/
theorem C15_frame_count_exact (rlp : ring_limits) (num_threads : Nat)
    (req : tpacket_req3)
    (h : (thread_ring_req rlp num_threads).2 = Outcome.ret req) :
    req.tp_block_size * req.tp_block_nr ≤ rlp.af_ring_limit ∧
    req.tp_block_size * req.tp_block_nr < 2 ^ 32 ∧
    req.tp_block_size * req.tp_block_nr % 2 ^ 32 = req.tp_block_size * req.tp_block_nr ∧
    req.tp_frame_nr = req.tp_block_size * req.tp_block_nr / req.tp_frame_size := by
  obtain ⟨size, bs, hs, -, hr⟩ := thread_ring_req_ret rlp num_threads req h
  obtain ⟨-, -, -, -, e1, e2, e3, e4⟩ := ring_request_ret rlp num_threads size bs req hr
  have hlt := thread_ring_size_lt rlp num_threads size hs
  have hle := thread_ring_size_le_limit rlp num_threads size hs
  have h1 : size / bs % U32 ≤ size / bs := Nat.mod_le _ _
  have h2 : bs * (size / bs) ≤ size := Nat.mul_div_le size bs
  have h3 : bs * (size / bs % U32) ≤ size :=
    Nat.le_trans (Nat.mul_le_mul_left _ h1) h2
  have hU : U32 = 2 ^ 32 := rfl
  rw [e1, e2, e3, e4]
  have hlt2 : bs * (size / bs % U32) < 2 ^ 32 := by rw [← hU]; omega
  refine ⟨by omega, hlt2, Nat.mod_eq_of_lt hlt2, ?_⟩
  rw [hU] at hlt2 ⊢
  rw [Nat.mod_eq_of_lt hlt2]

/-- C15 at scenario S5: 64 blocks of 2 MiB are 65536 frames of 2 KiB. -/
theorem C15_frame_count_exact_witness :
    (thread_ring_req (ring_limits_default (2 ^ 30)) 8).2 = Outcome.ret
      { tp_block_size := 2097152, tp_block_nr := 64, tp_frame_size := 2048,
        tp_frame_nr := 65536, tp_retire_blk_tov := 100, tp_sizeof_priv := 0,
        tp_feature_req_word := 1 } ∧
    (2097152 : Nat) * 64 ≤ (ring_limits_default (2 ^ 30)).af_ring_limit ∧
    (65536 : Nat) = 2097152 * 64 / 2048 :=
  ⟨by decide,
   (C15_frame_count_exact (ring_limits_default (2 ^ 30)) 8
    { tp_block_size := 2097152, tp_block_nr := 64, tp_frame_size := 2048,
      tp_frame_nr := 65536, tp_retire_blk_tov := 100, tp_sizeof_priv := 0,
      tp_feature_req_word := 1 } (by decide)).1,
   by decide⟩

/-- With a 32-bit ring limit the ring size is the smaller of the per-thread
share and the limit. -/
theorem thread_ring_size_eq_min (rlp : ring_limits) (n : Nat) (hn : n ≠ 0)
    (hlim : rlp.af_ring_limit < U32) :
    thread_ring_size rlp n = Outcome.ret (min (rlp.af_desired_memory / n) rlp.af_ring_limit) := by
  unfold thread_ring_size
  rw [if_neg hn]
  by_cases h : rlp.af_desired_memory / n > rlp.af_ring_limit
  · rw [if_pos h, Nat.mod_eq_of_lt hlim, Nat.min_eq_right (by omega)]
  · rw [if_neg h, Nat.mod_eq_of_lt (by omega), Nat.min_eq_left (by omega)]

/-- The loop of the code and the loop of the specification agree. -/
theorem halve_blocksize_loop_spec (rlp : ring_limits) (size : Nat) :
    ∀ (fuel bs : Nat),
      (halve_blocksize_loop rlp size fuel bs).returned
        = spec_halve_loop rlp.af_min_blocksize rlp.af_target_blocks size fuel bs := by
  intro fuel
  induction fuel with
  | zero => intro bs; rfl
  | succ n ih =>
    intro bs
    simp only [halve_blocksize_loop, spec_halve_loop]
    by_cases h1 : bs / 2 ≥ rlp.af_min_blocksize
    · have h1s : bs ≥ 2 * rlp.af_min_blocksize := by omega
      by_cases h2 : bs = 0
      · simp only [if_pos h1, if_pos h1s, if_pos h2]; rfl
      · by_cases h3 : size / bs < rlp.af_target_blocks
        · simp only [if_pos h1, if_pos h1s, if_neg h2, if_pos h3]
          exact ih (bs / 2)
        · simp only [if_pos h1, if_pos h1s, if_neg h2, if_neg h3]; rfl
    · have h1s : ¬ bs ≥ 2 * rlp.af_min_blocksize := by omega
      simp only [if_neg h1, if_neg h1s]; rfl

/-- C14: for every constants table whose ring limit and initial block size
are 32-bit values, every budget and every worker count, the block size and
block count the code chooses are those of the algorithm of section 4.1 of
the specification, and the code fails exactly when that algorithm fails or
has no value. -/
theorem C14_code_refines_spec (rlp : ring_limits) (num_threads : Nat)
    (hlim : rlp.af_ring_limit < U32) (hbs : rlp.af_blocksize < U32) :
    (thread_ring_req rlp num_threads).2.returned.map
        (fun req => (req.tp_block_size, req.tp_block_nr))
      = spec_ring_sizer rlp num_threads := by
  by_cases hn : num_threads = 0
  · subst hn
    simp [thread_ring_req, thread_ring_size, spec_ring_sizer, Outcome.returned]
  · have hs := thread_ring_size_eq_min rlp num_threads hn hlim
    have hsz : min (rlp.af_desired_memory / num_threads) rlp.af_ring_limit < U32 :=
      Nat.lt_of_le_of_lt (Nat.min_le_right _ _) hlim
    have hloop := halve_blocksize_loop_spec rlp
      (min (rlp.af_desired_memory / num_threads) rlp.af_ring_limit)
      (rlp.af_blocksize + 1) rlp.af_blocksize
    unfold thread_ring_req spec_ring_sizer
    rw [if_neg hn]
    simp only [hs, halve_blocksize, Nat.mod_eq_of_lt hbs]
    rw [← hloop]
    cases hb : halve_blocksize_loop rlp
        (min (rlp.af_desired_memory / num_threads) rlp.af_ring_limit)
        (rlp.af_blocksize + 1) rlp.af_blocksize with
    | exit c => rfl
    | div_by_zero => rfl
    | ret bs =>
      have hmod : min (rlp.af_desired_memory / num_threads) rlp.af_ring_limit / bs % U32
          = min (rlp.af_desired_memory / num_threads) rlp.af_ring_limit / bs :=
        Nat.mod_eq_of_lt (Nat.lt_of_le_of_lt (Nat.div_le_self _ _) hsz)
      simp only [Outcome.returned, ring_request, hmod]
      by_cases h0 : bs = 0
      · simp [h0, Outcome.returned]
      · by_cases h1 : min (rlp.af_desired_memory / num_threads) rlp.af_ring_limit / bs
            < rlp.af_min_blocks
        · simp [h0, h1, Outcome.returned]
        · by_cases h2 : rlp.af_framesize = 0
          · simp [h0, h1, h2, Outcome.returned]
          · by_cases h3 : bs % rlp.af_framesize = 0
            · simp [h0, h1, h2, h3, Outcome.returned]
            · simp [h0, h1, h2, h3, Outcome.returned]

/-- C14 at its witness: a budget of 1 GiB and 8 workers with the default
constants give, by the code and by the specification, 64 blocks of 2 MiB. -/
theorem C14_code_refines_spec_witness :
    ((ring_limits_default (2 ^ 30)).af_ring_limit < U32 ∧
      (ring_limits_default (2 ^ 30)).af_blocksize < U32) ∧
    (thread_ring_req (ring_limits_default (2 ^ 30)) 8).2.returned.map
        (fun req => (req.tp_block_size, req.tp_block_nr))
      = spec_ring_sizer (ring_limits_default (2 ^ 30)) 8 ∧
    spec_ring_sizer (ring_limits_default (2 ^ 30)) 8 = some (2097152, 64) :=
  ⟨⟨by decide, by decide⟩,
   C14_code_refines_spec (ring_limits_default (2 ^ 30)) 8 (by decide) (by decide),
   by decide⟩

/-- With the default constants and at least one worker, the loop returns a
power of two between 64 KiB and 4 MiB. -/
theorem halve_blocksize_default (mem num_threads : Nat) (hn : 1 ≤ num_threads) :
    ∃ size k, thread_ring_size (ring_limits_default mem) num_threads = Outcome.ret size ∧
      16 ≤ k ∧ k ≤ 22 ∧
      halve_blocksize (ring_limits_default mem) size
        ((ring_limits_default mem).af_blocksize % U32) = Outcome.ret (2 ^ k) := by
  have hs := thread_ring_size_eq_min (ring_limits_default mem) num_threads (by omega)
    (show (0xffffffff : Nat) < U32 by decide)
  have hmin : (ring_limits_default mem).af_min_blocksize = 2 ^ 16 := rfl
  have hbs : (ring_limits_default mem).af_blocksize % U32
      = (ring_limits_default mem).af_min_blocksize * 2 ^ 6 :=
    show 4 * 2 ^ 20 % U32 = 64 * 2 ^ 10 * 2 ^ 6 by decide
  obtain ⟨j, hj, hr⟩ := halve_blocksize_loop_pow (ring_limits_default mem)
    (min ((ring_limits_default mem).af_desired_memory / num_threads)
      (ring_limits_default mem).af_ring_limit)
    (by rw [hmin]; decide)
    ((ring_limits_default mem).af_min_blocksize * 2 ^ 6 + 1) 6
  refine ⟨_, 16 + j, hs, by omega, by omega, ?_⟩
  unfold halve_blocksize
  rw [hbs, hr, hmin, ← Nat.pow_add]

/-- The "not a multiple" error is written only for a block size that is not
a multiple of the frame size. -/
theorem ring_request_not_multiple (rlp : ring_limits) (n size bs b f : Nat)
    (h : ring_msg.error_blocksize_not_multiple b f ∈ (ring_request rlp n size bs).1) :
    bs % rlp.af_framesize ≠ 0 := by
  unfold ring_request at h
  by_cases h0 : bs = 0
  · simp [h0] at h
  · by_cases h1 : size / bs % U32 < rlp.af_min_blocks
    · simp [h0, h1] at h
    · by_cases h2 : rlp.af_framesize = 0
      · simp [h0, h1, h2] at h
      · by_cases h3 : bs % rlp.af_framesize = 0
        · simp only [h0, h1, h2, h3, if_false, ne_eq, not_true_eq_false] at h
          split at h <;> simp at h
        · exact h3

/-- The "not a multiple" error comes from the last step of the sizing. -/
theorem thread_ring_req_not_multiple (rlp : ring_limits) (n b f : Nat)
    (h : ring_msg.error_blocksize_not_multiple b f ∈ (thread_ring_req rlp n).1) :
    ∃ size bs, thread_ring_size rlp n = Outcome.ret size ∧
      halve_blocksize rlp size (rlp.af_blocksize % U32) = Outcome.ret bs ∧
      bs % rlp.af_framesize ≠ 0 := by
  unfold thread_ring_req at h
  cases hs : thread_ring_size rlp n with
  | exit c => simp [hs] at h
  | div_by_zero => simp [hs] at h
  | ret size =>
    cases hb : halve_blocksize rlp size (rlp.af_blocksize % U32) with
    | exit c =>
      simp only [hs, hb] at h
      split at h <;> simp at h
    | div_by_zero =>
      simp only [hs, hb] at h
      split at h <;> simp at h
    | ret bs =>
      simp only [hs, hb, List.mem_append] at h
      refine ⟨size, bs, rfl, hb, ?_⟩
      cases h with
      | inl hl => split at hl <;> simp at hl
      | inr hr => exact ring_request_not_multiple rlp n size bs b f hr

/-- C16: with the constants `ring_limits_init` sets, for every budget and
every worker count of at least 1, the block size the halving loop leaves is
a power of two between 64 KiB and 4 MiB and a multiple of the frame size,
and the ring sizing never writes the "blocksize is not a multiple of the
framesize" error. -/
theorem C16_default_blocksize (mem num_threads : Nat) (hn : 1 ≤ num_threads) :
    ∃ size bs k, thread_ring_size (ring_limits_default mem) num_threads = Outcome.ret size ∧
      halve_blocksize (ring_limits_default mem) size
        ((ring_limits_default mem).af_blocksize % U32) = Outcome.ret bs ∧
      bs = 2 ^ k ∧ 64 * 2 ^ 10 ≤ bs ∧ bs ≤ 4 * 2 ^ 20 ∧
      bs % (ring_limits_default mem).af_framesize = 0 ∧
      ∀ b f, ring_msg.error_blocksize_not_multiple b f
        ∉ (thread_ring_req (ring_limits_default mem) num_threads).1 := by
  obtain ⟨size, k, hs, hk1, hk2, hb⟩ := halve_blocksize_default mem num_threads hn
  have hfs : (ring_limits_default mem).af_framesize = 2 ^ 11 := rfl
  have hmul : 2 ^ k % (ring_limits_default mem).af_framesize = 0 := by
    rw [hfs]
    obtain ⟨d, rfl⟩ : ∃ d, k = 11 + d := ⟨k - 11, by omega⟩
    rw [Nat.pow_add, Nat.mul_mod_right]
  have hlo : 64 * 2 ^ 10 ≤ 2 ^ k := by
    have : 2 ^ 16 ≤ 2 ^ k := Nat.pow_le_pow_right (by decide) hk1
    omega
  have hhi : 2 ^ k ≤ 4 * 2 ^ 20 := by
    have : 2 ^ k ≤ 2 ^ 22 := Nat.pow_le_pow_right (by decide) hk2
    omega
  refine ⟨size, 2 ^ k, k, hs, hb, rfl, hlo, hhi, hmul, ?_⟩
  intro b f hmem
  obtain ⟨size2, bs2, hs2, hb2, hne⟩ :=
    thread_ring_req_not_multiple (ring_limits_default mem) num_threads b f hmem
  rw [hs] at hs2
  injection hs2 with hs2
  subst hs2
  rw [hb] at hb2
  injection hb2 with hb2
  subst hb2
  exact hne hmul

/-- C16 at a budget of 1 GiB and 8 workers. -/
theorem C16_default_blocksize_witness :
    (1 ≤ 8) ∧
    ∃ size bs k, thread_ring_size (ring_limits_default (2 ^ 30)) 8 = Outcome.ret size ∧
      halve_blocksize (ring_limits_default (2 ^ 30)) size
        ((ring_limits_default (2 ^ 30)).af_blocksize % U32) = Outcome.ret bs ∧
      bs = 2 ^ k ∧ 64 * 2 ^ 10 ≤ bs ∧ bs ≤ 4 * 2 ^ 20 ∧
      bs % (ring_limits_default (2 ^ 30)).af_framesize = 0 ∧
      ∀ b f, ring_msg.error_blocksize_not_multiple b f
        ∉ (thread_ring_req (ring_limits_default (2 ^ 30)) 8).1 :=
  ⟨by decide, C16_default_blocksize (2 ^ 30) 8 (by decide)⟩

/-- The octets of a byte-reversed value are the octets of the value in
reverse order. -/
theorem u32_bytes_ntohl (x : Nat) : u32_bytes (ntohl x) = (u32_bytes x).reverse := by
  have e : ntohl x = x / 16777216 % 256 + 256 * (x / 65536 % 256) + 65536 * (x / 256 % 256)
      + 16777216 * (x % 256) := by
    unfold ntohl; omega
  obtain ⟨e0, e1, e2, e3⟩ := octets_of_sum (x / 16777216 % 256) (x / 65536 % 256)
    (x / 256 % 256) (x % 256) (Nat.mod_lt _ (by decide)) (Nat.mod_lt _ (by decide))
    (Nat.mod_lt _ (by decide)) (Nat.mod_lt _ (by decide))
  rw [← e] at e0 e1 e2 e3
  simp only [u32_bytes, byte, List.reverse_cons, List.reverse_nil, List.nil_append,
    List.cons_append, e0, e1, e2, e3, Nat.mod_mod]

/-- The byte-reversed header is the header of the byte-reversed values. -/
theorem packet_hdr_bytes_reversed_eq (a b c d : Nat) :
    packet_hdr_bytes_reversed a b c d
      = packet_hdr_bytes (ntohl a) (ntohl b) (ntohl c) (ntohl d) := by
  unfold packet_hdr_bytes_reversed packet_hdr_bytes
  rw [u32_bytes_ntohl, u32_bytes_ntohl, u32_bytes_ntohl, u32_bytes_ntohl]

/-- Lines 287-289: without byte swap the fields come out as stored. -/
theorem pkthdr_from_native (a b c d : Nat) (pkthdr : pcap_pkthdr)
    (ha : a < U32) (hb : b < U32) (hc : c < U32) :
    pkthdr_from_packet_hdr 0 (packet_hdr_bytes a b c d) pkthdr =
      { ts := { tv_sec := (a : Int), tv_usec := (b : Int) }, caplen := c, len := pkthdr.len } := by
  obtain ⟨e1, e2, e3⟩ := packet_hdr_fields a b c d
  simp only [pkthdr_from_packet_hdr, ne_eq, not_true_eq_false, if_false, e1, e2, e3,
    Nat.mod_eq_of_lt ha, Nat.mod_eq_of_lt hb, Nat.mod_eq_of_lt hc]

/-- Lines 283-285: with byte swap the fields of a byte-reversed header come
out as the values that were stored reversed. -/
theorem pkthdr_from_reversed (byteswap a b c d : Nat) (pkthdr : pcap_pkthdr)
    (hsw : byteswap ≠ 0) (ha : a < U32) (hb : b < U32) (hc : c < U32) :
    pkthdr_from_packet_hdr byteswap (packet_hdr_bytes_reversed a b c d) pkthdr =
      { ts := { tv_sec := (a : Int), tv_usec := (b : Int) }, caplen := c, len := pkthdr.len } := by
  obtain ⟨e1, e2, e3⟩ := packet_hdr_fields (ntohl a) (ntohl b) (ntohl c) (ntohl d)
  rw [packet_hdr_bytes_reversed_eq]
  simp only [pkthdr_from_packet_hdr, if_pos hsw, e1, e2, e3, Nat.mod_eq_of_lt (ntohl_lt _),
    ntohl_ntohl _ ha, ntohl_ntohl _ hb, ntohl_ntohl _ hc]

/-- What `fread` returns and transfers depends only on the octets from the
file position on. -/
theorem fread_congr (fp1 fp2 : FILE) (size : Nat)
    (h : fp1.data.drop fp1.pos = fp2.data.drop fp2.pos) :
    (fread fp1 size).1 = (fread fp2 size).1 ∧ (fread fp1 size).2.1 = (fread fp2 size).2.1 := by
  unfold fread
  rw [h]
  split
  · exact ⟨rfl, rfl⟩
  · split <;> exact ⟨rfl, rfl⟩

/-- After a complete record header, the status, the packet header and the
buffer that `pcap_file_read_packet` returns are determined by the decoded
header and the octets that follow. -/
theorem read_packet_after_header (f1 f2 : pcap_file) (fp1 fp2 : FILE)
    (hdr1 hdr2 body : List Byte) (pkthdr : pcap_pkthdr) (packet_data : List Byte)
    (h1 : f1.file_ptr = some fp1) (h2 : f2.file_ptr = some fp2)
    (hl1 : hdr1.length = 16) (hl2 : hdr2.length = 16)
    (hd1 : fp1.data.drop fp1.pos = hdr1 ++ body)
    (hd2 : fp2.data.drop fp2.pos = hdr2 ++ body)
    (hph : pkthdr_from_packet_hdr f1.byteswap hdr1 pkthdr
      = pkthdr_from_packet_hdr f2.byteswap hdr2 pkthdr) :
    (pcap_file_read_packet f1 pkthdr packet_data).1
      = (pcap_file_read_packet f2 pkthdr packet_data).1 ∧
    (pcap_file_read_packet f1 pkthdr packet_data).2.2.1
      = (pcap_file_read_packet f2 pkthdr packet_data).2.2.1 ∧
    (pcap_file_read_packet f1 pkthdr packet_data).2.2.2
      = (pcap_file_read_packet f2 pkthdr packet_data).2.2.2 := by
  obtain ⟨r1, d1⟩ := fread_chunk fp1 hdr1 body hd1 (by rw [hl1]; decide)
  obtain ⟨r2, d2⟩ := fread_chunk fp2 hdr2 body hd2 (by rw [hl2]; decide)
  rw [hl1] at r1 d1
  rw [hl2] at r2 d2
  have hc : ∀ n, (fread { fp1 with pos := fp1.pos + 16 } n).1
        = (fread { fp2 with pos := fp2.pos + 16 } n).1 ∧
      (fread { fp1 with pos := fp1.pos + 16 } n).2.1
        = (fread { fp2 with pos := fp2.pos + 16 } n).2.1 :=
    fun n => fread_congr _ _ n (by rw [d1, d2])
  unfold pcap_file_read_packet
  simp only [h1, h2, sizeof_pcap_packet_hdr, r1, r2, Nat.one_ne_zero, if_false, hph]
  generalize pkthdr_from_packet_hdr f2.byteswap hdr2 pkthdr = ph
  rw [(hc ph.caplen).1, (hc ph.caplen).2, (hc BUFLEN).1, (hc BUFLEN).2]
  split_ifs <;> exact ⟨rfl, rfl, rfl⟩

/-- The byte-reversed header takes 16 octets. -/
theorem packet_hdr_bytes_reversed_length (a b c d : Nat) :
    (packet_hdr_bytes_reversed a b c d).length = 16 := rfl

/-- C12, amended: for every record header with 32-bit fields, `pcap_file_read_packet`
with `byteswap = 1` on the encoding in which every 32-bit field is stored
byte-reversed returns the same status, the same `ts_sec`, `ts_usec`,
`caplen` and `len`, and the same buffer as with `byteswap = 0` on the
native-order encoding of the same header, followed by the same octets; both
decode the header to the stored `ts_sec`, `ts_usec` and `incl_len`
(lines 282-290), and with `byteswap = 0` the call returns `ts_sec` and
`ts_usec` as stored, and `caplen` as stored when it is at most `BUFLEN`. -/
theorem C12_byteswap_equivalence (fs fn : pcap_file) (fps fpn : FILE)
    (ts_sec ts_usec incl_len orig_len : Nat) (body : List Byte)
    (pkthdr : pcap_pkthdr) (packet_data : List Byte)
    (hsec : ts_sec < U32) (husec : ts_usec < U32) (hincl : incl_len < U32)
    (hswap : fs.byteswap = 1) (hnative : fn.byteswap = 0)
    (hfs : fs.file_ptr = some fps) (hfn : fn.file_ptr = some fpn)
    (hds : fps.data.drop fps.pos
      = packet_hdr_bytes_reversed ts_sec ts_usec incl_len orig_len ++ body)
    (hdn : fpn.data.drop fpn.pos = packet_hdr_bytes ts_sec ts_usec incl_len orig_len ++ body) :
    (pcap_file_read_packet fs pkthdr packet_data).1
      = (pcap_file_read_packet fn pkthdr packet_data).1 ∧
    (pcap_file_read_packet fs pkthdr packet_data).2.2.1
      = (pcap_file_read_packet fn pkthdr packet_data).2.2.1 ∧
    (pcap_file_read_packet fs pkthdr packet_data).2.2.2
      = (pcap_file_read_packet fn pkthdr packet_data).2.2.2 ∧
    pkthdr_from_packet_hdr fs.byteswap
        (packet_hdr_bytes_reversed ts_sec ts_usec incl_len orig_len) pkthdr
      = { ts := { tv_sec := (ts_sec : Int), tv_usec := (ts_usec : Int) }
          caplen := incl_len, len := pkthdr.len } ∧
    pkthdr_from_packet_hdr fn.byteswap
        (packet_hdr_bytes ts_sec ts_usec incl_len orig_len) pkthdr
      = { ts := { tv_sec := (ts_sec : Int), tv_usec := (ts_usec : Int) }
          caplen := incl_len, len := pkthdr.len } ∧
    (pcap_file_read_packet fn pkthdr packet_data).2.2.1.ts
      = { tv_sec := (ts_sec : Int), tv_usec := (ts_usec : Int) } ∧
    (incl_len ≤ BUFLEN →
      (pcap_file_read_packet fn pkthdr packet_data).2.2.1.caplen = incl_len) := by
  have es := pkthdr_from_reversed fs.byteswap ts_sec ts_usec incl_len orig_len pkthdr
    (by rw [hswap]; decide) hsec husec hincl
  have en : pkthdr_from_packet_hdr fn.byteswap
      (packet_hdr_bytes ts_sec ts_usec incl_len orig_len) pkthdr
      = { ts := { tv_sec := (ts_sec : Int), tv_usec := (ts_usec : Int) }
          caplen := incl_len, len := pkthdr.len } := by
    rw [hnative]
    exact pkthdr_from_native ts_sec ts_usec incl_len orig_len pkthdr hsec husec hincl
  obtain ⟨q1, q2, q3⟩ := read_packet_after_header fs fn fps fpn _ _ body pkthdr packet_data
    hfs hfn (packet_hdr_bytes_reversed_length _ _ _ _) (packet_hdr_bytes_length _ _ _ _)
    hds hdn (by rw [es, en])
  obtain ⟨r1, -⟩ := fread_chunk fpn _ body hdn (by rw [packet_hdr_bytes_length]; decide)
  rw [packet_hdr_bytes_length] at r1
  refine ⟨q1, q2, q3, es, en, ?_, ?_⟩
  · unfold pcap_file_read_packet
    simp only [hfn, sizeof_pcap_packet_hdr, r1, Nat.one_ne_zero, if_false, en]
    split_ifs <;> rfl
  · intro hle
    unfold pcap_file_read_packet
    simp only [hfn, sizeof_pcap_packet_hdr, r1, Nat.one_ne_zero, if_false, en, if_pos hle]
    split_ifs <;> rfl

/-- C12, amended, on a record of one octet with `ts_sec = 1` and
`ts_usec = 1000`. -/
theorem C12_byteswap_equivalence_witness :
    ((1 : Nat) < U32 ∧ (1000 : Nat) < U32 ∧ swapped_reader.byteswap = 1 ∧
      native_reader.byteswap = 0) ∧
    (pcap_file_read_packet swapped_reader blank_pkthdr []).1
      = (pcap_file_read_packet native_reader blank_pkthdr []).1 ∧
    (pcap_file_read_packet swapped_reader blank_pkthdr []).2.2.1
      = (pcap_file_read_packet native_reader blank_pkthdr []).2.2.1 ∧
    (pcap_file_read_packet native_reader blank_pkthdr []).2.2.1
      = { ts := { tv_sec := 1, tv_usec := 1000 }, caplen := 1, len := 0 } := by
  have h := C12_byteswap_equivalence swapped_reader native_reader
    { data := packet_hdr_bytes_reversed 1 1000 1 1 ++ [byte 9], pos := 0 }
    { data := packet_hdr_bytes 1 1000 1 1 ++ [byte 9], pos := 0 }
    1 1000 1 1 [byte 9] blank_pkthdr [] (by decide) (by decide) (by decide) rfl rfl rfl rfl
    rfl rfl
  exact ⟨⟨by decide, by decide, rfl, rfl⟩, h.1, h.2.1, by decide⟩

/-- Reading more octets than are left. -/
theorem fread_short (fp : FILE) (size : Nat) (h : (fp.data.drop fp.pos).length < size) :
    fread fp size =
      (0, fp.data.drop fp.pos, { fp with pos := fp.pos + (fp.data.drop fp.pos).length }) := by
  unfold fread
  rw [if_neg (by omega), if_neg (by omega)]

/-- Reading where fewer than 16 octets are left: no more data. -/
theorem read_packet_short_header (f : pcap_file) (fp : FILE)
    (pkthdr : pcap_pkthdr) (packet_data : List Byte)
    (hfp : f.file_ptr = some fp) (hshort : (fp.data.drop fp.pos).length < 16) :
    pcap_file_read_packet f pkthdr packet_data =
      (status.status_err_no_more_data,
       { f with file_ptr := some { fp with pos := fp.pos + (fp.data.drop fp.pos).length } },
       pkthdr, packet_data) := by
  unfold pcap_file_read_packet
  simp only [hfp, sizeof_pcap_packet_hdr, fread_short fp 16 hshort, if_true]

/-- Reading a record whose header is complete and whose captured octets stop
before the first `min(caplen, BUFLEN)` of them: an error, and the position
is left at the end of what was there. -/
theorem read_packet_short_payload (f : pcap_file) (fp : FILE) (hdr part : List Byte)
    (pkthdr : pcap_pkthdr) (packet_data : List Byte)
    (hfp : f.file_ptr = some fp) (hlen : hdr.length = 16)
    (hdrop : fp.data.drop fp.pos = hdr ++ part)
    (hshort : part.length < min (pkthdr_from_packet_hdr f.byteswap hdr pkthdr).caplen BUFLEN) :
    (pcap_file_read_packet f pkthdr packet_data).1 = status.status_err ∧
    (pcap_file_read_packet f pkthdr packet_data).2.1 =
      { f with file_ptr := some { fp with pos := fp.pos + 16 + part.length } } := by
  obtain ⟨r1, d1⟩ := fread_chunk fp hdr part hdrop (by rw [hlen]; decide)
  rw [hlen] at r1 d1
  have hs1 : ∀ size, part.length < size →
      fread { fp with pos := fp.pos + 16 } size =
        (0, part, { fp with pos := fp.pos + 16 + part.length }) := by
    intro size hsz
    have := fread_short { fp with pos := fp.pos + 16 } size (by simp only [d1]; exact hsz)
    simpa only [d1] using this
  unfold pcap_file_read_packet
  simp only [hfp, sizeof_pcap_packet_hdr, r1, Nat.one_ne_zero, if_false]
  generalize pkthdr_from_packet_hdr f.byteswap hdr pkthdr = ph at hshort ⊢
  by_cases hc : ph.caplen ≤ BUFLEN
  · simp only [if_pos hc, hs1 ph.caplen (by omega), if_true, and_self]
  · simp only [if_neg hc, hs1 BUFLEN (by omega), if_true, and_self]

/-- One pass over the records that lie at the file position, followed by
octets at which `pcap_file_read_packet` stops with a status that is not
`status_ok`. -/
theorem read_pass_records_tail (tail : List Byte) (st : status) (byteswap : Nat)
    (hst : st ≠ status.status_ok)
    (htail : ∀ (f : pcap_file) (fp : FILE) (pkthdr : pcap_pkthdr) (packet_data : List Byte),
      f.file_ptr = some fp → f.byteswap = byteswap → fp.data.drop fp.pos = tail →
      (pcap_file_read_packet f pkthdr packet_data).1 = st ∧
      ∃ q, (pcap_file_read_packet f pkthdr packet_data).2.1
        = { f with file_ptr := some { fp with pos := q } }) :
    ∀ (recs : List pcap_record) (s : dispatch_state) (fp : FILE),
      s.f.file_ptr = some fp →
      s.f.byteswap = byteswap →
      fp.data.drop fp.pos = records_octets byteswap recs ++ tail →
      (∀ r ∈ recs, r.ts_sec < U32 ∧ r.ts_usec < U32 ∧ 1 ≤ r.payload.length ∧
        r.payload.length ≤ BUFLEN) →
      s.num_packets < U64 →
      (read_pass s).st = st ∧
      (∃ q, (read_pass s).f = { s.f with file_ptr := some { fp with pos := q } }) ∧
      (read_pass s).calls.map pcap_call.delivered
        = s.calls.map pcap_call.delivered ++ recs.map (fun r => (record_info r, r.payload)) ∧
      (read_pass s).num_packets = (s.num_packets + recs.length) % U64 := by
  intro recs
  induction recs with
  | nil =>
    intro s fp hfp hsw hdrop _ hnum
    obtain ⟨h1, q, h2⟩ := htail s.f fp s.pkthdr s.packet_data hfp hsw
      (by simpa [records_octets] using hdrop)
    rw [read_pass_eq]
    simp only [h1, if_neg hst, List.map_nil, List.append_nil, List.length_nil, Nat.add_zero,
      Nat.mod_eq_of_lt hnum, true_and, and_true]
    exact ⟨q, h2⟩
  | cons r rest ih =>
    intro s fp hfp hsw hdrop hall hnum
    obtain ⟨hsec, husec, hlen1, hlen2⟩ := hall r (List.mem_cons_self _ _)
    obtain ⟨hr, hd⟩ := read_packet_record s.f fp r (records_octets byteswap rest ++ tail)
      s.pkthdr s.packet_data hfp
      (by rw [hdrop, hsw]; simp [records_octets]) hsec husec hlen1 hlen2
    have hU : 0 < U64 := by decide
    rw [read_pass_eq, hr]
    simp only [if_true]
    obtain ⟨i1, ⟨q, i2⟩, i3, i4⟩ := ih
      { f := { s.f with file_ptr := some { fp with pos := fp.pos + 16 + r.payload.length } }
        st := status.status_ok
        pkthdr :=
          { ts := { tv_sec := (r.ts_sec : Int), tv_usec := (r.ts_usec : Int) }
            caplen := r.payload.length
            len := s.pkthdr.len }
        packet_data := store_bytes s.packet_data r.payload
        total_length := (s.total_length + (r.payload.length + sizeof_pcap_packet_hdr)) % U64
        num_packets := (s.num_packets + 1) % U64
        calls := s.calls ++
          [{ pi := packet_info_init_from_pkthdr
                { ts := { tv_sec := (r.ts_sec : Int), tv_usec := (r.ts_usec : Int) }
                  caplen := r.payload.length
                  len := s.pkthdr.len }
             packet_data := store_bytes s.packet_data r.payload }] }
      { fp with pos := fp.pos + 16 + r.payload.length } rfl hsw hd
      (fun x hx => hall x (List.mem_cons_of_mem _ hx)) (Nat.mod_lt _ hU)
    refine ⟨i1, ⟨q, ?_⟩, ?_, ?_⟩
    · rw [i2]
    · rw [i3]
      simp only [List.map_append, List.map_cons, List.map_nil, List.append_assoc,
        List.singleton_append, pcap_call.delivered, packet_info_init_from_pkthdr,
        wrap_int64_usec _ husec, record_info, store_bytes, List.take_left]
    · rw [i4]
      simp only [List.length_cons, Nat.mod_add_mod]
      congr 1
      omega

/-- The passes of the `for` loop over a file whose records start right after
the 24 octets of the file header and are followed by octets at which
`pcap_file_read_packet` stops with a status that is not `status_ok`. -/
theorem pass_loop_records_tail (tail : List Byte) (st : status) (byteswap : Nat)
    (hst : st ≠ status.status_ok)
    (htail : ∀ (f : pcap_file) (fp : FILE) (pkthdr : pcap_pkthdr) (packet_data : List Byte),
      f.file_ptr = some fp → f.byteswap = byteswap → fp.data.drop fp.pos = tail →
      (pcap_file_read_packet f pkthdr packet_data).1 = st ∧
      ∃ q, (pcap_file_read_packet f pkthdr packet_data).2.1
        = { f with file_ptr := some { fp with pos := q } })
    (recs : List pcap_record) (hdr : List Byte)
    (hhdr : hdr.length = 24) (loop_count : Int)
    (hall : ∀ r ∈ recs, r.ts_sec < U32 ∧ r.ts_usec < U32 ∧ 1 ≤ r.payload.length ∧
      r.payload.length ≤ BUFLEN) :
    ∀ (k : Nat) (i : Int) (s : dispatch_state) (fp : FILE),
      loop_count = i + k →
      s.f.file_ptr = some fp →
      s.f.byteswap = byteswap →
      fp.data = hdr ++ (records_octets byteswap recs ++ tail) →
      fp.pos = 24 →
      s.num_packets < U64 →
      (pass_loop loop_count k i s).calls.map pcap_call.delivered
        = s.calls.map pcap_call.delivered
          ++ (List.replicate k (recs.map (fun r => (record_info r, r.payload)))).flatten ∧
      (pass_loop loop_count k i s).num_packets = (s.num_packets + k * recs.length) % U64 ∧
      (0 < k → (pass_loop loop_count k i s).st = st) := by
  intro k
  induction k with
  | zero =>
    intro i s fp _ _ _ _ _ hnum
    simp [pass_loop, Nat.mod_eq_of_lt hnum]
  | succ k ih =>
    intro i s fp hlc hfp hsw hdata hpos hnum
    have hdrop : fp.data.drop fp.pos = records_octets byteswap recs ++ tail := by
      rw [hdata, hpos, ← hhdr, List.drop_left]
    obtain ⟨p1, ⟨q, p2⟩, p3, p4⟩ :=
      read_pass_records_tail tail st byteswap hst htail recs s fp hfp hsw hdrop hall hnum
    have hp : read_loop (octets_left s.f + 1) s = read_pass s := rfl
    have hU : 0 < U64 := by decide
    simp only [pass_loop, hp]
    by_cases hk : k = 0
    · subst hk
      have hcond : ¬ i < loop_count - 1 := by rw [hlc]; push_cast; omega
      simp only [if_neg hcond, pass_loop]
      refine ⟨?_, ?_, fun _ => p1⟩
      · rw [p3]; simp
      · rw [p4]; simp
    · have hcond : i < loop_count - 1 := by rw [hlc]; push_cast; omega
      simp only [if_pos hcond]
      have hrew : rewind (read_pass s).f
          = { s.f with file_ptr := some ({ fp with pos := 24 }) } := by
        rw [p2]
        simp [rewind, fseek_set, sizeof_pcap_file_hdr]
      obtain ⟨i1, i2, i3⟩ := ih (i + 1) { read_pass s with f := rewind (read_pass s).f }
        { fp with pos := 24 } (by rw [hlc]; push_cast; omega)
        (by rw [hrew]) (by rw [hrew]; exact hsw) (by exact hdata) rfl
        (by rw [p4]; exact Nat.mod_lt _ hU)
      refine ⟨?_, ?_, fun _ => i3 (by omega)⟩
      · rw [i1]
        simp only [p3, List.replicate_succ, List.flatten_cons, List.append_assoc]
      · rw [i2]
        simp only [p4, Nat.mod_add_mod]
        congr 1
        rw [Nat.succ_mul]
        omega

/-- Replaying a file whose records are followed by octets at which
`pcap_file_read_packet` stops: the status of the stop decides the returned
status, and the handler is invoked for the records only. -/
theorem dispatch_records_tail (tail : List Byte) (st : status)
    (hst : st ≠ status.status_ok)
    (f : pcap_file) (fp : FILE) (recs : List pcap_record)
    (hdr : List Byte) (n : Nat) (pkthdr : pcap_pkthdr) (packet_data : List Byte)
    (htail : ∀ (g : pcap_file) (gp : FILE) (pkthdr : pcap_pkthdr) (packet_data : List Byte),
      g.file_ptr = some gp → g.byteswap = f.byteswap → gp.data.drop gp.pos = tail →
      (pcap_file_read_packet g pkthdr packet_data).1 = st ∧
      ∃ q, (pcap_file_read_packet g pkthdr packet_data).2.1
        = { g with file_ptr := some { gp with pos := q } })
    (hfp : f.file_ptr = some fp)
    (hdata : fp.data = hdr ++ (records_octets f.byteswap recs ++ tail))
    (hhdr : hdr.length = 24) (hpos : fp.pos = 24)
    (hall : ∀ r ∈ recs, r.ts_sec < U32 ∧ r.ts_usec < U32 ∧ 1 ≤ r.payload.length ∧
      r.payload.length ≤ BUFLEN)
    (hn : 1 ≤ n) :
    (pcap_file_dispatch_frame_handler f (n : Int) pkthdr packet_data).1
      = (if st = status.status_err_no_more_data then status.status_ok else st) ∧
    (pcap_file_dispatch_frame_handler f (n : Int) pkthdr packet_data).2.2.map pcap_call.delivered
      = (List.replicate n (recs.map (fun r => (record_info r, r.payload)))).flatten := by
  obtain ⟨h1, -, h3⟩ := pass_loop_records_tail tail st f.byteswap hst htail recs hdr hhdr
    (n : Int) hall n 0
    { f := f, st := status.status_ok, pkthdr := pkthdr, packet_data := packet_data,
      total_length := sizeof_pcap_file_hdr, num_packets := 0, calls := [] }
    fp (by simp) hfp rfl hdata hpos (show 0 < U64 by decide)
  simp only [List.map_nil, List.nil_append] at h1
  have hs := h3 (by omega)
  constructor
  · simp only [pcap_file_dispatch_frame_handler, Int.toNat_ofNat, hs]
  · simpa [pcap_file_dispatch_frame_handler] using h1

/-- A record in a file is a 16-octet header, which decodes to the record's
timestamp and number of captured octets, followed by the captured octets. -/
theorem record_header_decode (byteswap : Nat) (r : pcap_record) (pkthdr : pcap_pkthdr)
    (hsec : r.ts_sec < U32) (husec : r.ts_usec < U32) (hlen : r.payload.length < U32) :
    ∃ hdr : List Byte, hdr.length = 16 ∧ record_octets byteswap r = hdr ++ r.payload ∧
      pkthdr_from_packet_hdr byteswap hdr pkthdr =
        { ts := { tv_sec := (r.ts_sec : Int), tv_usec := (r.ts_usec : Int) }
          caplen := r.payload.length, len := pkthdr.len } := by
  by_cases hsw : byteswap ≠ 0
  · refine ⟨packet_hdr_bytes (ntohl r.ts_sec) (ntohl r.ts_usec) (ntohl r.payload.length)
      (ntohl r.orig_len), rfl, by rw [record_octets, if_pos hsw], ?_⟩
    rw [← packet_hdr_bytes_reversed_eq]
    exact pkthdr_from_reversed byteswap _ _ _ _ pkthdr hsw hsec husec hlen
  · have h0 : byteswap = 0 := by omega
    subst h0
    refine ⟨packet_hdr_bytes r.ts_sec r.ts_usec r.payload.length r.orig_len, rfl,
      by rw [record_octets, if_neg hsw], ?_⟩
    exact pkthdr_from_native _ _ _ _ pkthdr hsec husec hlen

/-! ## Theorems: socket statistics and the start of a drainer -/

/-- The block walk writes only to blocks that have the USER bit set, writes
only the status, and leaves no indexed block it has visited with the USER
bit set. -/
theorem reset_blocks_spec (thread_stor : thread_storage) :
    ∀ (count b : Nat) (mem : ring_memory),
      (∀ a, (mem.block a).block_status &&& TP_STATUS_USER = 0 →
        (reset_blocks thread_stor count b mem).1.block a = mem.block a) ∧
      (∀ a, (reset_blocks thread_stor count b mem).1.block a = mem.block a ∨
        (reset_blocks thread_stor count b mem).1.block a
          = { mem.block a with block_status := TP_STATUS_KERNEL }) ∧
      (reset_blocks thread_stor count b mem).1.pkt = mem.pkt ∧
      (∀ i, b ≤ i → i < b + count →
        ((reset_blocks thread_stor count b mem).1.block
          (thread_stor.block_header i)).block_status &&& TP_STATUS_USER = 0) ∧
      (∀ e ∈ (reset_blocks thread_stor count b mem).2,
        ∃ a, e = drainer_event.set_block_status a TP_STATUS_KERNEL) := by
  intro count
  induction count with
  | zero =>
    intro b mem
    refine ⟨fun a _ => rfl, fun a => Or.inl rfl, rfl, ?_, ?_⟩
    · intro i h1 h2; omega
    · intro e he; simp [reset_blocks] at he
  | succ count ih =>
    intro b mem
    by_cases hu : (mem.block (thread_stor.block_header b)).block_status &&& TP_STATUS_USER = 0
    · have e : reset_blocks thread_stor (count + 1) b mem
          = reset_blocks thread_stor count (b + 1) mem := by
        simp [reset_blocks, hu]
      rw [e]
      obtain ⟨i1, i2, i3, i4, i5⟩ := ih (b + 1) mem
      refine ⟨i1, i2, i3, ?_, i5⟩
      intro i h1 h2
      by_cases hi : i = b
      · subst hi
        rw [i1 _ hu]; exact hu
      · exact i4 i (by omega) (by omega)
    · have e : reset_blocks thread_stor (count + 1) b mem
          = ((reset_blocks thread_stor count (b + 1)
              (set_block_status mem (thread_stor.block_header b) TP_STATUS_KERNEL)).1,
             drainer_event.set_block_status (thread_stor.block_header b) TP_STATUS_KERNEL
              :: (reset_blocks thread_stor count (b + 1)
              (set_block_status mem (thread_stor.block_header b) TP_STATUS_KERNEL)).2) := by
        simp [reset_blocks, hu]
      rw [e]
      obtain ⟨i1, i2, i3, i4, i5⟩ := ih (b + 1)
        (set_block_status mem (thread_stor.block_header b) TP_STATUS_KERNEL)
      have hk : ((set_block_status mem (thread_stor.block_header b) TP_STATUS_KERNEL).block
          (thread_stor.block_header b)).block_status &&& TP_STATUS_USER = 0 := by
        simp [set_block_status, TP_STATUS_KERNEL]
      refine ⟨?_, ?_, ?_, ?_, ?_⟩
      · intro a ha
        have hne : a ≠ thread_stor.block_header b := by
          intro h; rw [h] at ha; exact hu ha
        have hs := set_block_status_other mem (thread_stor.block_header b) TP_STATUS_KERNEL a hne
        show (reset_blocks thread_stor count (b + 1) _).1.block a = mem.block a
        rw [i1 a (by rw [hs]; exact ha), hs]
      · intro a
        show (reset_blocks thread_stor count (b + 1) _).1.block a = mem.block a ∨
          (reset_blocks thread_stor count (b + 1) _).1.block a = _
        by_cases hne : a = thread_stor.block_header b
        · right
          rcases i2 a with h | h
          · rw [h]; simp [set_block_status, hne]
          · rw [h]; simp [set_block_status, hne]
        · have hs := set_block_status_other mem (thread_stor.block_header b)
            TP_STATUS_KERNEL a hne
          rcases i2 a with h | h
          · left; rw [h, hs]
          · right; rw [h, hs]
      · show (reset_blocks thread_stor count (b + 1) _).1.pkt = mem.pkt
        rw [i3]; rfl
      · intro i h1 h2
        show ((reset_blocks thread_stor count (b + 1) _).1.block _).block_status
          &&& TP_STATUS_USER = 0
        by_cases hi : i = b
        · subst hi
          rw [i1 _ hk]; exact hk
        · exact i4 i (by omega) (by omega)
      · intro e he
        rcases List.mem_cons.mp he with h | h
        · exact ⟨_, h⟩
        · exact i5 e h

/-- C17: the lines between the barrier and the main loop set the status of
every indexed block that has the USER bit set to TP_STATUS_KERNEL, leave
every block that does not have it as it is, change no other field of the
ring, invoke the frame handler zero times and call
process_all_packets_in_block zero times, leave the shared counters as they
are (both statistics queries have a null target and write nothing), and
afterwards no indexed block has the USER bit set. -/
theorem C17_startup_returns_blocks (thread_stor : thread_storage)
    (query1 query2 : Int × tpacket_stats_v3) (mem : ring_memory) (statst : stats_tracking) :
    (∀ b, b < thread_stor.ring_params.tp_block_nr →
      (mem.block (thread_stor.block_header b)).block_status &&& TP_STATUS_USER ≠ 0 →
      ((drainer_startup thread_stor query1 query2 mem statst).1.block
        (thread_stor.block_header b)).block_status = TP_STATUS_KERNEL) ∧
    (∀ a, (mem.block a).block_status &&& TP_STATUS_USER = 0 →
      (drainer_startup thread_stor query1 query2 mem statst).1.block a = mem.block a) ∧
    (∀ a, ((drainer_startup thread_stor query1 query2 mem statst).1.block a).num_pkts
        = (mem.block a).num_pkts ∧
      ((drainer_startup thread_stor query1 query2 mem statst).1.block a).offset_to_first_pkt
        = (mem.block a).offset_to_first_pkt) ∧
    (drainer_startup thread_stor query1 query2 mem statst).1.pkt = mem.pkt ∧
    (∀ e ∈ (drainer_startup thread_stor query1 query2 mem statst).2.2,
      (∃ p, e = capture_event.stats_query p) ∨
      ∃ a, e = capture_event.drainer (drainer_event.set_block_status a TP_STATUS_KERNEL)) ∧
    (∀ call, capture_event.drainer (drainer_event.frame call)
      ∉ (drainer_startup thread_stor query1 query2 mem statst).2.2) ∧
    (∀ a, capture_event.drainer (drainer_event.process_block a)
      ∉ (drainer_startup thread_stor query1 query2 mem statst).2.2) ∧
    (drainer_startup thread_stor query1 query2 mem statst).2.1 = statst ∧
    (af_packet_stats query1.1 query1.2 none).2 = none ∧
    (af_packet_stats query2.1 query2.2 none).2 = none ∧
    (∀ b, b < thread_stor.ring_params.tp_block_nr →
      ((drainer_startup thread_stor query1 query2 mem statst).1.block
        (thread_stor.block_header b)).block_status &&& TP_STATUS_USER = 0) := by
  obtain ⟨i1, i2, i3, i4, i5⟩ :=
    reset_blocks_spec thread_stor thread_stor.ring_params.tp_block_nr 0 mem
  have hev : ∀ e ∈ (drainer_startup thread_stor query1 query2 mem statst).2.2,
      (∃ p, e = capture_event.stats_query p) ∨
      ∃ a, e = capture_event.drainer (drainer_event.set_block_status a TP_STATUS_KERNEL) := by
    intro e he
    simp only [drainer_startup, List.cons_append, List.mem_cons, List.mem_append,
      List.mem_map, List.mem_singleton, List.not_mem_nil, or_false] at he
    rcases he with h | ⟨d, hd, h⟩ | h
    · exact Or.inl ⟨_, h⟩
    · obtain ⟨a, ha⟩ := i5 d hd
      exact Or.inr ⟨a, by rw [← h, ha]⟩
    · exact Or.inl ⟨_, h⟩
  refine ⟨?_, i1, ?_, i3, hev, ?_, ?_, rfl, rfl, rfl, ?_⟩
  · intro b hb hu
    have h4 := i4 b (Nat.zero_le _) (by omega)
    show ((reset_blocks thread_stor thread_stor.ring_params.tp_block_nr 0 mem).1.block
      (thread_stor.block_header b)).block_status = TP_STATUS_KERNEL
    rcases i2 (thread_stor.block_header b) with h | h
    · rw [h] at h4; exact absurd h4 hu
    · rw [h]
  · intro a
    show ((reset_blocks thread_stor thread_stor.ring_params.tp_block_nr 0 mem).1.block a).num_pkts
        = _ ∧
      ((reset_blocks thread_stor thread_stor.ring_params.tp_block_nr 0 mem).1.block
        a).offset_to_first_pkt = _
    rcases i2 a with h | h
    · rw [h]; exact ⟨rfl, rfl⟩
    · rw [h]; exact ⟨rfl, rfl⟩
  · intro call hmem
    rcases hev _ hmem with ⟨p, h⟩ | ⟨a, h⟩
    · cases h
    · cases h
  · intro a hmem
    rcases hev _ hmem with ⟨p, h⟩ | ⟨a, h⟩
    · cases h
    · cases h
  · intro b hb
    exact i4 b (Nat.zero_le _) (by omega)

/-- C18, what the code does: a query that fails (getsockopt returns -1) with
the local tp3_stats holding 7 packets, 3 drops and 1 freeze is reported with
perror and the three values are still added to socket_packets, socket_drops
and socket_freezes. -/
theorem C18_failed_query_adds_counters :
    af_packet_stats (-1) { tp_packets := 7, tp_drops := 3, tp_freeze_q_cnt := 1 }
        (some stats_zero)
      = (true, some { stats_zero with
          socket_packets := 7, socket_drops := 3, socket_freezes := 1 }) := by
  decide

/-- C17 on a four-block ring all of whose blocks are owned by user space:
block 2 is returned to the kernel. -/
theorem C17_startup_returns_blocks_witness :
    (2 < sample_thread.ring_params.tp_block_nr ∧
      (full_ring.block (sample_thread.block_header 2)).block_status &&& TP_STATUS_USER ≠ 0) ∧
    ((drainer_startup sample_thread sample_capture_env.query1 sample_capture_env.query2
      full_ring stats_zero).1.block (sample_thread.block_header 2)).block_status
        = TP_STATUS_KERNEL :=
  ⟨⟨by decide, by decide⟩,
   (C17_startup_returns_blocks sample_thread sample_capture_env.query1
      sample_capture_env.query2 full_ring stats_zero).1 2 (by decide) (by decide)⟩

/-! ## Theorems: the start barrier -/

/-- The mutex state after two sequences of events. -/
theorem mutex_after_append (held : Bool) (xs ys : List capture_event) :
    mutex_after held (xs ++ ys) = mutex_after (mutex_after held xs) ys := by
  simp [mutex_after, List.foldl_append]

/-- The wait loop touches no block and no handler, and when it is left its
last event is a read of the start flag that gives 1, made with the mutex
held. -/
theorem barrier_wait_spec :
    ∀ waits : List (Int × Int),
      (∀ e ∈ (barrier_wait waits).1, e.touches_ring = false) ∧
      ((barrier_wait waits).2 = some (Outcome.ret ()) →
        ∃ pre, (barrier_wait waits).1 = pre ++ [capture_event.read_start_flag 1] ∧
          mutex_after true pre = true) := by
  intro waits
  induction waits with
  | nil =>
    refine ⟨?_, ?_⟩
    · intro e he; simp [barrier_wait] at he
    · intro h; simp [barrier_wait] at h
  | cons w rest ih =>
    obtain ⟨value, wait_err⟩ := w
    by_cases hv : value = 1
    · subst hv
      have e : barrier_wait ((1, wait_err) :: rest)
          = ([capture_event.read_start_flag 1], some (Outcome.ret ())) := by
        simp [barrier_wait]
      rw [e]
      refine ⟨?_, fun _ => ⟨[], rfl, rfl⟩⟩
      intro x hx
      rw [List.mem_singleton.mp hx]; rfl
    · by_cases hw : wait_err = 0
      · subst hw
        have e : barrier_wait ((value, 0) :: rest)
            = (capture_event.read_start_flag value :: capture_event.cond_wait 0
                :: (barrier_wait rest).1, (barrier_wait rest).2) := by
          simp [barrier_wait, hv]
        rw [e]
        refine ⟨?_, ?_⟩
        · intro x hx
          rcases List.mem_cons.mp hx with h | h
          · rw [h]; rfl
          · rcases List.mem_cons.mp h with h | h
            · rw [h]; rfl
            · exact ih.1 x h
        · intro h
          obtain ⟨pre, hpre, hm⟩ := ih.2 h
          refine ⟨capture_event.read_start_flag value :: capture_event.cond_wait 0 :: pre,
            ?_, ?_⟩
          · show _ :: _ :: (barrier_wait rest).1 = _
            rw [hpre]; rfl
          · exact hm
      · have e : barrier_wait ((value, wait_err) :: rest)
            = ([capture_event.read_start_flag value, capture_event.cond_wait wait_err],
                some (Outcome.exit 255)) := by
          simp [barrier_wait, hv, hw]
        rw [e]
        refine ⟨?_, ?_⟩
        · intro x hx
          rcases List.mem_cons.mp hx with h | h
          · rw [h]; rfl
          · rw [List.mem_singleton.mp h]; rfl
        · intro h; cases h

/-- The events of a run either touch no block and no handler, or split at a
read of the start flag that gives 1 and is made with the mutex held, with
nothing before it that touches a block or a handler. -/
theorem capture_events_split (thread_stor : thread_storage) (env : capture_env)
    (mem : ring_memory) (statst : stats_tracking) :
    (∀ e ∈ (af_packet_rx_ring_fanout_capture thread_stor env mem statst).1,
      e.touches_ring = false) ∨
    ∃ q post, (af_packet_rx_ring_fanout_capture thread_stor env mem statst).1
        = q ++ capture_event.read_start_flag 1 :: post ∧
      (∀ e ∈ q, e.touches_ring = false) ∧ mutex_after false q = true := by
  by_cases hl : env.lock_err = 0
  · obtain ⟨hw1, hw2⟩ := barrier_wait_spec env.waits
    have hclean : ∀ e ∈ capture_event.mutex_lock env.lock_err :: (barrier_wait env.waits).1,
        e.touches_ring = false := by
      intro e he
      rcases List.mem_cons.mp he with h | h
      · rw [h]; rfl
      · exact hw1 e h
    cases hb : (barrier_wait env.waits).2 with
    | none =>
      left
      simp only [af_packet_rx_ring_fanout_capture, hl, hb]
      simpa using hclean
    | some o =>
      cases o with
      | exit c =>
        left
        simp only [af_packet_rx_ring_fanout_capture, hl, hb]
        simpa using hclean
      | div_by_zero =>
        left
        simp only [af_packet_rx_ring_fanout_capture, hl, hb]
        simpa using hclean
      | ret u =>
        right
        obtain ⟨pre, hpre, hm⟩ := hw2 hb
        have hq : ∀ e ∈ capture_event.mutex_lock env.lock_err :: pre,
            e.touches_ring = false := by
          intro e he
          apply hclean
          rcases List.mem_cons.mp he with h | h
          · rw [h]; exact List.mem_cons_self _ _
          · apply List.mem_cons_of_mem
            rw [hpre]
            exact List.mem_append_left _ h
        have hmq : mutex_after false (capture_event.mutex_lock env.lock_err :: pre) = true := by
          have : mutex_after false (capture_event.mutex_lock env.lock_err :: pre)
              = mutex_after (decide (env.lock_err = 0)) pre := rfl
          rw [this, hl]
          exact hm
        by_cases hu : env.unlock_err = 0
        · refine ⟨capture_event.mutex_lock env.lock_err :: pre,
            capture_event.mutex_unlock env.unlock_err
              :: ((drainer_startup thread_stor env.query1 env.query2 mem statst).2.2
                ++ (main_loop thread_stor env.loop
                  { mem := (drainer_startup thread_stor env.query1 env.query2 mem statst).1,
                    statst := (drainer_startup thread_stor env.query1 env.query2 mem statst).2.1,
                    pstreak := 0, cb := 0 }).1), ?_, hq, hmq⟩
          simp [af_packet_rx_ring_fanout_capture, hl, hb, hu, hpre]
        · refine ⟨capture_event.mutex_lock env.lock_err :: pre,
            [capture_event.mutex_unlock env.unlock_err], ?_, hq, hmq⟩
          simp [af_packet_rx_ring_fanout_capture, hl, hb, hu, hpre]
  · left
    have e : (af_packet_rx_ring_fanout_capture thread_stor env mem statst).1
        = [capture_event.mutex_lock env.lock_err] := by
      simp [af_packet_rx_ring_fanout_capture, hl]
    rw [e]
    intro x hx
    rw [List.mem_singleton.mp hx]; rfl

/-- C20: in a run of af_packet_rx_ring_fanout_capture, every invocation of
the frame handler, every call of process_all_packets_in_block and every
store to a block status comes after a read of the start flag that gave 1 and
that was made while the thread held the start mutex. -/
theorem C20_no_ring_access_before_release (thread_stor : thread_storage) (env : capture_env)
    (mem : ring_memory) (statst : stats_tracking)
    (pre post : List capture_event) (e : capture_event)
    (hsplit : (af_packet_rx_ring_fanout_capture thread_stor env mem statst).1
      = pre ++ e :: post)
    (he : e.touches_ring = true) :
    ∃ p1 p2, pre = p1 ++ capture_event.read_start_flag 1 :: p2 ∧
      mutex_after false p1 = true := by
  rcases capture_events_split thread_stor env mem statst with h | ⟨q, post1, hq, hclean, hm⟩
  · have := h e (by rw [hsplit]; simp)
    rw [this] at he; cases he
  · rw [hsplit] at hq
    rcases List.append_eq_append_iff.mp hq with ⟨a, ha1, ha2⟩ | ⟨c, hc1, hc2⟩
    · cases a with
      | nil =>
        simp at ha2
        rw [ha2.1] at he; cases he
      | cons x a1 =>
        simp at ha2
        have := hclean e (by rw [ha1]; simp [ha2.1])
        rw [this] at he; cases he
    · cases c with
      | nil =>
        simp at hc2
        rw [← hc2.1] at he; cases he
      | cons x c1 =>
        simp at hc2
        exact ⟨q, c1, by rw [hc1, hc2.1], hm⟩

/-- C20 on a run that waits once, is released, returns four blocks to the
kernel and handles one block of two frames: the first store to a block
status comes after the read of the flag that gave 1. -/
theorem C20_no_ring_access_before_release_witness :
    ((af_packet_rx_ring_fanout_capture sample_thread sample_capture_env full_ring stats_zero).1
      = [capture_event.mutex_lock 0, capture_event.read_start_flag 0,
          capture_event.cond_wait 0, capture_event.read_start_flag 1,
          capture_event.mutex_unlock 0, capture_event.stats_query false]
        ++ capture_event.drainer (drainer_event.set_block_status 0 0)
        :: [capture_event.drainer (drainer_event.set_block_status 4194304 0),
          capture_event.drainer (drainer_event.set_block_status 8388608 0),
          capture_event.drainer (drainer_event.set_block_status 12582912 0),
          capture_event.stats_query false,
          capture_event.read_close_workers 0,
          capture_event.drainer (drainer_event.process_block 0),
          capture_event.drainer (drainer_event.frame
            { pi := { ts := { tv_sec := 5, tv_nsec := 6 }, caplen := 60, len := 60 },
              eth := 80 }),
          capture_event.drainer (drainer_event.frame
            { pi := { ts := { tv_sec := 7, tv_nsec := 8 }, caplen := 42, len := 42 },
              eth := 144 }),
          capture_event.drainer (drainer_event.set_block_status 0 0),
          capture_event.read_close_workers 1] ∧
      (capture_event.drainer (drainer_event.set_block_status 0 0)).touches_ring = true) ∧
    ∃ p1 p2, [capture_event.mutex_lock 0, capture_event.read_start_flag 0,
          capture_event.cond_wait 0, capture_event.read_start_flag 1,
          capture_event.mutex_unlock 0, capture_event.stats_query false]
        = p1 ++ capture_event.read_start_flag 1 :: p2 ∧
      mutex_after false p1 = true :=
  ⟨⟨by decide, by decide⟩,
   C20_no_ring_access_before_release sample_thread sample_capture_env full_ring stats_zero
    [capture_event.mutex_lock 0, capture_event.read_start_flag 0,
      capture_event.cond_wait 0, capture_event.read_start_flag 1,
      capture_event.mutex_unlock 0, capture_event.stats_query false]
    [capture_event.drainer (drainer_event.set_block_status 4194304 0),
      capture_event.drainer (drainer_event.set_block_status 8388608 0),
      capture_event.drainer (drainer_event.set_block_status 12582912 0),
      capture_event.stats_query false,
      capture_event.read_close_workers 0,
      capture_event.drainer (drainer_event.process_block 0),
      capture_event.drainer (drainer_event.frame
        { pi := { ts := { tv_sec := 5, tv_nsec := 6 }, caplen := 60, len := 60 },
          eth := 80 }),
      capture_event.drainer (drainer_event.frame
        { pi := { ts := { tv_sec := 7, tv_nsec := 8 }, caplen := 42, len := 42 },
          eth := 144 }),
      capture_event.drainer (drainer_event.set_block_status 0 0),
      capture_event.read_close_workers 1]
    (capture_event.drainer (drainer_event.set_block_status 0 0))
    (by decide) (by decide)⟩

/-! ## Theorems: records without captured octets -/

/-- Reading a record whose header gives no captured octets: the read of one
item of size 0 gives 0 items, so the call returns an error and leaves the
position right after the header. -/
theorem read_packet_zero_length (f : pcap_file) (fp : FILE) (hdr rest : List Byte)
    (pkthdr : pcap_pkthdr) (packet_data : List Byte)
    (hfp : f.file_ptr = some fp) (hlen : hdr.length = 16)
    (hdrop : fp.data.drop fp.pos = hdr ++ rest)
    (hzero : (pkthdr_from_packet_hdr f.byteswap hdr pkthdr).caplen = 0) :
    (pcap_file_read_packet f pkthdr packet_data).1 = status.status_err ∧
    (pcap_file_read_packet f pkthdr packet_data).2.1 =
      { f with file_ptr := some { fp with pos := fp.pos + 16 } } := by
  obtain ⟨r1, _⟩ := fread_chunk fp hdr rest hdrop (by rw [hlen]; decide)
  rw [hlen] at r1
  unfold pcap_file_read_packet
  simp only [hfp, sizeof_pcap_packet_hdr, r1, Nat.one_ne_zero, if_false]
  generalize pkthdr_from_packet_hdr f.byteswap hdr pkthdr = ph at hzero ⊢
  have hc : ph.caplen ≤ BUFLEN := by rw [hzero]; exact Nat.zero_le _
  have fz : ∀ gp : FILE, fread gp 0 = (0, [], gp) := fun gp => by simp [fread]
  simp only [if_pos hc]
  simp only [hzero, fz, if_true, and_self]

/-- C25: on a file that holds complete records of 1 to BUFLEN captured
octets, then a record whose incl_len is 0, then any octets,
pcap_file_read_packet positioned at the record with incl_len 0 returns
status_err, and pcap_file_dispatch_frame_handler invokes the handler, in
every pass, for the records before it only (not for it and not for anything
after it) and returns status_err. -/
theorem C25_zero_length_record (f : pcap_file) (fp : FILE) (recs : List pcap_record)
    (hdr : List Byte) (z : pcap_record) (rest : List Byte) (n : Nat) (pkthdr : pcap_pkthdr)
    (packet_data : List Byte)
    (hfp : f.file_ptr = some fp)
    (hdata : fp.data = hdr ++ (records_octets f.byteswap recs ++
      (record_octets f.byteswap z ++ rest)))
    (hhdr : hdr.length = 24) (hpos : fp.pos = 24)
    (hall : ∀ r ∈ recs, r.ts_sec < U32 ∧ r.ts_usec < U32 ∧ 1 ≤ r.payload.length ∧
      r.payload.length ≤ BUFLEN)
    (hsec : z.ts_sec < U32) (husec : z.ts_usec < U32) (hz : z.payload = [])
    (hn : 1 ≤ n) :
    (∀ (g : pcap_file) (gp : FILE) (ph : pcap_pkthdr) (pd : List Byte),
      g.file_ptr = some gp → g.byteswap = f.byteswap →
      gp.data.drop gp.pos = record_octets f.byteswap z ++ rest →
      (pcap_file_read_packet g ph pd).1 = status.status_err) ∧
    (pcap_file_dispatch_frame_handler f (n : Int) pkthdr packet_data).1 = status.status_err ∧
    (pcap_file_dispatch_frame_handler f (n : Int) pkthdr packet_data).2.2.map
        pcap_call.delivered
      = (List.replicate n (recs.map (fun r => (record_info r, r.payload)))).flatten := by
  have hzl : z.payload.length < U32 := by rw [hz]; decide
  have htail : ∀ (g : pcap_file) (gp : FILE) (ph : pcap_pkthdr) (pd : List Byte),
      g.file_ptr = some gp → g.byteswap = f.byteswap →
      gp.data.drop gp.pos = record_octets f.byteswap z ++ rest →
      (pcap_file_read_packet g ph pd).1 = status.status_err ∧
      ∃ q, (pcap_file_read_packet g ph pd).2.1
        = { g with file_ptr := some { gp with pos := q } } := by
    intro g gp ph pd hg hb hd
    obtain ⟨h16, hh16, hrec, hdec⟩ := record_header_decode f.byteswap z ph hsec husec hzl
    have hd2 : gp.data.drop gp.pos = h16 ++ (z.payload ++ rest) := by
      rw [hd, hrec, List.append_assoc]
    have hzero : (pkthdr_from_packet_hdr g.byteswap h16 ph).caplen = 0 := by
      rw [hb, hdec, hz]; rfl
    obtain ⟨e1, e2⟩ := read_packet_zero_length g gp h16 (z.payload ++ rest) ph pd hg hh16
      hd2 hzero
    exact ⟨e1, _, e2⟩
  have hd := dispatch_records_tail (record_octets f.byteswap z ++ rest) status.status_err
    (by decide) f fp recs hdr n pkthdr packet_data htail hfp hdata hhdr hpos hall hn
  refine ⟨fun g gp ph pd hg hb hdr => (htail g gp ph pd hg hb hdr).1, ?_, hd.2⟩
  rw [hd.1]; rfl

/-- C25 on a file of two records, a record with incl_len 0 and one more
record, replayed twice. -/
theorem C25_zero_length_record_witness :
    (pcap_file_dispatch_frame_handler zero_length_reader ((2 : Nat) : Int) blank_pkthdr []).1
      = status.status_err ∧
    (pcap_file_dispatch_frame_handler zero_length_reader ((2 : Nat) : Int) blank_pkthdr
        []).2.2.map pcap_call.delivered
      = (List.replicate 2
          (sample_records.map (fun r => (record_info r, r.payload)))).flatten :=
  (C25_zero_length_record zero_length_reader
    { data := file_header_bytes ++ (records_octets 0 sample_records ++
        (record_octets 0 { ts_sec := 3, ts_usec := 3000, orig_len := 60, payload := [] } ++
          record_octets 0
            { ts_sec := 4, ts_usec := 4000, orig_len := 2, payload := [byte 6, byte 7] }))
      pos := 24 }
    sample_records file_header_bytes
    { ts_sec := 3, ts_usec := 3000, orig_len := 60, payload := [] }
    (record_octets 0
      { ts_sec := 4, ts_usec := 4000, orig_len := 2, payload := [byte 6, byte 7] })
    2 blank_pkthdr [] rfl rfl (by decide) rfl (by decide) (by decide) (by decide) rfl
    (by decide)).2

/-! ## Theorems: the smallest budget the default constants accept -/

/-- Lines 490-515 for the default constants and a block size that is a
multiple of the frame size: the process ends with the "only able to
allocate" error exactly when the block count is below 8, and otherwise the
request is returned. -/
theorem ring_request_default (mem n size bs : Nat) (hbs : bs ≠ 0) (hmul : bs % 2048 = 0) :
    ((ring_request (ring_limits_default mem) n size bs).2 = Outcome.exit 255 ↔
      size / bs % U32 < 8) ∧
    ((∃ b m, ring_msg.error_too_few_blocks b m
        ∈ (ring_request (ring_limits_default mem) n size bs).1) ↔ size / bs % U32 < 8) ∧
    (¬ size / bs % U32 < 8 →
      ∃ req, (ring_request (ring_limits_default mem) n size bs).2 = Outcome.ret req) := by
  have hf : (ring_limits_default mem).af_framesize = 2048 := rfl
  have hm : (ring_limits_default mem).af_min_blocks = 8 := rfl
  by_cases h1 : size / bs % U32 < 8
  · have e : ring_request (ring_limits_default mem) n size bs
        = ([ring_msg.error_too_few_blocks (size / bs % U32) 8], Outcome.exit 255) := by
      simp [ring_request, hbs, hm, h1]
    rw [e]
    refine ⟨⟨fun _ => h1, fun _ => rfl⟩, ⟨fun _ => h1, fun _ => ⟨_, _, List.mem_singleton.mpr rfl⟩⟩,
      fun h => absurd h1 h⟩
  · have e1 : ∃ req, (ring_request (ring_limits_default mem) n size bs).2
        = Outcome.ret req := by
      simp [ring_request, hbs, hm, h1, hf, hmul]
    have e2 : ∀ b m, ring_msg.error_too_few_blocks b m
        ∉ (ring_request (ring_limits_default mem) n size bs).1 := by
      intro b m hmem
      simp only [ring_request, hbs, if_false, hm, h1, hf, hmul, ne_eq, not_true_eq_false,
        show ((2048 : Nat) = 0) = False from by decide] at hmem
      split at hmem <;> simp at hmem
    obtain ⟨req, e1⟩ := e1
    refine ⟨⟨fun h => (by rw [e1] at h; cases h), fun h => absurd h h1⟩,
      ⟨fun ⟨b, m, h⟩ => absurd h (e2 b m), fun h => absurd h h1⟩, fun _ => ⟨req, e1⟩⟩

/-- The sizing as its three steps, when the first two return. -/
theorem thread_ring_req_steps (rlp : ring_limits) (n size bs : Nat)
    (hs : thread_ring_size rlp n = Outcome.ret size)
    (hb : halve_blocksize rlp size (rlp.af_blocksize % U32) = Outcome.ret bs) :
    thread_ring_req rlp n
      = ((if rlp.af_desired_memory / n > rlp.af_ring_limit
          then [ring_msg.notice_desired_exceeds_limit] else [])
          ++ (ring_request rlp n size bs).1,
         (ring_request rlp n size bs).2) := by
  unfold thread_ring_req
  simp only [hs, hb]

/-- C24: with the constants ring_limits_init sets, for every budget and every
worker count of at least 1, the ring sizing ends the process with status 255
exactly when the budget divided by the worker count is below 524288, it
writes the "only able to allocate" error exactly in that case, and in every
other case it returns a request. -/
theorem C24_default_minimum_budget (mem num_threads : Nat) (hn : 1 ≤ num_threads) :
    ((thread_ring_req (ring_limits_default mem) num_threads).2 = Outcome.exit 255 ↔
      mem / num_threads < 524288) ∧
    ((∃ b m, ring_msg.error_too_few_blocks b m
        ∈ (thread_ring_req (ring_limits_default mem) num_threads).1) ↔
      mem / num_threads < 524288) ∧
    (¬ mem / num_threads < 524288 →
      ∃ req, (thread_ring_req (ring_limits_default mem) num_threads).2 = Outcome.ret req) := by
  obtain ⟨size, k, hs, hk1, hk2, hb⟩ := halve_blocksize_default mem num_threads hn
  have hs2 := thread_ring_size_eq_min (ring_limits_default mem) num_threads (by omega)
    (show (0xffffffff : Nat) < U32 by decide)
  rw [hs] at hs2
  injection hs2 with hs2
  have hsz : size = min (mem / num_threads) 0xffffffff := hs2
  have hU : U32 = 2 ^ 32 := rfl
  have hpos : 0 < 2 ^ k := Nat.two_pow_pos k
  have hlo : 2 ^ 16 ≤ 2 ^ k := Nat.pow_le_pow_right (by decide) hk1
  have hmul : 2 ^ k % 2048 = 0 := by
    obtain ⟨d, rfl⟩ : ∃ d, k = 11 + d := ⟨k - 11, by omega⟩
    rw [Nat.pow_add]
    exact Nat.mul_mod_right _ _
  have hexit := (halve_blocksize_loop_exit (ring_limits_default mem) size
    ((ring_limits_default mem).af_blocksize % U32 + 1)
    ((ring_limits_default mem).af_blocksize % U32) (2 ^ k) (Nat.lt_succ_self _) hb).1
  have hmin : (ring_limits_default mem).af_min_blocksize = 2 ^ 16 := rfl
  have htar : (ring_limits_default mem).af_target_blocks = 64 := rfl
  rw [hmin, htar] at hexit
  have hq : size / 2 ^ k % U32 = size / 2 ^ k := by
    apply Nat.mod_eq_of_lt
    have : size / 2 ^ k ≤ size := Nat.div_le_self _ _
    rw [hU]; omega
  have hiff : size / 2 ^ k % U32 < 8 ↔ mem / num_threads < 524288 := by
    rw [hq]
    constructor
    · intro h
      by_contra hge
      have hsize : 524288 ≤ size := by omega
      rcases hexit with h1 | h1
      · have hk16 : 2 ^ k < 2 ^ 17 := by omega
        have : k < 17 := (Nat.pow_lt_pow_iff_right (by decide)).mp hk16
        have hk : k = 16 := by omega
        subst hk
        omega
      · omega
    · intro h
      have hsize : size < 524288 := by omega
      have h1 : size / 2 ^ k ≤ size / 2 ^ 16 := Nat.div_le_div_left hlo (by norm_num)
      omega
  obtain ⟨r1, r2, r3⟩ := ring_request_default mem num_threads size (2 ^ k) (by omega) hmul
  have e := thread_ring_req_steps (ring_limits_default mem) num_threads size (2 ^ k) hs hb
  rw [e]
  refine ⟨r1.trans hiff, ?_, fun h => r3 (fun h2 => h (hiff.mp h2))⟩
  rw [← hiff, ← r2]
  constructor
  · rintro ⟨b, m, hmem⟩
    rcases List.mem_append.mp hmem with h | h
    · split at h <;> simp at h
    · exact ⟨b, m, h⟩
  · rintro ⟨b, m, hmem⟩
    exact ⟨b, m, List.mem_append_right _ hmem⟩

/-- C24 at two budgets for 8 workers: one byte below 8 times 524288 the
sizing ends the process, at 8 times 524288 it returns a request of 8 blocks
of 64 KiB. -/
theorem C24_default_minimum_budget_witness :
    (1 ≤ 8) ∧
    ((thread_ring_req (ring_limits_default 4194303) 8).2 = Outcome.exit 255 ↔
      4194303 / 8 < 524288) ∧
    (thread_ring_req (ring_limits_default 4194303) 8).2 = Outcome.exit 255 ∧
    (thread_ring_req (ring_limits_default 4194304) 8).2.returned.map
      (fun req => (req.tp_block_size, req.tp_block_nr)) = some (65536, 8) :=
  ⟨by decide, (C24_default_minimum_budget 4194303 8 (by decide)).1, by decide, by decide⟩

/-! ## Theorems: the freeze-recovery threshold -/

/-- The main loop is left at a test that reads a nonzero `sig_close_workers`. -/
theorem main_loop_stop (thread_stor : thread_storage) (e : loop_env) (rest : List loop_env)
    (s : drainer_state) (h : e.close_workers ≠ 0) :
    main_loop thread_stor (e :: rest) s
      = ([capture_event.read_close_workers e.close_workers], some (Outcome.ret s)) := by
  simp [main_loop, h]

/-- The main loop after a test that reads 0 and an iteration that returns. -/
theorem main_loop_step (thread_stor : thread_storage) (e : loop_env) (rest : List loop_env)
    (s s1 : drainer_state) (events : List drainer_event) (h : e.close_workers = 0)
    (hit : drainer_iteration thread_stor e.polret { s with mem := e.kernel s.mem }
      = Outcome.ret (s1, events)) :
    main_loop thread_stor (e :: rest) s
      = (capture_event.read_close_workers 0 :: events.map capture_event.drainer
          ++ (main_loop thread_stor rest s1).1, (main_loop thread_stor rest s1).2) := by
  simp [main_loop, h, hit]

/-- The events of an iteration on a block that has the USER bit clear touch
no block and no handler. -/
theorem idle_events_clean (polret : Int) :
    ∀ x ∈ capture_event.read_close_workers 0
        :: (drainer_event.poll 1000
          :: (if polret < 0 then [drainer_event.perror_poll] else [])).map
            capture_event.drainer,
      x.touches_ring = false := by
  intro x hx
  by_cases hp : polret < 0
  · simp [hp] at hx
    rcases hx with h | h | h <;> rw [h] <;> rfl
  · simp [hp] at hx
    rcases hx with h | h <;> rw [h] <;> rfl

/-- Iterations on a block that stays without the USER bit, as long as the
positive results of `poll` bring `pstreak` to 2 at most: `cb` stays where it
is, `pstreak` grows by the number of positive results, and nothing touches a
block or a handler. -/
theorem main_loop_idle (thread_stor : thread_storage)
    (hcount : 0 < thread_stor.ring_params.tp_block_nr)
    (htype : thread_stor.ring_params.tp_block_nr < U32)
    (c : Nat) (hc : c < thread_stor.ring_params.tp_block_nr) (rest : List loop_env) :
    ∀ (envs : List loop_env) (s : drainer_state),
      s.cb = c → 0 ≤ s.pstreak →
      s.pstreak + ((envs.countP (fun e => decide (0 < e.polret)) : Nat) : Int) ≤ 2 →
      (s.mem.block (thread_stor.block_header c)).block_status &&& TP_STATUS_USER = 0 →
      (∀ e ∈ envs, e.close_workers = 0 ∧
        ∀ m : ring_memory,
          (m.block (thread_stor.block_header c)).block_status &&& TP_STATUS_USER = 0 →
          ((e.kernel m).block (thread_stor.block_header c)).block_status
            &&& TP_STATUS_USER = 0) →
      ∃ (s1 : drainer_state) (evs : List capture_event),
        main_loop thread_stor (envs ++ rest) s
          = (evs ++ (main_loop thread_stor rest s1).1, (main_loop thread_stor rest s1).2) ∧
        s1.cb = c ∧
        s1.pstreak = s.pstreak + ((envs.countP (fun e => decide (0 < e.polret)) : Nat) : Int) ∧
        s1.statst = s.statst ∧
        (s1.mem.block (thread_stor.block_header c)).block_status &&& TP_STATUS_USER = 0 ∧
        (∀ x ∈ evs, x.touches_ring = false) := by
  intro envs
  induction envs with
  | nil =>
    intro s hcb _ _ hk _
    exact ⟨s, [], by simp, hcb, by simp, rfl, hk, by simp⟩
  | cons e envs ih =>
    intro s hcb hp0 hp2 hk hall
    obtain ⟨hclose, hpres⟩ := hall e (List.mem_cons_self _ _)
    have hk1 := hpres s.mem hk
    have hit := drainer_iteration_kernel thread_stor e.polret { s with mem := e.kernel s.mem }
      hcount htype (by show s.cb < _; rw [hcb]; exact hc) (by show _ = 0; rw [hcb]; exact hk1)
    have hcnt : ((List.countP (fun e => decide (0 < e.polret)) (e :: envs) : Nat) : Int)
        = ((List.countP (fun e => decide (0 < e.polret)) envs : Nat) : Int)
          + (if 0 < e.polret then 1 else 0) := by
      rw [List.countP_cons]
      by_cases hpos : 0 < e.polret <;> simp [hpos]
    rw [hcnt] at hp2 ⊢
    have hnn : (0 : Int) ≤ ((List.countP (fun e => decide (0 < e.polret)) envs : Nat) : Int) :=
      Int.ofNat_nonneg _
    have hps : (if e.polret > 0 then wrap_int32 (s.pstreak + 1) else s.pstreak)
        = s.pstreak + (if 0 < e.polret then 1 else 0) := by
      by_cases hpos : 0 < e.polret
      · have hpos2 : e.polret > 0 := hpos
        rw [if_pos hpos2, if_pos hpos]
        apply wrap_int32_succ <;> (rw [if_pos hpos] at hp2; omega)
      · have hpos2 : ¬ e.polret > 0 := hpos
        rw [if_neg hpos2, if_neg hpos]; simp
    have hle : s.pstreak + (if 0 < e.polret then 1 else 0) ≤ 2 := by omega
    have hih : s.pstreak + (if 0 < e.polret then 1 else 0)
        + ((List.countP (fun e => decide (0 < e.polret)) envs : Nat) : Int) ≤ 2 := by omega
    have hge : 0 ≤ s.pstreak + (if 0 < e.polret then (1 : Int) else 0) := by
      by_cases hpos : 0 < e.polret <;> simp [hpos] <;> omega
    simp only [hps] at hit
    rw [if_neg (by omega : ¬ s.pstreak + (if 0 < e.polret then 1 else 0) > 2)] at hit
    have hstep := main_loop_step thread_stor e (envs ++ rest) s _ _ hclose hit
    obtain ⟨s1, evs, e1, e2, e3, e4, e5, e6⟩ := ih
      { mem := e.kernel s.mem, statst := s.statst,
        pstreak := s.pstreak + (if 0 < e.polret then 1 else 0), cb := s.cb }
      hcb hge hih hk1
      (fun x hx => hall x (List.mem_cons_of_mem _ hx))
    refine ⟨s1, (capture_event.read_close_workers 0
      :: (drainer_event.poll 1000
        :: (if e.polret < 0 then [drainer_event.perror_poll] else [])).map
          capture_event.drainer) ++ evs, ?_, e2, ?_, e4, e5, ?_⟩
    · rw [List.cons_append, hstep, e1]
      simp only [List.append_assoc, List.cons_append]
    · rw [e3]
      show s.pstreak + (if 0 < e.polret then 1 else 0) + _ = _
      omega
    · intro x hx
      rcases List.mem_append.mp hx with h | h
      · exact idle_events_clean e.polret x h
      · exact e6 x h

/-- C22: from `pstreak = 0` on a block that stays without the USER bit, over
any sequence of results of `poll`: while at most two of them are positive,
`cb` stays where it is, `pstreak` is the number of positive results
(timeouts and errors neither count nor reset it), and no block status is
written and no frame is dispatched; the third positive result brings
`pstreak` to 3 and moves `cb` to `(cb + 1) mod block_count`. -/
theorem C22_freeze_recovery_threshold (thread_stor : thread_storage)
    (envs : List loop_env) (third stop : loop_env) (s : drainer_state)
    (hcount : 0 < thread_stor.ring_params.tp_block_nr)
    (htype : thread_stor.ring_params.tp_block_nr < U32)
    (hcb : s.cb < thread_stor.ring_params.tp_block_nr)
    (hp : s.pstreak = 0)
    (hkernel : (s.mem.block (thread_stor.block_header s.cb)).block_status
      &&& TP_STATUS_USER = 0)
    (hidle : ∀ e ∈ third :: envs, e.close_workers = 0 ∧
      ∀ m : ring_memory,
        (m.block (thread_stor.block_header s.cb)).block_status &&& TP_STATUS_USER = 0 →
        ((e.kernel m).block (thread_stor.block_header s.cb)).block_status
          &&& TP_STATUS_USER = 0)
    (hthird : 0 < third.polret)
    (hstop : stop.close_workers ≠ 0) :
    (envs.countP (fun e => decide (0 < e.polret)) ≤ 2 →
      ∃ s1, (main_loop thread_stor (envs ++ [stop]) s).2 = some (Outcome.ret s1) ∧
        s1.cb = s.cb ∧
        s1.pstreak = ((envs.countP (fun e => decide (0 < e.polret)) : Nat) : Int) ∧
        ∀ x ∈ (main_loop thread_stor (envs ++ [stop]) s).1, x.touches_ring = false) ∧
    (envs.countP (fun e => decide (0 < e.polret)) = 2 →
      ∃ s2, (main_loop thread_stor (envs ++ [third, stop]) s).2 = some (Outcome.ret s2) ∧
        s2.cb = (s.cb + 1) % thread_stor.ring_params.tp_block_nr ∧
        s2.pstreak = 3 ∧
        ∀ x ∈ (main_loop thread_stor (envs ++ [third, stop]) s).1, x.touches_ring = false) := by
  have hall : ∀ e ∈ envs, e.close_workers = 0 ∧
      ∀ m : ring_memory,
        (m.block (thread_stor.block_header s.cb)).block_status &&& TP_STATUS_USER = 0 →
        ((e.kernel m).block (thread_stor.block_header s.cb)).block_status
          &&& TP_STATUS_USER = 0 :=
    fun e he => hidle e (List.mem_cons_of_mem _ he)
  constructor
  · intro hle
    obtain ⟨s1, evs, e1, e2, e3, _, _, e6⟩ := main_loop_idle thread_stor hcount htype s.cb hcb
      [stop] envs s rfl (by rw [hp]) (by rw [hp]; omega) hkernel hall
    rw [e1, main_loop_stop thread_stor stop [] s1 hstop]
    refine ⟨s1, rfl, e2, by rw [e3, hp]; simp, ?_⟩
    intro x hx
    rcases List.mem_append.mp hx with h | h
    · exact e6 x h
    · rw [List.mem_singleton.mp h]; rfl
  · intro htwo
    obtain ⟨s1, evs, e1, e2, e3, _, e5, e6⟩ := main_loop_idle thread_stor hcount htype s.cb hcb
      [third, stop] envs s rfl (by rw [hp]) (by rw [hp, htwo]; decide) hkernel hall
    rw [hp, htwo] at e3
    obtain ⟨hclose, hpres⟩ := hidle third (List.mem_cons_self _ _)
    have hk1 := hpres s1.mem e5
    have hit := drainer_iteration_kernel thread_stor third.polret
      { s1 with mem := third.kernel s1.mem } hcount htype
      (by show s1.cb < _; rw [e2]; exact hcb) (by show _ = 0; rw [e2]; exact hk1)
    have hpos : third.polret > 0 := hthird
    have h3 : wrap_int32 (s1.pstreak + 1) = 3 := by rw [e3]; decide
    simp only [if_pos hpos, h3, show ((3 : Int) > 2) = True from by decide, if_true] at hit
    rw [e1, main_loop_step thread_stor third [stop] s1 _ _ hclose hit,
      main_loop_stop thread_stor stop [] _ hstop]
    refine ⟨_, rfl, by show (s1.cb + 1) % _ = _; rw [e2], rfl, ?_⟩
    intro x hx
    rcases List.mem_append.mp hx with h | h
    · exact e6 x h
    · rcases List.mem_append.mp h with h | h
      · exact idle_events_clean third.polret x h
      · rw [List.mem_singleton.mp h]; rfl

/-- C22 on a four-block ring that stays idle: after a positive result, a
timeout, an error and a second positive result `cb` is still 0 and `pstreak`
is 2; the third positive result moves `cb` to 1. -/
theorem C22_freeze_recovery_threshold_witness :
    (∃ s1, (main_loop sample_thread
        ([ready_env, timeout_env, poll_error_env, ready_env] ++ [stop_env])
        { mem := idle_ring, statst := stats_zero, pstreak := 0, cb := 0 }).2
          = some (Outcome.ret s1) ∧ s1.cb = 0 ∧ s1.pstreak = 2) ∧
    (∃ s2, (main_loop sample_thread
        ([ready_env, timeout_env, poll_error_env, ready_env] ++ [ready_env, stop_env])
        { mem := idle_ring, statst := stats_zero, pstreak := 0, cb := 0 }).2
          = some (Outcome.ret s2) ∧ s2.cb = 1 ∧ s2.pstreak = 3) := by
  have h := C22_freeze_recovery_threshold sample_thread
    [ready_env, timeout_env, poll_error_env, ready_env] ready_env stop_env
    { mem := idle_ring, statst := stats_zero, pstreak := 0, cb := 0 }
    (by decide) (by decide) (by decide) rfl (by decide)
    (by
      intro e he
      simp only [List.mem_cons, List.mem_singleton, List.not_mem_nil, or_false] at he
      rcases he with h | h | h | h | h <;> rw [h] <;> exact ⟨rfl, fun m hm => hm⟩)
    (by decide) (by decide)
  obtain ⟨s1, a1, a2, a3, _⟩ := h.1 (by decide)
  obtain ⟨s2, b1, b2, b3, _⟩ := h.2 (by decide)
  exact ⟨⟨s1, a1, a2, a3⟩, ⟨s2, b1, b2, b3⟩⟩

/-! ## Theorems: recovery from a stuck kernel cursor -/

/-- Two steps forward in a ring of at least three blocks. -/
theorem next_next_block (c n : Nat) (hn : 3 ≤ n) :
    ((c + 1) % n + 1) % n = (c + 2) % n := by
  have h1 : 1 % n = 1 := Nat.mod_eq_of_lt (by omega)
  have h := Nat.add_mod (c + 1) 1 n
  rw [h1] at h
  rw [← h]

/-- C23, amended: with at least three blocks, `pstreak = 0`, the blocks at
`cb` and `cb + 1` without the USER bit, the block two ahead of `cb` with it,
a ring the kernel leaves alone and a `poll` that reports readiness on every
call, the loop calls `poll` exactly four times (three bring `pstreak` to 3
and `cb` to the next block, the fourth moves `cb` to the block two ahead),
then dispatches that block, returns it to the kernel and moves on. -/
theorem C23_stuck_cursor_recovery (thread_stor : thread_storage) (s : drainer_state)
    (e1 e2 e3 e4 e5 stop : loop_env)
    (hcount : 3 ≤ thread_stor.ring_params.tp_block_nr)
    (htype : thread_stor.ring_params.tp_block_nr < U32)
    (hcb : s.cb < thread_stor.ring_params.tp_block_nr)
    (hp : s.pstreak = 0)
    (hk0 : (s.mem.block (thread_stor.block_header s.cb)).block_status &&& TP_STATUS_USER = 0)
    (hk1 : (s.mem.block (thread_stor.block_header
      ((s.cb + 1) % thread_stor.ring_params.tp_block_nr))).block_status
        &&& TP_STATUS_USER = 0)
    (hk2 : (s.mem.block (thread_stor.block_header
      ((s.cb + 2) % thread_stor.ring_params.tp_block_nr))).block_status
        &&& TP_STATUS_USER ≠ 0)
    (hready : ∀ e ∈ [e1, e2, e3, e4, e5],
      e.close_workers = 0 ∧ 0 < e.polret ∧ ∀ m, e.kernel m = m)
    (hstop : stop.close_workers ≠ 0) :
    (main_loop thread_stor [e1, e2, e3, e4, e5, stop] s).1
      = [capture_event.read_close_workers 0, capture_event.drainer (drainer_event.poll 1000),
          capture_event.read_close_workers 0, capture_event.drainer (drainer_event.poll 1000),
          capture_event.read_close_workers 0, capture_event.drainer (drainer_event.poll 1000),
          capture_event.read_close_workers 0, capture_event.drainer (drainer_event.poll 1000),
          capture_event.read_close_workers 0,
          capture_event.drainer (drainer_event.process_block (thread_stor.block_header
            ((s.cb + 2) % thread_stor.ring_params.tp_block_nr)))]
        ++ (process_all_packets_in_block s.mem (thread_stor.block_header
            ((s.cb + 2) % thread_stor.ring_params.tp_block_nr)) s.statst).2.map
            (fun call => capture_event.drainer (drainer_event.frame call))
        ++ [capture_event.drainer (drainer_event.set_block_status (thread_stor.block_header
            ((s.cb + 2) % thread_stor.ring_params.tp_block_nr)) TP_STATUS_KERNEL),
          capture_event.read_close_workers stop.close_workers] ∧
    ∃ s1, (main_loop thread_stor [e1, e2, e3, e4, e5, stop] s).2 = some (Outcome.ret s1) ∧
      s1.cb = ((s.cb + 2) % thread_stor.ring_params.tp_block_nr + 1)
        % thread_stor.ring_params.tp_block_nr ∧
      s1.pstreak = 0 ∧
      s1.mem = set_block_status s.mem (thread_stor.block_header
        ((s.cb + 2) % thread_stor.ring_params.tp_block_nr)) TP_STATUS_KERNEL := by
  have hpos : 0 < thread_stor.ring_params.tp_block_nr := by omega
  have hm : ∀ n : Nat, n % thread_stor.ring_params.tp_block_nr
      < thread_stor.ring_params.tp_block_nr := fun n => Nat.mod_lt _ hpos
  obtain ⟨c1, p1, k1⟩ := hready e1 (by simp)
  obtain ⟨c2, p2, k2⟩ := hready e2 (by simp)
  obtain ⟨c3, p3, k3⟩ := hready e3 (by simp)
  obtain ⟨c4, p4, k4⟩ := hready e4 (by simp)
  obtain ⟨c5, p5, k5⟩ := hready e5 (by simp)
  have g1 : e1.polret > 0 := p1
  have g2 : e2.polret > 0 := p2
  have g3 : e3.polret > 0 := p3
  have g4 : e4.polret > 0 := p4
  have n1 : ¬ e1.polret < 0 := by omega
  have n2 : ¬ e2.polret < 0 := by omega
  have n3 : ¬ e3.polret < 0 := by omega
  have n4 : ¬ e4.polret < 0 := by omega
  have w1 : wrap_int32 (0 + 1) = 1 := by decide
  have w2 : wrap_int32 (1 + 1) = 2 := by decide
  have w3 : wrap_int32 (2 + 1) = 3 := by decide
  have w4 : wrap_int32 (3 + 1) = 4 := by decide
  have i1 := drainer_iteration_kernel thread_stor e1.polret
    { s with mem := e1.kernel s.mem } hpos htype hcb (by rw [k1]; exact hk0)
  simp only [k1, hp, if_pos g1, if_neg n1, w1,
    show ((1 : Int) > 2) = False from by decide, if_false] at i1
  have i2 := drainer_iteration_kernel thread_stor e2.polret
    { mem := e2.kernel s.mem, statst := s.statst, pstreak := 1, cb := s.cb }
    hpos htype hcb (by rw [k2]; exact hk0)
  simp only [k2, if_pos g2, if_neg n2, w2,
    show ((2 : Int) > 2) = False from by decide, if_false] at i2
  have i3 := drainer_iteration_kernel thread_stor e3.polret
    { mem := e3.kernel s.mem, statst := s.statst, pstreak := 2, cb := s.cb }
    hpos htype hcb (by rw [k3]; exact hk0)
  simp only [k3, if_pos g3, if_neg n3, w3,
    show ((3 : Int) > 2) = True from by decide, if_true] at i3
  have i4 := drainer_iteration_kernel thread_stor e4.polret
    { mem := e4.kernel s.mem, statst := s.statst, pstreak := 3,
      cb := (s.cb + 1) % thread_stor.ring_params.tp_block_nr }
    hpos htype (hm _) (by rw [k4]; exact hk1)
  simp only [k4, if_pos g4, if_neg n4, w4,
    show ((4 : Int) > 2) = True from by decide, if_true,
    next_next_block s.cb _ hcount] at i4
  have i5 := drainer_iteration_user thread_stor e5.polret
    { mem := e5.kernel s.mem, statst := s.statst, pstreak := 4,
      cb := (s.cb + 2) % thread_stor.ring_params.tp_block_nr }
    hpos htype (hm _) (by rw [k5]; exact hk2)
  simp only [k5] at i5
  have j1 : drainer_iteration thread_stor e1.polret { s with mem := e1.kernel s.mem }
      = Outcome.ret ({ mem := s.mem, statst := s.statst, pstreak := 1, cb := s.cb },
          [drainer_event.poll 1000]) := by
    rw [k1, hp]; exact i1
  have j2 : drainer_iteration thread_stor e2.polret
      { mem := e2.kernel s.mem, statst := s.statst, pstreak := 1, cb := s.cb }
      = Outcome.ret ({ mem := s.mem, statst := s.statst, pstreak := 2, cb := s.cb },
          [drainer_event.poll 1000]) := by
    rw [k2]; exact i2
  have j3 : drainer_iteration thread_stor e3.polret
      { mem := e3.kernel s.mem, statst := s.statst, pstreak := 2, cb := s.cb }
      = Outcome.ret
        ({ mem := s.mem, statst := s.statst, pstreak := 3
           cb := (s.cb + 1) % thread_stor.ring_params.tp_block_nr },
         [drainer_event.poll 1000]) := by
    rw [k3]; exact i3
  have j4 : drainer_iteration thread_stor e4.polret
      { mem := e4.kernel s.mem, statst := s.statst, pstreak := 3
        cb := (s.cb + 1) % thread_stor.ring_params.tp_block_nr }
      = Outcome.ret
        ({ mem := s.mem, statst := s.statst, pstreak := 4
           cb := (s.cb + 2) % thread_stor.ring_params.tp_block_nr },
         [drainer_event.poll 1000]) := by
    rw [k4]; exact i4
  have j5 : drainer_iteration thread_stor e5.polret
      { mem := e5.kernel s.mem, statst := s.statst, pstreak := 4
        cb := (s.cb + 2) % thread_stor.ring_params.tp_block_nr }
      = Outcome.ret
        ({ mem := set_block_status s.mem (thread_stor.block_header
              ((s.cb + 2) % thread_stor.ring_params.tp_block_nr)) TP_STATUS_KERNEL
           statst := (process_all_packets_in_block s.mem (thread_stor.block_header
              ((s.cb + 2) % thread_stor.ring_params.tp_block_nr)) s.statst).1
           pstreak := 0
           cb := ((s.cb + 2) % thread_stor.ring_params.tp_block_nr + 1)
              % thread_stor.ring_params.tp_block_nr },
         drainer_event.process_block (thread_stor.block_header
              ((s.cb + 2) % thread_stor.ring_params.tp_block_nr))
          :: (process_all_packets_in_block s.mem (thread_stor.block_header
              ((s.cb + 2) % thread_stor.ring_params.tp_block_nr)) s.statst).2.map
              drainer_event.frame
          ++ [drainer_event.set_block_status (thread_stor.block_header
              ((s.cb + 2) % thread_stor.ring_params.tp_block_nr)) TP_STATUS_KERNEL]) := by
    rw [k5]; exact i5
  have r1 := main_loop_step thread_stor e1 [e2, e3, e4, e5, stop] s _ _ c1 j1
  have r2 := main_loop_step thread_stor e2 [e3, e4, e5, stop]
    { mem := s.mem, statst := s.statst, pstreak := 1, cb := s.cb } _ _ c2 j2
  have r3 := main_loop_step thread_stor e3 [e4, e5, stop]
    { mem := s.mem, statst := s.statst, pstreak := 2, cb := s.cb } _ _ c3 j3
  have r4 := main_loop_step thread_stor e4 [e5, stop]
    { mem := s.mem, statst := s.statst, pstreak := 3
      cb := (s.cb + 1) % thread_stor.ring_params.tp_block_nr } _ _ c4 j4
  have r5 := main_loop_step thread_stor e5 [stop]
    { mem := s.mem, statst := s.statst, pstreak := 4
      cb := (s.cb + 2) % thread_stor.ring_params.tp_block_nr } _ _ c5 j5
  have r6 := main_loop_stop thread_stor stop []
    { mem := set_block_status s.mem (thread_stor.block_header
        ((s.cb + 2) % thread_stor.ring_params.tp_block_nr)) TP_STATUS_KERNEL
      statst := (process_all_packets_in_block s.mem (thread_stor.block_header
        ((s.cb + 2) % thread_stor.ring_params.tp_block_nr)) s.statst).1
      pstreak := 0
      cb := ((s.cb + 2) % thread_stor.ring_params.tp_block_nr + 1)
        % thread_stor.ring_params.tp_block_nr } hstop
  rw [r1, r2, r3, r4, r5, r6]
  refine ⟨?_, _, rfl, rfl, rfl, rfl⟩
  simp

/-- C23 on a four-block ring with `cb` at block 0 and block 2 the only one
owned by user space: after four calls of `poll` and the dispatch of block 2
the loop is left with `cb` at block 3 and `pstreak` at 0. -/
theorem C23_stuck_cursor_recovery_witness :
    (3 ≤ sample_thread.ring_params.tp_block_nr ∧
      (stuck_state.mem.block (sample_thread.block_header
        ((stuck_state.cb + 2) % sample_thread.ring_params.tp_block_nr))).block_status
          &&& TP_STATUS_USER ≠ 0) ∧
    ∃ s1, (main_loop sample_thread
        [ready_env, ready_env, ready_env, ready_env, ready_env, stop_env] stuck_state).2
          = some (Outcome.ret s1) ∧ s1.cb = 3 ∧ s1.pstreak = 0 := by
  have h := C23_stuck_cursor_recovery sample_thread stuck_state
    ready_env ready_env ready_env ready_env ready_env stop_env
    (by decide) (by decide) (by decide) rfl (by decide) (by decide) (by decide)
    (by
      intro e he
      simp only [List.mem_cons, List.mem_singleton, List.not_mem_nil, or_false, or_self] at he
      rw [he]
      exact ⟨rfl, by decide, fun m => rfl⟩)
    (by decide)
  obtain ⟨s1, a1, a2, a3, _⟩ := h.2
  exact ⟨⟨by decide, by decide⟩, s1, a1, a2, a3⟩

/-- C23 as stated fails on a four-block ring with `cb` at block 0 and block 2
the only one owned by user space: after three calls of `poll` that report
readiness `cb` is at block 1, not at block 2, and nothing has been
dispatched; the dispatch of block 2 comes after a fourth call. -/
theorem C23_counterexample :
    (main_loop sample_thread [ready_env, ready_env, ready_env, stop_env] stuck_state).1
      = [capture_event.read_close_workers 0, capture_event.drainer (drainer_event.poll 1000),
          capture_event.read_close_workers 0, capture_event.drainer (drainer_event.poll 1000),
          capture_event.read_close_workers 0, capture_event.drainer (drainer_event.poll 1000),
          capture_event.read_close_workers 1] ∧
    ((main_loop sample_thread [ready_env, ready_env, ready_env, stop_env] stuck_state).2.bind
        Outcome.returned).map (fun s => s.cb) = some 1 ∧
    (1 : Nat) ≠ 2 ∧
    ((main_loop sample_thread [ready_env, ready_env, ready_env, ready_env, ready_env, stop_env]
        stuck_state).1.take 10)
      = [capture_event.read_close_workers 0, capture_event.drainer (drainer_event.poll 1000),
          capture_event.read_close_workers 0, capture_event.drainer (drainer_event.poll 1000),
          capture_event.read_close_workers 0, capture_event.drainer (drainer_event.poll 1000),
          capture_event.read_close_workers 0, capture_event.drainer (drainer_event.poll 1000),
          capture_event.read_close_workers 0,
          capture_event.drainer (drainer_event.process_block 8388608)] := by
  decide

/-! ## Theorems: error returns of the socket setup -/

/-- Lines 257-297 return 0 or -1. -/
theorem bind_and_fanout_code (env : socket_env) :
    (bind_and_fanout env).2 = 0 ∨ (bind_and_fanout env).2 = -1 := by
  unfold bind_and_fanout
  by_cases h1 : env.bind_err ≠ 0
  · right; rw [if_pos h1]
  · rw [if_neg h1]
    cases env.indextoname_ret with
    | none => right; rfl
    | some same =>
      by_cases h2 : env.fanout_err ≠ 0
      · right; simp only [if_pos h2]
      · left; simp only [if_neg h2]

/-- C21, amended: whenever `create_dedicated_socket` returns an error after
the socket has been created, it returns -1 having released nothing.  The
socket is still open and its descriptor is in the worker's `sockfd`, and
nothing the process held before has been given back.  The ring mapping is
held on return exactly when the calls before `mmap` succeeded and `mmap`
gave an address, and then `mapped_buffer` is that address; the index
allocation is held on return exactly when in addition `malloc` gave a
pointer, and then `block_header` is that pointer. -/
theorem C21_error_return_releases_nothing (thread_stor : thread_storage)
    (fields : socket_fields) (env : socket_env) (res : process_resources) (code : Int)
    (hsock : env.socket_ret ≠ -1)
    (hret : (create_dedicated_socket thread_stor fields env res).2.1
      = socket_outcome.returned code)
    (herr : code ≠ 0) :
    code = -1 ∧
    (create_dedicated_socket thread_stor fields env res).2.2.2.1.sockfd = env.socket_ret ∧
    (create_dedicated_socket thread_stor fields env res).2.2.2.2.open_sockets
      = env.socket_ret :: res.open_sockets ∧
    (∀ a, env.version_err = 0 → env.interface_number ≠ 0 → env.membership_err = 0 →
      env.rx_ring_err ≠ -1 → env.mmap_ret = some a →
      (create_dedicated_socket thread_stor fields env res).2.2.2.1.mapped_buffer = a ∧
      (create_dedicated_socket thread_stor fields env res).2.2.2.2.mappings
        = (a, thread_stor.ring_params.tp_block_size * thread_stor.ring_params.tp_block_nr
            % U32) :: res.mappings) ∧
    (¬ (env.version_err = 0 ∧ env.interface_number ≠ 0 ∧ env.membership_err = 0 ∧
        env.rx_ring_err ≠ -1 ∧ env.mmap_ret ≠ none) →
      (create_dedicated_socket thread_stor fields env res).2.2.2.2.mappings = res.mappings) ∧
    (∀ a p, env.version_err = 0 → env.interface_number ≠ 0 → env.membership_err = 0 →
      env.rx_ring_err ≠ -1 → env.mmap_ret = some a → env.malloc_ret = some p →
      (create_dedicated_socket thread_stor fields env res).2.2.2.1.block_header = p ∧
      (create_dedicated_socket thread_stor fields env res).2.2.2.2.allocations
        = (p, thread_stor.ring_params.tp_block_nr * 8 % U64) :: res.allocations) ∧
    (¬ (env.version_err = 0 ∧ env.interface_number ≠ 0 ∧ env.membership_err = 0 ∧
        env.rx_ring_err ≠ -1 ∧ env.mmap_ret ≠ none ∧ env.malloc_ret ≠ none) →
      (create_dedicated_socket thread_stor fields env res).2.2.2.2.allocations
        = res.allocations) := by
  have hcode : ∀ c : Int, socket_outcome.returned (bind_and_fanout env).2
      = socket_outcome.returned c → c ≠ 0 → c = -1 := by
    intro c h hc
    injection h with h
    rcases bind_and_fanout_code env with h0 | h1
    · rw [h0] at h; exact absurd h.symm hc
    · rw [h1] at h; exact h.symm
  have hone : ∀ c : Int, socket_outcome.returned (-1) = socket_outcome.returned c → c = -1 := by
    intro c h
    injection h with h
    exact h.symm
  unfold create_dedicated_socket at hret ⊢
  rw [if_neg hsock] at hret ⊢
  by_cases h1 : env.version_err ≠ 0
  · simp only [if_pos h1] at hret ⊢
    exact ⟨hone code hret, by simp [h1]⟩
  · have e1 : env.version_err = 0 := not_not.mp h1
    simp only [if_neg h1] at hret ⊢
    by_cases h2 : env.interface_number = 0
    · simp only [if_pos h2] at hret ⊢
      exact ⟨hone code hret, by simp [h2]⟩
    · simp only [if_neg h2] at hret ⊢
      by_cases h3 : env.membership_err ≠ 0
      · simp only [if_pos h3] at hret ⊢
        exact ⟨hone code hret, by simp [h3]⟩
      · have e3 : env.membership_err = 0 := not_not.mp h3
        simp only [if_neg h3] at hret ⊢
        by_cases h4 : env.rx_ring_err = -1
        · simp only [if_pos h4] at hret ⊢
          exact ⟨hone code hret, by simp [h4]⟩
        · simp only [if_neg h4] at hret ⊢
          cases hm : env.mmap_ret with
          | none =>
            simp only [hm] at hret ⊢
            exact ⟨hone code hret, by simp⟩
          | some a =>
            simp only [hm] at hret ⊢
            cases hp : env.malloc_ret with
            | none =>
              simp only [hp] at hret ⊢
              by_cases h5 : thread_stor.ring_params.tp_block_nr = 0
              · simp only [if_pos h5] at hret ⊢
                exact ⟨hcode code hret herr, by simp [e1, h2, e3, h4]⟩
              · simp only [if_neg h5] at hret
                cases hret
            | some p =>
              simp only [hp] at hret ⊢
              exact ⟨hcode code hret herr, by simp [e1, h2, e3, h4]⟩

/-- C21 on a run in which `bind` fails: the call returns -1 with the
descriptor 5 still open, the ring still mapped and the index still
allocated. -/
theorem C21_error_return_releases_nothing_witness :
    (bind_failure_env.socket_ret ≠ -1 ∧
      (create_dedicated_socket sample_thread blank_fields bind_failure_env no_resources).2.1
        = socket_outcome.returned (-1)) ∧
    (create_dedicated_socket sample_thread blank_fields bind_failure_env
      no_resources).2.2.2.2.open_sockets = bind_failure_env.socket_ret :: [] ∧
    (create_dedicated_socket sample_thread blank_fields bind_failure_env
      no_resources).2.2.2.2.mappings = [(1048576, 16777216)] ∧
    (create_dedicated_socket sample_thread blank_fields bind_failure_env
      no_resources).2.2.2.2.allocations = [(4096, 32)] :=
  ⟨⟨by decide, by decide⟩,
   (C21_error_return_releases_nothing sample_thread blank_fields bind_failure_env no_resources
    (-1) (by decide) (by decide) (by decide)).2.2.1,
   ((C21_error_return_releases_nothing sample_thread blank_fields bind_failure_env no_resources
    (-1) (by decide) (by decide) (by decide)).2.2.2.1 1048576 rfl (by decide) rfl (by decide)
      rfl).2,
   ((C21_error_return_releases_nothing sample_thread blank_fields bind_failure_env no_resources
    (-1) (by decide) (by decide) (by decide)).2.2.2.2.2.1 1048576 4096 rfl (by decide) rfl
      (by decide) rfl rfl).2⟩

/-- C21 as stated fails: when setting the ring version fails, the call
returns -1 with descriptor 5 still open; when `bind` fails, it returns -1
with descriptor 5 still open, the ring still mapped and the index still
allocated. -/
theorem C21_counterexample :
    ((create_dedicated_socket sample_thread blank_fields version_failure_env no_resources).2.1
        = socket_outcome.returned (-1) ∧
      (5 : Int) ∈ (create_dedicated_socket sample_thread blank_fields version_failure_env
        no_resources).2.2.2.2.open_sockets) ∧
    ((create_dedicated_socket sample_thread blank_fields bind_failure_env no_resources).2.1
        = socket_outcome.returned (-1) ∧
      (create_dedicated_socket sample_thread blank_fields bind_failure_env
        no_resources).2.2.2.2
        = { open_sockets := [5], mappings := [(1048576, 16777216)],
            allocations := [(4096, 32)] }) := by
  decide

/-! ## Theorems: replay of complete records of any length -/

/-- For a record of at most `BUFLEN` captured octets the handler gets the
record as it is. -/
theorem record_delivery_small (r : pcap_record) (h : r.payload.length ≤ BUFLEN) :
    record_delivery r = (record_info r, r.payload) := by
  simp only [record_delivery, record_info, Nat.min_eq_left h, List.take_of_length_le h]

/-- Reading a complete record of at least one captured octet that lies at
the file position: the call returns `status_ok`, the position moves past
the record, and what the replay hands to the handler from the outputs is the
delivery of the record. -/
theorem read_packet_complete (f : pcap_file) (fp : FILE) (r : pcap_record) (rest : List Byte)
    (pkthdr : pcap_pkthdr) (packet_data : List Byte)
    (hfp : f.file_ptr = some fp)
    (hdrop : fp.data.drop fp.pos = record_octets f.byteswap r ++ rest)
    (hsec : r.ts_sec < U32) (husec : r.ts_usec < U32)
    (hlen1 : 1 ≤ r.payload.length) (hlen2 : r.payload.length < U32) :
    (pcap_file_read_packet f pkthdr packet_data).1 = status.status_ok ∧
    (pcap_file_read_packet f pkthdr packet_data).2.1
      = { f with file_ptr := some { fp with pos := fp.pos + 16 + r.payload.length } } ∧
    pcap_call.delivered
        { pi := packet_info_init_from_pkthdr (pcap_file_read_packet f pkthdr packet_data).2.2.1
          packet_data := (pcap_file_read_packet f pkthdr packet_data).2.2.2 }
      = record_delivery r ∧
    fp.data.drop (fp.pos + 16 + r.payload.length) = rest := by
  have hend : fp.data.drop (fp.pos + 16 + r.payload.length) = rest := by
    rw [Nat.add_assoc, ← List.drop_drop, hdrop, ← record_octets_length f.byteswap r,
      List.drop_left]
  by_cases hsmall : r.payload.length ≤ BUFLEN
  · obtain ⟨hr, -⟩ := read_packet_record f fp r rest pkthdr packet_data hfp hdrop hsec husec
      hlen1 hsmall
    rw [hr, record_delivery_small r hsmall]
    refine ⟨rfl, rfl, ?_, hend⟩
    simp only [pcap_call.delivered, packet_info_init_from_pkthdr, wrap_int64_usec _ husec,
      record_info, store_bytes_take]
  · have hbig : BUFLEN < r.payload.length := by omega
    have hlenf : (r.payload.take BUFLEN).length = BUFLEN := by
      rw [List.length_take]; omega
    have hsplit : record_octets f.byteswap r ++ rest =
        (if f.byteswap ≠ 0 then
          packet_hdr_bytes (ntohl r.ts_sec) (ntohl r.ts_usec) (ntohl r.payload.length)
            (ntohl r.orig_len)
         else packet_hdr_bytes r.ts_sec r.ts_usec r.payload.length r.orig_len)
        ++ (r.payload.take BUFLEN ++ (r.payload.drop BUFLEN ++ rest)) := by
      rw [← List.append_assoc (r.payload.take BUFLEN), List.take_append_drop,
        ← List.append_assoc]
      congr 1
      unfold record_octets
      split <;> rfl
    have hr := read_packet_oversized f fp r (r.payload.take BUFLEN)
      (r.payload.drop BUFLEN ++ rest) pkthdr packet_data hfp (by rw [hdrop, hsplit]) hlenf
      hsec husec hbig hlen2
    rw [hr]
    refine ⟨rfl, rfl, ?_, hend⟩
    have htake : (store_bytes packet_data (r.payload.take BUFLEN)).take BUFLEN
        = r.payload.take BUFLEN := by
      have := store_bytes_take packet_data (r.payload.take BUFLEN)
      rw [hlenf] at this
      exact this
    simp only [pcap_call.delivered, packet_info_init_from_pkthdr, wrap_int64_usec _ husec,
      record_delivery, htake, Nat.min_eq_right (Nat.le_of_lt hbig)]

/-- One pass over complete records of at least one captured octet each that
lie at the file position, followed by octets at which
`pcap_file_read_packet` stops with a status that is not `status_ok`. -/
theorem read_pass_complete_tail (tail : List Byte) (st : status) (byteswap : Nat)
    (hst : st ≠ status.status_ok)
    (htail : ∀ (f : pcap_file) (fp : FILE) (pkthdr : pcap_pkthdr) (packet_data : List Byte),
      f.file_ptr = some fp → f.byteswap = byteswap → fp.data.drop fp.pos = tail →
      (pcap_file_read_packet f pkthdr packet_data).1 = st ∧
      ∃ q, (pcap_file_read_packet f pkthdr packet_data).2.1
        = { f with file_ptr := some { fp with pos := q } }) :
    ∀ (recs : List pcap_record) (s : dispatch_state) (fp : FILE),
      s.f.file_ptr = some fp →
      s.f.byteswap = byteswap →
      fp.data.drop fp.pos = records_octets byteswap recs ++ tail →
      (∀ r ∈ recs, r.ts_sec < U32 ∧ r.ts_usec < U32 ∧ 1 ≤ r.payload.length ∧
        r.payload.length < U32) →
      (read_pass s).st = st ∧
      (∃ q, (read_pass s).f = { s.f with file_ptr := some { fp with pos := q } }) ∧
      (read_pass s).calls.map pcap_call.delivered
        = s.calls.map pcap_call.delivered ++ recs.map record_delivery := by
  intro recs
  induction recs with
  | nil =>
    intro s fp hfp hsw hdrop _
    obtain ⟨h1, q, h2⟩ := htail s.f fp s.pkthdr s.packet_data hfp hsw
      (by simpa [records_octets] using hdrop)
    rw [read_pass_eq]
    simp only [h1, if_neg hst, List.map_nil, List.append_nil, true_and, and_true]
    exact ⟨q, h2⟩
  | cons r rest ih =>
    intro s fp hfp hsw hdrop hall
    obtain ⟨hsec, husec, hlen1, hlen2⟩ := hall r (List.mem_cons_self _ _)
    obtain ⟨c1, c2, c3, c4⟩ := read_packet_complete s.f fp r
      (records_octets byteswap rest ++ tail) s.pkthdr s.packet_data hfp
      (by rw [hdrop, hsw]; simp [records_octets]) hsec husec hlen1 hlen2
    rw [read_pass_eq, if_pos c1]
    generalize pcap_file_read_packet s.f s.pkthdr s.packet_data = rd at c1 c2 c3 ⊢
    obtain ⟨i1, ⟨q, i2⟩, i3⟩ := ih
      { f := rd.2.1
        st := rd.1
        pkthdr := rd.2.2.1
        packet_data := rd.2.2.2
        total_length := (s.total_length + (rd.2.2.1.caplen + sizeof_pcap_packet_hdr)) % U64
        num_packets := (s.num_packets + 1) % U64
        calls := s.calls ++
          [{ pi := packet_info_init_from_pkthdr rd.2.2.1, packet_data := rd.2.2.2 }] }
      { fp with pos := fp.pos + 16 + r.payload.length }
      (by show rd.2.1.file_ptr = _; rw [c2])
      (by show rd.2.1.byteswap = _; rw [c2]; exact hsw)
      c4 (fun x hx => hall x (List.mem_cons_of_mem _ hx))
    refine ⟨i1, ⟨q, ?_⟩, ?_⟩
    · rw [i2]
      simp only [c2]
    · rw [i3]
      simp only [List.map_append, List.map_cons, List.map_nil, List.append_assoc,
        List.singleton_append, c3]

/-- The passes of the `for` loop over a file whose complete records, of at
least one captured octet each, start right after the 24 octets of the file
header and are followed by octets at which `pcap_file_read_packet` stops
with a status that is not `status_ok`. -/
theorem pass_loop_complete_tail (tail : List Byte) (st : status) (byteswap : Nat)
    (hst : st ≠ status.status_ok)
    (htail : ∀ (f : pcap_file) (fp : FILE) (pkthdr : pcap_pkthdr) (packet_data : List Byte),
      f.file_ptr = some fp → f.byteswap = byteswap → fp.data.drop fp.pos = tail →
      (pcap_file_read_packet f pkthdr packet_data).1 = st ∧
      ∃ q, (pcap_file_read_packet f pkthdr packet_data).2.1
        = { f with file_ptr := some { fp with pos := q } })
    (recs : List pcap_record) (hdr : List Byte)
    (hhdr : hdr.length = 24) (loop_count : Int)
    (hall : ∀ r ∈ recs, r.ts_sec < U32 ∧ r.ts_usec < U32 ∧ 1 ≤ r.payload.length ∧
      r.payload.length < U32) :
    ∀ (k : Nat) (i : Int) (s : dispatch_state) (fp : FILE),
      loop_count = i + k →
      s.f.file_ptr = some fp →
      s.f.byteswap = byteswap →
      fp.data = hdr ++ (records_octets byteswap recs ++ tail) →
      fp.pos = 24 →
      (pass_loop loop_count k i s).calls.map pcap_call.delivered
        = s.calls.map pcap_call.delivered
          ++ (List.replicate k (recs.map record_delivery)).flatten ∧
      (0 < k → (pass_loop loop_count k i s).st = st) := by
  intro k
  induction k with
  | zero =>
    intro i s fp _ _ _ _ _
    simp [pass_loop]
  | succ k ih =>
    intro i s fp hlc hfp hsw hdata hpos
    have hdrop : fp.data.drop fp.pos = records_octets byteswap recs ++ tail := by
      rw [hdata, hpos, ← hhdr, List.drop_left]
    obtain ⟨p1, ⟨q, p2⟩, p3⟩ :=
      read_pass_complete_tail tail st byteswap hst htail recs s fp hfp hsw hdrop hall
    have hp : read_loop (octets_left s.f + 1) s = read_pass s := rfl
    simp only [pass_loop, hp]
    by_cases hk : k = 0
    · subst hk
      have hcond : ¬ i < loop_count - 1 := by rw [hlc]; push_cast; omega
      simp only [if_neg hcond, pass_loop]
      refine ⟨?_, fun _ => p1⟩
      rw [p3]; simp
    · have hcond : i < loop_count - 1 := by rw [hlc]; push_cast; omega
      simp only [if_pos hcond]
      have hrew : rewind (read_pass s).f
          = { s.f with file_ptr := some ({ fp with pos := 24 }) } := by
        rw [p2]
        simp [rewind, fseek_set, sizeof_pcap_file_hdr]
      obtain ⟨i1, i3⟩ := ih (i + 1) { read_pass s with f := rewind (read_pass s).f }
        { fp with pos := 24 } (by rw [hlc]; push_cast; omega)
        (by rw [hrew]) (by rw [hrew]; exact hsw) (by exact hdata) rfl
      refine ⟨?_, fun _ => i3 (by omega)⟩
      rw [i1]
      simp only [p3, List.replicate_succ, List.flatten_cons, List.append_assoc]

/-- Replaying a file whose complete records, of at least one captured octet
each, are followed by octets at which `pcap_file_read_packet` stops: the
status of the stop decides the returned status, and the handler is invoked
for the records only. -/
theorem dispatch_complete_tail (tail : List Byte) (st : status)
    (hst : st ≠ status.status_ok)
    (f : pcap_file) (fp : FILE) (recs : List pcap_record)
    (hdr : List Byte) (n : Nat) (pkthdr : pcap_pkthdr) (packet_data : List Byte)
    (htail : ∀ (g : pcap_file) (gp : FILE) (pkthdr : pcap_pkthdr) (packet_data : List Byte),
      g.file_ptr = some gp → g.byteswap = f.byteswap → gp.data.drop gp.pos = tail →
      (pcap_file_read_packet g pkthdr packet_data).1 = st ∧
      ∃ q, (pcap_file_read_packet g pkthdr packet_data).2.1
        = { g with file_ptr := some { gp with pos := q } })
    (hfp : f.file_ptr = some fp)
    (hdata : fp.data = hdr ++ (records_octets f.byteswap recs ++ tail))
    (hhdr : hdr.length = 24) (hpos : fp.pos = 24)
    (hall : ∀ r ∈ recs, r.ts_sec < U32 ∧ r.ts_usec < U32 ∧ 1 ≤ r.payload.length ∧
      r.payload.length < U32)
    (hn : 1 ≤ n) :
    (pcap_file_dispatch_frame_handler f (n : Int) pkthdr packet_data).1
      = (if st = status.status_err_no_more_data then status.status_ok else st) ∧
    (pcap_file_dispatch_frame_handler f (n : Int) pkthdr packet_data).2.2.map pcap_call.delivered
      = (List.replicate n (recs.map record_delivery)).flatten := by
  obtain ⟨h1, h3⟩ := pass_loop_complete_tail tail st f.byteswap hst htail recs hdr hhdr
    (n : Int) hall n 0
    { f := f, st := status.status_ok, pkthdr := pkthdr, packet_data := packet_data,
      total_length := sizeof_pcap_file_hdr, num_packets := 0, calls := [] }
    fp (by simp) hfp rfl hdata hpos
  simp only [List.map_nil, List.nil_append] at h1
  have hs := h3 (by omega)
  constructor
  · simp only [pcap_file_dispatch_frame_handler, Int.toNat_ofNat, hs]
  · simpa [pcap_file_dispatch_frame_handler] using h1

/-- C12 as stated fails for a record of more than `BUFLEN` captured octets:
with `byteswap = 0`, on a file whose only record stores `incl_len = 32768`
and has all its octets, `pcap_file_read_packet` returns `status_ok` with
`caplen = 16384`, not the stored 32768. -/
theorem C12_counterexample :
    oversized_reader.byteswap = 0 ∧
    le32 ((record_octets 0 oversized_record).drop 8) = 32768 ∧
    (pcap_file_read_packet oversized_reader blank_pkthdr []).1 = status.status_ok ∧
    (pcap_file_read_packet oversized_reader blank_pkthdr []).2.2.1.caplen = 16384 ∧
    (pcap_file_read_packet oversized_reader blank_pkthdr []).2.2.1.caplen ≠ 32768 := by
  have h1 : BUFLEN < oversized_record.payload.length := by
    rw [oversized_record_length]; decide
  have h2 : oversized_record.payload.length < U32 := by
    rw [oversized_record_length]; decide
  have hlenf : (oversized_record.payload.take BUFLEN).length = BUFLEN := by
    rw [List.length_take]; omega
  have hsplit : record_octets 0 oversized_record =
      (if (0 : Nat) ≠ 0 then
        packet_hdr_bytes (ntohl oversized_record.ts_sec) (ntohl oversized_record.ts_usec)
          (ntohl oversized_record.payload.length) (ntohl oversized_record.orig_len)
       else packet_hdr_bytes oversized_record.ts_sec oversized_record.ts_usec
          oversized_record.payload.length oversized_record.orig_len)
      ++ (oversized_record.payload.take BUFLEN ++ oversized_record.payload.drop BUFLEN) := by
    rw [List.take_append_drop]
    rfl
  have h := read_packet_oversized oversized_reader
    { data := file_header_bytes ++ record_octets 0 oversized_record, pos := 24 }
    oversized_record (oversized_record.payload.take BUFLEN)
    (oversized_record.payload.drop BUFLEN) blank_pkthdr [] rfl
    ((drop_file_header _).trans hsplit) hlenf (by decide) (by decide) h1 h2
  have hstored : le32 ((record_octets 0 oversized_record).drop 8) = 32768 := by
    have e : record_octets 0 oversized_record
        = packet_hdr_bytes oversized_record.ts_sec oversized_record.ts_usec
            oversized_record.payload.length oversized_record.orig_len
          ++ oversized_record.payload := rfl
    rw [e, oversized_record_length]
    rfl
  refine ⟨rfl, hstored, ?_, ?_, ?_⟩
  · rw [h]
  · rw [h]; rfl
  · rw [h]; decide

/-! ## Theorems: a capture file that ends inside its final record -/

/-- C11, amended: on a file that holds complete records, each of at least one
captured octet, followed by a final record cut after its first `t` octets,
`pcap_file_dispatch_frame_handler` invokes the handler for every complete
record, in every pass (a record of more than `BUFLEN` captured octets with
its first `BUFLEN` octets), and not for the cut record; it returns
`status_ok` when the cut is inside the 16-octet record header (`t < 16`),
and `status_err` when the cut is inside the captured octets before the
first `min(incl_len, BUFLEN)` of them are complete. -/
theorem C11_truncated_final_record (f : pcap_file) (fp : FILE) (recs : List pcap_record)
    (hdr : List Byte) (r : pcap_record) (t n : Nat) (pkthdr : pcap_pkthdr)
    (packet_data : List Byte)
    (hfp : f.file_ptr = some fp)
    (hdata : fp.data = hdr ++ (records_octets f.byteswap recs ++
      (record_octets f.byteswap r).take t))
    (hhdr : hdr.length = 24) (hpos : fp.pos = 24)
    (hall : ∀ r ∈ recs, r.ts_sec < U32 ∧ r.ts_usec < U32 ∧ 1 ≤ r.payload.length ∧
      r.payload.length < U32)
    (hsec : r.ts_sec < U32) (husec : r.ts_usec < U32) (hlen : r.payload.length < U32)
    (hn : 1 ≤ n) :
    (t < 16 →
      (pcap_file_dispatch_frame_handler f (n : Int) pkthdr packet_data).1 = status.status_ok ∧
      (pcap_file_dispatch_frame_handler f (n : Int) pkthdr packet_data).2.2.map
          pcap_call.delivered
        = (List.replicate n (recs.map record_delivery)).flatten) ∧
    (16 ≤ t → t < 16 + min r.payload.length BUFLEN →
      (pcap_file_dispatch_frame_handler f (n : Int) pkthdr packet_data).1 = status.status_err ∧
      (pcap_file_dispatch_frame_handler f (n : Int) pkthdr packet_data).2.2.map
          pcap_call.delivered
        = (List.replicate n (recs.map record_delivery)).flatten) := by
  constructor
  · intro ht
    have htail : ∀ (g : pcap_file) (gp : FILE) (pkthdr : pcap_pkthdr) (packet_data : List Byte),
        g.file_ptr = some gp → g.byteswap = f.byteswap →
        gp.data.drop gp.pos = (record_octets f.byteswap r).take t →
        (pcap_file_read_packet g pkthdr packet_data).1 = status.status_err_no_more_data ∧
        ∃ q, (pcap_file_read_packet g pkthdr packet_data).2.1
          = { g with file_ptr := some { gp with pos := q } } := by
      intro g gp ph pd hg _ hd
      have hshort : (gp.data.drop gp.pos).length < 16 := by
        rw [hd, List.length_take]; omega
      rw [read_packet_short_header g gp ph pd hg hshort]
      exact ⟨rfl, _, rfl⟩
    have h := dispatch_complete_tail _ status.status_err_no_more_data (by decide) f fp recs hdr n
      pkthdr packet_data htail hfp hdata hhdr hpos hall hn
    simpa using h
  · intro ht1 ht2
    have htail : ∀ (g : pcap_file) (gp : FILE) (pkthdr : pcap_pkthdr) (packet_data : List Byte),
        g.file_ptr = some gp → g.byteswap = f.byteswap →
        gp.data.drop gp.pos = (record_octets f.byteswap r).take t →
        (pcap_file_read_packet g pkthdr packet_data).1 = status.status_err ∧
        ∃ q, (pcap_file_read_packet g pkthdr packet_data).2.1
          = { g with file_ptr := some { gp with pos := q } } := by
      intro g gp ph pd hg hsw hd
      obtain ⟨h16, hl16, hsplit, hdec⟩ := record_header_decode f.byteswap r ph hsec husec hlen
      have hd2 : gp.data.drop gp.pos = h16 ++ r.payload.take (t - 16) := by
        rw [hd, hsplit, List.take_append_eq_append_take, hl16,
          List.take_of_length_le (by omega)]
      obtain ⟨e1, e2⟩ := read_packet_short_payload g gp h16 (r.payload.take (t - 16)) ph pd hg
        hl16 hd2 (by rw [hsw, hdec, List.length_take]; simp only; omega)
      exact ⟨e1, _, e2⟩
    have h := dispatch_complete_tail _ status.status_err (by decide) f fp recs hdr n
      pkthdr packet_data htail hfp hdata hhdr hpos hall hn
    simpa using h

/-- C11, amended, on a file of two complete records and a third one cut
after 17 octets, replayed once: `status_err` after two invocations. -/
theorem C11_truncated_final_record_witness :
    (truncated_reader.file_ptr = some
        { data := file_header_bytes ++ (records_octets 0 sample_records ++
            (record_octets 0
              { ts_sec := 3, ts_usec := 3000, orig_len := 2,
                payload := [byte 4, byte 5] }).take 17)
          pos := 24 } ∧ 16 ≤ 17 ∧ 17 < 16 + min 2 BUFLEN ∧ 1 ≤ 1) ∧
    (pcap_file_dispatch_frame_handler truncated_reader ((1 : Nat) : Int) blank_pkthdr []).1
      = status.status_err ∧
    (pcap_file_dispatch_frame_handler truncated_reader ((1 : Nat) : Int) blank_pkthdr []).2.2.map
        pcap_call.delivered
      = (List.replicate 1 (sample_records.map record_delivery)).flatten :=
  ⟨⟨rfl, by decide, by decide, by decide⟩,
   (C11_truncated_final_record truncated_reader
      { data := file_header_bytes ++ (records_octets 0 sample_records ++
          (record_octets 0
            { ts_sec := 3, ts_usec := 3000, orig_len := 2, payload := [byte 4, byte 5] }).take 17)
        pos := 24 }
      sample_records file_header_bytes
      { ts_sec := 3, ts_usec := 3000, orig_len := 2, payload := [byte 4, byte 5] }
      17 1 blank_pkthdr [] rfl rfl rfl rfl (by decide) (by decide) (by decide) (by decide)
      (by decide)).2 (by decide) (by decide)⟩

/-- C11 as stated fails in two ways.  When the file ends inside the captured
octets of its final record, replaying it returns `status_err`, not
`status_ok` (the handler is invoked for the two complete records only).
When a record with `incl_len = 0` comes before a complete record and the
file ends inside the header of the final record, replaying it returns
`status_err` and the handler is not invoked for the complete record. -/
theorem C11_counterexample :
    ((pcap_file_dispatch_frame_handler truncated_reader 1 blank_pkthdr []).1
        = status.status_err ∧
      (pcap_file_dispatch_frame_handler truncated_reader 1 blank_pkthdr []).1
        ≠ status.status_ok ∧
      (pcap_file_dispatch_frame_handler truncated_reader 1 blank_pkthdr []).2.2.length = 2) ∧
    ((pcap_file_dispatch_frame_handler zero_then_cut_reader 1 blank_pkthdr []).1
        = status.status_err ∧
      (pcap_file_dispatch_frame_handler zero_then_cut_reader 1 blank_pkthdr []).1
        ≠ status.status_ok ∧
      (pcap_file_dispatch_frame_handler zero_then_cut_reader 1 blank_pkthdr []).2.2 = []) := by
  decide

end Mercury
